import Mathlib

/-! Package binary: encoder and decoder.

A shallow embedding of `encoder.go` and `decoder.go`.

* A byte is a `Nat` below 256, a buffer a `List Nat`.
* `uint64` is a `Nat` below `2 ^ 64`, `int64` an `Int` in `[-2 ^ 63, 2 ^ 63)`;
  truncating conversions are written with an explicit `%`.
* A slice `b` returned by `reserve` aliases the buffer: it is represented by
  its start offset, and `b[i] = v` becomes a write at `start + i`.
* An encoder method that returns `error` returns the pair of that error
  (`none` is `nil`) and the encoder state after the call. A Go panic is a
  separate outcome.
-/

namespace Binary

/-- Errors and panic payloads raised by the coders. -/
inductive Err where
  | buffOverflow
  | uvarintOverflow
  | unsupportedType
  | nonPointer
  | indexOutOfRange
  | badValue
  | serializerContract
  | serializerFailed
  | typeAssertion
  | unexpectedEOF
  | sliceBounds
  deriving DecidableEq, Repr

/-- Outcome of a decoder operation: a value, or a Go panic (fatal abort). -/
inductive Res (α : Type) where
  | ok (a : α)
  | panic (err : Err)
  deriving DecidableEq, Repr

/-- Byte order policy of a coder (`Endian`). -/
inductive Endian where
  | LittleEndian
  | BigEndian
  deriving DecidableEq, Repr

/-- Go `DefaultEndian`, the order the expected bytes of `TestPack` are written in. -/
def DefaultEndian : Endian := Endian.LittleEndian

/-- The embedded struct `coder` shared by `Encoder` and `Decoder`:
buffer, position, and the scalar-boolean accumulator. -/
structure coder where
  buff : List Nat
  pos : Nat
  boolPos : Nat
  boolBit : Nat
  endian : Endian
  deriving DecidableEq, Repr

/-- Go's `bool`. -/
abbrev bool : Type := Bool

/-- Go's `int64`, and `int` on the 64-bit platforms the tests are written for. -/
abbrev int64 : Type := Int

abbrev Encoder := coder
abbrev Decoder := coder

/-- Go `MaxVarintLen64`: the longest encoding of a 64-bit varint. -/
def MaxVarintLen64 : Nat := 10

/-- Modelled from the spec: `coder.reserve` on the encoding side is not in the
sources. It "returns a live window of exactly n bytes at the current position
and advances position by n; fails if fewer than n bytes remain between
position and buffer end", without partial advancement. The window is returned
as its start offset. This is the cursor contract only: the spec also has a
boolean run end at a non-boolean write, and the sources, in which no write
method other than `Encoder.Bool` touches `boolBit` or `boolPos`, do not show
whether `reserve` does that. Here `reserve` leaves the accumulator alone; a
statement below that depends on it (a boolean written after a non-boolean
write within one top-level value) is a statement about this definition. -/
def coder.reserve (c : coder) (size : Nat) : Option (Nat × coder) :=
  if c.pos + size ≤ c.buff.length then
    some (c.pos, { c with pos := c.pos + size })
  else none

/-- Modelled from the spec: `coder.resetBoolCoder` is not in the sources; it
resets the scalar-boolean accumulator, so that the next boolean write reserves
a byte. -/
def coder.resetBoolCoder (c : coder) : coder :=
  { c with boolPos := 0, boolBit := 0 }

/-- Auxiliary of `SizeofUvarint`: one byte per started group of 7 bits. -/
def sizeofUvarintAux : Nat → Nat → Nat
  | 0, _ => 1
  | fuel + 1, x => if x < 128 then 1 else 1 + sizeofUvarintAux fuel (x / 128)

/-- Modelled from the spec: `SizeofUvarint` is not in the sources. It "returns
byte count without encoding": "exactly 1 byte for x < 128, exactly 2 for
128 ≤ x < 16384, etc.", at most 10 bytes for a 64-bit value. -/
def SizeofUvarint (x : Nat) : Nat := sizeofUvarintAux 9 x

/-- Go `Encoder.Bool`. The store `buff[boolPos] |= mask` is written with a
total read and write; its index is in range whenever a run is open, since
`boolPos` is then the offset of a byte reserved earlier. -/
def Encoder.Bool (e : Encoder) (x : Bool) : Option Err × Encoder :=
  let step (e1 : coder) : Option Err × Encoder :=
    let mask := (1 <<< e1.boolBit) % 256
    let e2 : coder :=
      if x then
        { e1 with buff := e1.buff.set e1.boolPos ((e1.buff.getD e1.boolPos 0) ||| mask) }
      else e1
    (none, { e2 with boolBit := (e2.boolBit + 1) % 8 })
  if e.boolBit = 0 then
    match coder.reserve e 1 with
    | none => (some Err.buffOverflow, e)
    | some (b, e1) =>
      step { e1 with buff := e1.buff.set b 0, boolPos := e1.pos - 1 }
  else step e

/-- Go `Encoder.Uint8`. -/
def Encoder.Uint8 (e : Encoder) (x : Nat) : Option Err × Encoder :=
  match coder.reserve e 1 with
  | none => (some Err.buffOverflow, e)
  | some (b, e1) => (none, { e1 with buff := e1.buff.set b x })

/-- Go `Encoder.Int8`: `uint8(x)` is the two's-complement byte of `x`. -/
def Encoder.Int8 (e : Encoder) (x : Int) : Option Err × Encoder :=
  Encoder.Uint8 e (x % 256).toNat

/-- The loop of `Encoder.Uvarint`: `n` iterations from index `i`, writing into
the window that starts at offset `b`. -/
def Encoder.uvarintLoop (b : Nat) : Nat → Nat → List Nat → Nat → List Nat × Nat
  | 0, _, buff, x => (buff, x)
  | n + 1, i, buff, x =>
    Encoder.uvarintLoop b n (i + 1)
      (buff.set (b + i) (((x &&& 0x7f) ||| 0x80) % 256)) (x >>> 7)

/-- Go `Encoder.Uvarint`. -/
def Encoder.Uvarint (e : Encoder) (x : Nat) : (Nat × Option Err) × Encoder :=
  let size := SizeofUvarint x
  match coder.reserve e size with
  | none => ((0, some Err.buffOverflow), e)
  | some (b, e1) =>
    let r := Encoder.uvarintLoop b (size - 1) 0 e1.buff x
    ((size, none), { e1 with buff := r.1.set (b + (size - 1)) (r.2 % 256) })

/-- Modelled from the spec: `coder.reserve` on the decoding side (in-memory
source) is not in the sources. It returns the next `size` bytes and advances,
and aborts (panics) when fewer than `size` bytes remain; for `size ≤ 0` it
returns nil without moving (`Decoder.Skip` documents "It will return -1 if
size <= 0" and tests the result against nil). -/
def Decoder.reserve (d : Decoder) (size : Int) : Res (List Nat × Decoder) :=
  if size ≤ 0 then Res.ok ([], d)
  else if d.pos + size.toNat ≤ d.buff.length then
    Res.ok ((d.buff.drop d.pos).take size.toNat, { d with pos := d.pos + size.toNat })
  else Res.panic Err.buffOverflow

/-- Go `Decoder.Uint8`. -/
def Decoder.Uint8 (d : Decoder) : Res (Nat × Decoder) :=
  match Decoder.reserve d 1 with
  | Res.panic err => Res.panic err
  | Res.ok (b, d1) => Res.ok (b.getD 0 0, d1)

/-- Go `Decoder.Int8`: `int8(b)` reinterprets the byte as two's complement. -/
def Decoder.Int8 (d : Decoder) : Res (Int × Decoder) :=
  match Decoder.Uint8 d with
  | Res.panic err => Res.panic err
  | Res.ok (b, d1) => Res.ok (if b < 128 then (b : Int) else (b : Int) - 256, d1)

/-- The loop of `Decoder.Uvarint`: `n` iterations remain, `i` is the loop
counter; running out of iterations reaches the `panic` after the loop. -/
def Decoder.uvarintLoop : Nat → Nat → Nat → Nat → Decoder → Res ((Nat × Nat) × Decoder)
  | 0, _, _, _, _ => Res.panic Err.uvarintOverflow
  | n + 1, i, x, bit, d =>
    match Decoder.Uint8 d with
    | Res.panic err => Res.panic err
    | Res.ok (b, d1) =>
      let x1 := x ||| (((b &&& 0x7f) <<< bit) % 2 ^ 64)
      if b < 0x80 then
        if i > 9 ∨ (i = 9 ∧ b > 1) then Res.panic Err.uvarintOverflow
        else Res.ok ((x1, i + 1), d1)
      else Decoder.uvarintLoop n (i + 1) x1 (bit + 7) d1

/-- Go `Decoder.Uvarint`. -/
def Decoder.Uvarint (d : Decoder) : Res ((Nat × Nat) × Decoder) :=
  Decoder.uvarintLoop MaxVarintLen64 0 0 0 d

/-- A decoder over `buffer` (`Decoder.Init`). -/
def Decoder.Init (buffer : List Nat) (endian : Endian) : Decoder :=
  { buff := buffer, pos := 0, boolPos := 0, boolBit := 0, endian := endian }

/-- Go `Encoder.Init`, a method of an encoder that may have been used: it sets the
buffer to a zeroed buffer of `size` bytes, the position to 0 and the byte order,
and nothing else. -/
def Encoder.Init (e : Encoder) (size : Nat) (endian : Endian) : Encoder :=
  { e with buff := List.replicate size 0, pos := 0, endian := endian }

/-- Go `NewEncoderEndian`: `Init` on a new `Encoder{}`, whose fields are zero. -/
def NewEncoderEndian (size : Nat) (endian : Endian) : Encoder :=
  Encoder.Init { buff := [], pos := 0, boolPos := 0, boolBit := 0, endian := endian }
    size endian

/-- Go `NewEncoderBuffer`: a new encoder over `buffer`, in the default byte
order. -/
def NewEncoderBuffer (buffer : List Nat) : Encoder :=
  { buff := buffer, pos := 0, boolPos := 0, boolBit := 0, endian := DefaultEndian }

/-- The bytes written so far (`coder.Buffer`, `buff[:pos]`). -/
def coder.Buffer (c : coder) : List Nat := c.buff.take c.pos

/-- The wire form of an unsigned varint with `k` continuation bytes: `k` bytes
carrying 7 bits each under a set top bit, then the remaining value. -/
def uvarintBytes : Nat → Nat → List Nat
  | 0, x => [x % 256]
  | k + 1, x => (x % 128 + 128) :: uvarintBytes k (x / 128)

/-- Modelled from the spec: `ToUvarint` is not in the sources. Zigzag mapping
of a 64-bit signed value: "zigzag(n) = n<<1 if n ≥ 0, else (-n)<<1 - 1", in
64-bit unsigned arithmetic. -/
def ToUvarint (n : Int) : Nat :=
  if 0 ≤ n then ((2 * n) % 2 ^ 64).toNat else ((2 * (-n) - 1) % 2 ^ 64).toNat

/-- Modelled from the spec: `ToVarint` is not in the sources. The inverse of the
zigzag mapping "recovers sign from the low bit". -/
def ToVarint (ux : Nat) : Int :=
  if ux % 2 = 0 then ((ux / 2 : Nat) : Int) else -((ux / 2 : Nat) : Int) - 1

/-- Go `Encoder.Varint`. -/
def Encoder.Varint (e : Encoder) (x : Int) : (Nat × Option Err) × Encoder :=
  Encoder.Uvarint e (ToUvarint x)

/-- Go `Decoder.Varint`. -/
def Decoder.Varint (d : Decoder) : Res ((Int × Nat) × Decoder) :=
  match Decoder.Uvarint d with
  | Res.panic err => Res.panic err
  | Res.ok ((ux, n), d1) => Res.ok ((ToVarint ux, n), d1)

/-- The value accumulated from a list of varint bytes: 7 bits per byte, little
end first. -/
def groupsValue : List Nat → Nat
  | [] => 0
  | b :: bs => b % 128 + 128 * groupsValue bs

/-- Byte-wise stores of `src` into a window of the buffer that starts at offset
`b` (`copy(b, src)`, and the stores done by the `Put` methods). -/
def writeAt : List Nat → Nat → List Nat → List Nat
  | buff, _, [] => buff
  | buff, b, x :: xs => writeAt (buff.set b x) (b + 1) xs

/-- The `n` low bytes of `x`, least significant first. -/
def leBytes : Nat → Nat → List Nat
  | 0, _ => []
  | n + 1, x => (x % 256) :: leBytes n (x / 256)

/-- The number whose bytes, least significant first, are `bs`. -/
def leValue : List Nat → Nat
  | [] => 0
  | b :: bs => b + 256 * leValue bs

/-- Modelled from the spec: the `Endian` type is not in the sources. A
fixed-width integer is "n raw bytes in configured byte order"; little-endian
puts the least significant byte first, big-endian the most significant. -/
def Endian.put (en : Endian) (n x : Nat) : List Nat :=
  match en with
  | Endian.LittleEndian => leBytes n x
  | Endian.BigEndian => (leBytes n x).reverse

/-- Modelled from the spec: reading `n` raw bytes in the configured order, the
inverse of `Endian.put`. -/
def Endian.get (en : Endian) (b : List Nat) : Nat :=
  match en with
  | Endian.LittleEndian => leValue b
  | Endian.BigEndian => leValue b.reverse

/-- Go `endian.PutUint16(b, x)` on the window at offset `b`. -/
def Endian.PutUint16 (en : Endian) (buff : List Nat) (b x : Nat) : List Nat :=
  writeAt buff b (en.put 2 x)

/-- Go `endian.PutUint32(b, x)`. -/
def Endian.PutUint32 (en : Endian) (buff : List Nat) (b x : Nat) : List Nat :=
  writeAt buff b (en.put 4 x)

/-- Go `endian.PutUint64(b, x)`. -/
def Endian.PutUint64 (en : Endian) (buff : List Nat) (b x : Nat) : List Nat :=
  writeAt buff b (en.put 8 x)

/-- Go `endian.Uint16(b)`. -/
def Endian.Uint16 (en : Endian) (b : List Nat) : Nat := en.get (b.take 2)

/-- Go `endian.Uint32(b)`. -/
def Endian.Uint32 (en : Endian) (b : List Nat) : Nat := en.get (b.take 4)

/-- Go `endian.Uint64(b)`. -/
def Endian.Uint64 (en : Endian) (b : List Nat) : Nat := en.get (b.take 8)

/-- Conversion of a signed value to the unsigned type of `w` bits
(`uint16(x)`, `uint32(x)`, `uint64(x)`): two's complement. -/
def toUnsigned (w : Nat) (x : Int) : Nat := (x % 2 ^ w).toNat

/-- Conversion of an unsigned `w`-bit value to the signed type of the same
width (`int16(u)`, `int32(u)`, `int64(u)`). -/
def toSigned (w : Nat) (u : Nat) : Int :=
  if u % 2 ^ w < 2 ^ (w - 1) then ((u % 2 ^ w : Nat) : Int)
  else ((u % 2 ^ w : Nat) : Int) - 2 ^ w

/-- Go `Encoder.Uint16`. -/
def Encoder.Uint16 (e : Encoder) (x : Nat) (packed : bool) : Option Err × Encoder :=
  if packed then
    ((Encoder.Uvarint e x).1.2, (Encoder.Uvarint e x).2)
  else
    match coder.reserve e 2 with
    | none => (some Err.buffOverflow, e)
    | some (b, e1) => (none, { e1 with buff := e1.endian.PutUint16 e1.buff b x })

/-- Go `Encoder.Int16`. -/
def Encoder.Int16 (e : Encoder) (x : Int) (packed : bool) : Option Err × Encoder :=
  if packed then
    ((Encoder.Varint e x).1.2, (Encoder.Varint e x).2)
  else Encoder.Uint16 e (toUnsigned 16 x) false

/-- Go `Encoder.Uint32`. -/
def Encoder.Uint32 (e : Encoder) (x : Nat) (packed : bool) : Option Err × Encoder :=
  if packed then
    ((Encoder.Uvarint e x).1.2, (Encoder.Uvarint e x).2)
  else
    match coder.reserve e 4 with
    | none => (some Err.buffOverflow, e)
    | some (b, e1) => (none, { e1 with buff := e1.endian.PutUint32 e1.buff b x })

/-- Go `Encoder.Int32`. -/
def Encoder.Int32 (e : Encoder) (x : Int) (packed : bool) : Option Err × Encoder :=
  if packed then
    ((Encoder.Varint e x).1.2, (Encoder.Varint e x).2)
  else Encoder.Uint32 e (toUnsigned 32 x) false

/-- Go `Encoder.Uint64`. -/
def Encoder.Uint64 (e : Encoder) (x : Nat) (packed : bool) : Option Err × Encoder :=
  if packed then
    ((Encoder.Uvarint e x).1.2, (Encoder.Uvarint e x).2)
  else
    match coder.reserve e 8 with
    | none => (some Err.buffOverflow, e)
    | some (b, e1) => (none, { e1 with buff := e1.endian.PutUint64 e1.buff b x })

/-- Go `Encoder.Int64`. -/
def Encoder.Int64 (e : Encoder) (x : Int) (packed : bool) : Option Err × Encoder :=
  if packed then
    ((Encoder.Varint e x).1.2, (Encoder.Varint e x).2)
  else Encoder.Uint64 e (toUnsigned 64 x) false

/-- Go `Decoder.Uint16`. -/
def Decoder.Uint16 (d : Decoder) : Res (Nat × Decoder) :=
  match Decoder.reserve d 2 with
  | Res.panic err => Res.panic err
  | Res.ok (b, d1) => Res.ok (d1.endian.Uint16 b, d1)

/-- Go `Decoder.Int16`. -/
def Decoder.Int16 (d : Decoder) : Res (Int × Decoder) :=
  match Decoder.Uint16 d with
  | Res.panic err => Res.panic err
  | Res.ok (u, d1) => Res.ok (toSigned 16 u, d1)

/-- Go `Decoder.Uint32`. -/
def Decoder.Uint32 (d : Decoder) : Res (Nat × Decoder) :=
  match Decoder.reserve d 4 with
  | Res.panic err => Res.panic err
  | Res.ok (b, d1) => Res.ok (d1.endian.Uint32 b, d1)

/-- Go `Decoder.Int32`. -/
def Decoder.Int32 (d : Decoder) : Res (Int × Decoder) :=
  match Decoder.Uint32 d with
  | Res.panic err => Res.panic err
  | Res.ok (u, d1) => Res.ok (toSigned 32 u, d1)

/-- Go `Decoder.Uint64`. -/
def Decoder.Uint64 (d : Decoder) : Res (Nat × Decoder) :=
  match Decoder.reserve d 8 with
  | Res.panic err => Res.panic err
  | Res.ok (b, d1) => Res.ok (d1.endian.Uint64 b, d1)

/-- Go `Decoder.Int64`. -/
def Decoder.Int64 (d : Decoder) : Res (Int × Decoder) :=
  match Decoder.Uint64 d with
  | Res.panic err => Res.panic err
  | Res.ok (u, d1) => Res.ok (toSigned 64 u, d1)

/-- Round trip of one write: in byte order `en`, on every encoder with room
`enc` succeeds, stores exactly `bytes` at the cursor and advances by their
number, touching nothing else; and on every decoder positioned at a copy of
`bytes`, `dec` returns `x` and advances by their number. -/
def WritesAndReadsBack {α : Type} (enc : Encoder → Option Err × Encoder)
    (dec : Decoder → Res (α × Decoder)) (en : Endian) (bytes : List Nat) (x : α) : Prop :=
  (∀ e : Encoder, e.endian = en → e.pos + bytes.length ≤ e.buff.length →
    enc e = (none, { e with
      pos := e.pos + bytes.length,
      buff := e.buff.take e.pos ++ bytes ++ e.buff.drop (e.pos + bytes.length) })) ∧
  (∀ (d : Decoder) (pre rest : List Nat), d.endian = en →
    d.buff = pre ++ bytes ++ rest → d.pos = pre.length →
    dec d = Res.ok (x, { d with pos := d.pos + bytes.length }))

/-- Go `Encoder.String`: a string is the list of its bytes. -/
def Encoder.String (e : Encoder) (x : List Nat) : Option Err × Encoder :=
  let size := x.length
  match Encoder.Uvarint e size with
  | ((_, some err), e1) => (some err, e1)
  | ((_, none), e1) =>
    match coder.reserve e1 size with
    | none => (some Err.buffOverflow, e1)
    | some (b, e2) => (none, { e2 with buff := writeAt e2.buff b x })

/-- Go `Decoder.String`; `int(s)` is the 64-bit signed reading of the length. -/
def Decoder.String (d : Decoder) : Res (List Nat × Decoder) :=
  match Decoder.Uvarint d with
  | Res.panic err => Res.panic err
  | Res.ok ((s, _), d1) =>
    match Decoder.reserve d1 (toSigned 64 s) with
    | Res.panic err => Res.panic err
    | Res.ok (b, d2) => Res.ok (b, d2)

/-- The coder state after `bytes` have been stored at the cursor: the cursor
has moved past them and nothing else has changed. -/
def coder.splice (c : coder) (bytes : List Nat) : coder :=
  { c with
    pos := c.pos + bytes.length,
    buff := c.buff.take c.pos ++ bytes ++ c.buff.drop (c.pos + bytes.length) }

/-- Consecutive `Encoder.Bool` writes, one per element, stopping at the first
error. -/
def Encoder.boolRun : Encoder → List bool → Option Err × Encoder
  | e, [] => (none, e)
  | e, x :: xs =>
    match Encoder.Bool e x with
    | (some err, e1) => (some err, e1)
    | (none, e1) => Encoder.boolRun e1 xs

/-- The effect of packing boolean number `j` of a run on the bytes `acc` of the
run: a fresh byte at every multiple of 8, bit `j mod 8` of the last byte
otherwise. -/
def packStep (acc : List Nat) (j : Nat) (b : bool) : List Nat :=
  if j % 8 = 0 then acc ++ [if b then 1 else 0]
  else if b then
    acc.set (acc.length - 1) (acc.getD (acc.length - 1) 0 ||| 2 ^ (j % 8))
  else acc

/-- The bytes of a run after packing `bs`, from the bytes `acc` that hold the
first `j` booleans. -/
def packRun : List Nat → Nat → List bool → List Nat
  | acc, _, [] => acc
  | acc, j, b :: bs => packRun (packStep acc j b) (j + 1) bs

/-- The bit-packed bytes of a list of booleans. -/
def packBools (bs : List bool) : List Nat := packRun [] 0 bs

/-- The bytes `acc` hold the booleans `bs` bit-packed: there are
`ceil(len bs / 8)` of them, bit `r` of byte `q` is 1 exactly when boolean
`8 q + r` exists and is true (so unused bits are 0), and each is a byte. -/
def PackedBits (acc : List Nat) (bs : List bool) : Prop :=
  acc.length = (bs.length + 7) / 8 ∧
  (∀ q r : Nat, r < 8 → (acc.getD q 0).testBit r = bs.getD (8 * q + r) false) ∧
  (∀ q : Nat, acc.getD q 0 < 256)

/-- The coder state in the course of a run of bit-packed writes that started in
state `e0`: the bytes `acc` of the run stand at the former cursor, the cursor is
past them, and the boolean accumulator is `(boolBit, boolPos)`. -/
def runState (e0 : coder) (acc : List Nat) (boolBit boolPos : Nat) : coder :=
  { buff := (e0.splice acc).buff, pos := e0.pos + acc.length,
    boolPos := boolPos, boolBit := boolBit, endian := e0.endian }

/-! ## Values seen through reflection -/

mutual
/-- Go types, by kind. Named types are not distinguished from their underlying
type, and no type implements the serializer capabilities. -/
inductive GoType where
  | bool | int | uint
  | int8 | int16 | int32 | int64
  | uint8 | uint16 | uint32 | uint64
  | float32 | float64 | complex64 | complex128
  | string
  | slice (elem : GoType)
  | array (len : Nat) (elem : GoType)
  | map (key elem : GoType)
  | ptr (elem : GoType)
  | struct (fields : FieldList)
  | uintptr | chan | func | interface | unsafePointer
/-- The fields of a struct type in declaration order: name, whether the field
carries the "ignore" tag, whether it carries the "packed" tag, and type. -/
inductive FieldList where
  | nil
  | cons (name : String) (ignoreTag packedTag : Bool) (type : GoType) (rest : FieldList)
end

mutual
/-- The content of a Go value, read together with its `GoType`: integers of
every width as `int`/`uint`, floats and complex numbers by the bit patterns of
their parts, strings as bytes, slices, arrays and structs as the sequence of
their elements or fields, maps as their entries in the order `MapKeys`
enumerates them, pointers as nil or a referent. -/
inductive Data where
  | bool (b : Bool)
  | int (n : Int)
  | uint (n : Nat)
  | float (bits : Nat)
  | complex (re im : Nat)
  | string (s : List Nat)
  | seq (xs : DataList)
  | map (kvs : EntryList)
  | nilPtr
  | ptr (x : Data)
  | other
inductive DataList where
  | nil
  | cons (x : Data) (xs : DataList)
inductive EntryList where
  | nil
  | cons (k v : Data) (rest : EntryList)
end

deriving instance DecidableEq for GoType
deriving instance DecidableEq for Data
deriving instance Repr for GoType
deriving instance Repr for Data

/-- Go `v.Len()` of a slice or array. -/
def DataList.length : DataList → Nat
  | DataList.nil => 0
  | DataList.cons _ xs => xs.length + 1

/-- Go `len(v.MapKeys())`. -/
def EntryList.length : EntryList → Nat
  | EntryList.nil => 0
  | EntryList.cons _ _ rest => rest.length + 1

/-- A sequence from a list of elements. -/
def DataList.ofList : List Data → DataList
  | [] => DataList.nil
  | x :: xs => DataList.cons x (DataList.ofList xs)

/-- The elements of a sequence. -/
def DataList.toList : DataList → List Data
  | DataList.nil => []
  | DataList.cons x xs => x :: xs.toList

/-- A sequence of `n` copies of `x`. -/
def DataList.replicate : Nat → Data → DataList
  | 0, _ => DataList.nil
  | n + 1, x => DataList.cons x (DataList.replicate n x)

/-- Go `v.Bool()`. -/
def Data.toBool : Data → Bool
  | Data.bool b => b
  | _ => false

/-- Go `v.Int()`. -/
def Data.toInt : Data → Int
  | Data.int n => n
  | _ => 0

/-- Go `v.Uint()`. -/
def Data.toNat : Data → Nat
  | Data.uint n => n
  | _ => 0

/-- Go `math.Float32bits(v.Float())` or `math.Float64bits(v.Float())`. -/
def Data.bits : Data → Nat
  | Data.float b => b
  | _ => 0

/-- Bit pattern of `real(v.Complex())`. -/
def Data.re : Data → Nat
  | Data.complex r _ => r
  | _ => 0

/-- Bit pattern of `imag(v.Complex())`. -/
def Data.im : Data → Nat
  | Data.complex _ i => i
  | _ => 0

/-- Go `v.String()` as bytes. -/
def Data.bytes : Data → List Nat
  | Data.string s => s
  | _ => []

/-- Go `t.Kind() == reflect.Ptr`. -/
def GoType.isPtr : GoType → Bool
  | GoType.ptr _ => true
  | _ => false

/-- Modelled from the spec: `validField` is not in the sources. A field is
skipped "when unexported/private, or explicitly tagged to be skipped, or is a
placeholder (blank/anonymous) field"; a name is exported when it starts with an
upper-case letter. -/
def validField (name : String) (ignoreTag : Bool) : Bool :=
  !ignoreTag && (match name.toList with
    | c :: _ => decide ('A' ≤ c ∧ c ≤ 'Z')
    | [] => false)

mutual
/-- Modelled from the spec: `validUserType` is not in the sources (nor is
`sizeofNilPointer`, whose negative result the decoder uses for the same test).
"Element type must be a supported kind or encoding fails": a type is valid when
its kind is one the coders handle and so are the types it is built from. -/
def validUserType : GoType → Bool
  | GoType.slice t => validUserType t
  | GoType.array _ t => validUserType t
  | GoType.map k v => validUserType k && validUserType v
  | GoType.ptr t => validUserType t
  | GoType.struct fs => validFields fs
  | GoType.uintptr | GoType.chan | GoType.func | GoType.interface
  | GoType.unsafePointer => false
  | _ => true
/-- Validity of the encoded fields of a struct. -/
def validFields : FieldList → Bool
  | FieldList.nil => true
  | FieldList.cons name ig _ t rest =>
    (!validField name ig || validUserType t) && validFields rest
end

/-- Modelled from the spec: `sizeofBoolArray` is not in the sources. A boolean
array takes "uvarint(length) + ceil(length/8) packed bytes"; the length is an
`int`. -/
def sizeofBoolArray (l : Int) : Int :=
  ((SizeofUvarint (toUnsigned 64 l) : Nat) : Int) + Int.tdiv (l + 7) 8

/-- Modelled from the spec: `coder.mustReserve` is not in the sources; it is
`reserve` with buffer exhaustion as a fatal abort. -/
def coder.mustReserve (c : coder) (size : Nat) : Res (Nat × coder) :=
  match coder.reserve c size with
  | none => Res.panic Err.buffOverflow
  | some r => Res.ok r

/-- Go `Encoder.Int`. -/
def Encoder.Int (e : Encoder) (x : Int) : Option Err × Encoder :=
  ((Encoder.Varint e x).1.2, (Encoder.Varint e x).2)

/-- Go `Encoder.Uint`. -/
def Encoder.Uint (e : Encoder) (x : Nat) : Option Err × Encoder :=
  ((Encoder.Uvarint e x).1.2, (Encoder.Uvarint e x).2)

/-- Go `Encoder.Float32`, on the bit pattern `math.Float32bits(x)`. -/
def Encoder.Float32 (e : Encoder) (bits : Nat) : Option Err × Encoder :=
  Encoder.Uint32 e bits false

/-- Go `Encoder.Float64`, on the bit pattern `math.Float64bits(x)`. -/
def Encoder.Float64 (e : Encoder) (bits : Nat) : Option Err × Encoder :=
  Encoder.Uint64 e bits false

/-- Go `Encoder.Complex64`, on the bit patterns of the two parts. -/
def Encoder.Complex64 (e : Encoder) (re im : Nat) : Option Err × Encoder :=
  match Encoder.Uint32 e re false with
  | (none, e1) => Encoder.Uint32 e1 im false
  | (some err, e1) => (some err, e1)

/-- Go `Encoder.Complex128`, on the bit patterns of the two parts. -/
def Encoder.Complex128 (e : Encoder) (re im : Nat) : Option Err × Encoder :=
  match Encoder.Uint64 e re false with
  | (none, e1) => Encoder.Uint64 e1 im false
  | (some err, e1) => (some err, e1)

/-- The elements of a slice, array or struct value. -/
def Data.elems : Data → DataList
  | Data.seq xs => xs
  | _ => DataList.nil

/-- Go `intN(v.Int())`: truncation of an `int64` to `w` bits. -/
def truncInt (w : Nat) (n : Int) : Int := toSigned w (toUnsigned w n)

/-- Go `float32(v.Float())` for `v` of kind `Float32`, on the bit pattern of
the float32: `v.Float()` widens the float32 to a float64 and the conversion
narrows it again. The round trip is exact for every number and for the
infinities; for a NaN the widening returns a quiet NaN, so a signalling NaN
(exponent all ones, mantissa not zero, bit 22 clear) comes back with bit 22
set and the rest of its payload unchanged. -/
def quietNaN32 (bits : Nat) : Nat :=
  if (bits / 2 ^ 23) % 2 ^ 8 = 255 ∧ bits % 2 ^ 23 ≠ 0 ∧ bits % 2 ^ 23 < 2 ^ 22 then
    bits + 2 ^ 22
  else bits

/-- The loop of the `[]bool` case of `Encoder.fastValue`: element number `i`,
current window `b`, pending error `err`. -/
def Encoder.fastBoolLoop : DataList → Nat → Nat → Option Err → Encoder → Option Err × Encoder
  | DataList.nil, _, _, err, e => (err, e)
  | DataList.cons x xs, i, b, err, e =>
    let bit := i % 8
    let mask := (1 <<< bit) % 256
    if bit = 0 then
      match coder.reserve e 1 with
      | none => (some Err.buffOverflow, e)
      | some (b1, e1) =>
        let e2 : coder := { e1 with buff := e1.buff.set b1 0 }
        let e3 : coder :=
          if x.toBool then { e2 with buff := e2.buff.set b1 (e2.buff.getD b1 0 ||| mask) }
          else e2
        Encoder.fastBoolLoop xs (i + 1) b1 none e3
    else
      let e3 : coder :=
        if x.toBool then { e with buff := e.buff.set b (e.buff.getD b 0 ||| mask) }
        else e
      Encoder.fastBoolLoop xs (i + 1) b err e3

/-- The element loops of the slice cases of `Encoder.fastValue`, which drop the
error of every write. -/
def Encoder.fastLoop (w : Encoder → Data → Encoder) : DataList → Encoder → Encoder
  | DataList.nil, e => e
  | DataList.cons x xs, e => Encoder.fastLoop w xs (w e x)

/-- Go `Encoder.fastValue`: the first component tells whether the type of `x` is
one of the fast-path types. -/
def Encoder.fastValue (e : Encoder) (t : GoType) (x : Data) : bool × Option Err × Encoder :=
  let slice (w : Encoder → Data → Encoder) : bool × Option Err × Encoder :=
    (true, none, Encoder.fastLoop w x.elems (Encoder.Uvarint e x.elems.length).2)
  match t with
  | GoType.int => (true, Encoder.Int e x.toInt)
  | GoType.uint => (true, Encoder.Uint e x.toNat)
  | GoType.bool => (true, Encoder.Bool e x.toBool)
  | GoType.int8 => (true, Encoder.Int8 e x.toInt)
  | GoType.uint8 => (true, Encoder.Uint8 e x.toNat)
  | GoType.int16 => (true, Encoder.Int16 e x.toInt false)
  | GoType.uint16 => (true, Encoder.Uint16 e x.toNat false)
  | GoType.int32 => (true, Encoder.Int32 e x.toInt false)
  | GoType.uint32 => (true, none, (Encoder.Uint32 e x.toNat false).2)
  | GoType.float32 => (true, Encoder.Float32 e x.bits)
  | GoType.int64 => (true, Encoder.Int64 e x.toInt false)
  | GoType.uint64 => (true, Encoder.Uint64 e x.toNat false)
  | GoType.float64 => (true, Encoder.Float64 e x.bits)
  | GoType.complex64 => (true, Encoder.Complex64 e x.re x.im)
  | GoType.complex128 => (true, Encoder.Complex128 e x.re x.im)
  | GoType.string => (true, Encoder.String e x.bytes)
  | GoType.slice GoType.bool =>
    let r := Encoder.Uvarint e x.elems.length
    (true, Encoder.fastBoolLoop x.elems 0 0 r.1.2 r.2)
  | GoType.slice GoType.int8 => slice (fun e1 d => (Encoder.Int8 e1 d.toInt).2)
  | GoType.slice GoType.uint8 => slice (fun e1 d => (Encoder.Uint8 e1 d.toNat).2)
  | GoType.slice GoType.int16 => slice (fun e1 d => (Encoder.Int16 e1 d.toInt false).2)
  | GoType.slice GoType.uint16 => slice (fun e1 d => (Encoder.Uint16 e1 d.toNat false).2)
  | GoType.slice GoType.int32 => slice (fun e1 d => (Encoder.Int32 e1 d.toInt false).2)
  | GoType.slice GoType.uint32 => slice (fun e1 d => (Encoder.Uint32 e1 d.toNat false).2)
  | GoType.slice GoType.int64 => slice (fun e1 d => (Encoder.Int64 e1 d.toInt false).2)
  | GoType.slice GoType.uint64 => slice (fun e1 d => (Encoder.Uint64 e1 d.toNat false).2)
  | GoType.slice GoType.float32 => slice (fun e1 d => (Encoder.Float32 e1 d.bits).2)
  | GoType.slice GoType.float64 => slice (fun e1 d => (Encoder.Float64 e1 d.bits).2)
  | GoType.slice GoType.complex64 => slice (fun e1 d => (Encoder.Complex64 e1 d.re d.im).2)
  | GoType.slice GoType.complex128 => slice (fun e1 d => (Encoder.Complex128 e1 d.re d.im).2)
  | GoType.slice GoType.string => slice (fun e1 d => (Encoder.String e1 d.bytes).2)
  | GoType.slice GoType.int => slice (fun e1 d => (Encoder.Uvarint e1 (ToUvarint d.toInt)).2)
  | GoType.slice GoType.uint => slice (fun e1 d => (Encoder.Uvarint e1 d.toNat).2)
  | _ => (false, none, e)

/-- The loop of `Encoder.boolArray`: element number `i`, current window `b`. -/
def Encoder.boolArrayLoop : DataList → Nat → Nat → Encoder → Res Encoder
  | DataList.nil, _, _, e => Res.ok e
  | DataList.cons x xs, i, b, e =>
    let bit := i % 8
    let mask := (1 <<< bit) % 256
    if bit = 0 then
      match coder.mustReserve e 1 with
      | Res.panic err => Res.panic err
      | Res.ok (b1, e1) =>
        let e2 : coder := { e1 with buff := e1.buff.set b1 0 }
        let e3 : coder :=
          if x.toBool then { e2 with buff := e2.buff.set b1 (e2.buff.getD b1 0 ||| mask) }
          else e2
        Encoder.boolArrayLoop xs (i + 1) b1 e3
    else
      let e3 : coder :=
        if x.toBool then { e with buff := e.buff.set b (e.buff.getD b 0 ||| mask) }
        else e
      Encoder.boolArrayLoop xs (i + 1) b e3

/-- Go `Encoder.boolArray`: `-1` when `v` is not a slice or array of booleans. -/
def Encoder.boolArray (e : Encoder) (t : GoType) (v : Data) : Res (int64 × Encoder) :=
  match t with
  | GoType.slice GoType.bool | GoType.array _ GoType.bool =>
    let l := v.elems.length
    match Encoder.boolArrayLoop v.elems 0 0 (Encoder.Uvarint e l).2 with
    | Res.panic err => Res.panic err
    | Res.ok e2 => Res.ok (sizeofBoolArray (l : Nat), e2)
  | _ => Res.ok (-1, e)

mutual
/-- Go `Encoder.value`, for values whose type implements no serializer capability
(the serializer test at its entry is then false). The result is the returned
error and the encoder state, or a panic. The cases `Float32` and `Complex64`
write `float32(v.Float())` and `complex64(v.Complex())`, which pass through
float64. -/
def Encoder.value (e : Encoder) (t : GoType) (v : Data) (packed : bool) :
    Res (Option Err × Encoder) :=
  match t with
  | GoType.int => Res.ok (none, (Encoder.Uvarint e (ToUvarint v.toInt)).2)
  | GoType.uint => Res.ok (none, (Encoder.Uvarint e v.toNat).2)
  | GoType.bool => Res.ok (none, (Encoder.Bool e v.toBool).2)
  | GoType.int8 =>
    match coder.mustReserve e 1 with
    | Res.panic err => Res.panic err
    | Res.ok (b, e1) => Res.ok (none, { e1 with buff := e1.buff.set b (toUnsigned 8 v.toInt) })
  | GoType.int16 => Res.ok (none, (Encoder.Int16 e (truncInt 16 v.toInt) packed).2)
  | GoType.int32 => Res.ok (none, (Encoder.Int32 e (truncInt 32 v.toInt) packed).2)
  | GoType.int64 => Res.ok (none, (Encoder.Int64 e v.toInt packed).2)
  | GoType.uint8 => Res.ok (none, (Encoder.Uint8 e (v.toNat % 2 ^ 8)).2)
  | GoType.uint16 => Res.ok (none, (Encoder.Uint16 e (v.toNat % 2 ^ 16) packed).2)
  | GoType.uint32 =>
    if packed then Res.ok (none, (Encoder.Uvarint e v.toNat).2)
    else
      match coder.mustReserve e 4 with
      | Res.panic err => Res.panic err
      | Res.ok (b, e1) =>
        Res.ok (none, { e1 with buff := e1.endian.PutUint32 e1.buff b (v.toNat % 2 ^ 32) })
  | GoType.uint64 =>
    if packed then Res.ok (none, (Encoder.Uvarint e v.toNat).2)
    else
      match coder.mustReserve e 8 with
      | Res.panic err => Res.panic err
      | Res.ok (b, e1) =>
        Res.ok (none, { e1 with buff := e1.endian.PutUint64 e1.buff b v.toNat })
  | GoType.float32 => Res.ok (none, (Encoder.Float32 e (quietNaN32 v.bits)).2)
  | GoType.float64 => Res.ok (none, (Encoder.Float64 e v.bits).2)
  | GoType.complex64 =>
    Res.ok (none, (Encoder.Complex64 e (quietNaN32 v.re) (quietNaN32 v.im)).2)
  | GoType.complex128 => Res.ok (none, (Encoder.Complex128 e v.re v.im).2)
  | GoType.string => Res.ok (none, (Encoder.String e v.bytes).2)
  | GoType.slice elemT | GoType.array _ elemT =>
    if !validUserType elemT then Res.ok (some Err.unsupportedType, e)
    else
      match Encoder.boolArray e t v with
      | Res.panic err => Res.panic err
      | Res.ok (n, e1) =>
        if n < 0 then
          match v with
          | Data.seq xs =>
            Encoder.elems (Encoder.Uvarint e1 xs.length).2 elemT xs packed
          | _ => Res.panic Err.badValue
        else Res.ok (none, e1)
  | GoType.map kt vt =>
    if !validUserType kt || !validUserType vt then Res.ok (some Err.unsupportedType, e)
    else
      match v with
      | Data.map kvs =>
        Encoder.entries (Encoder.Uvarint e kvs.length).2 kt vt kvs packed
      | _ => Res.panic Err.badValue
  | GoType.struct fs =>
    match v with
    | Data.seq xs => Encoder.fields e fs xs
    | _ => Res.panic Err.badValue
  | GoType.ptr elemT =>
    if !validUserType t then Res.ok (some Err.unsupportedType, e)
    else
      match v with
      | Data.ptr x =>
        if elemT.isPtr then Res.ok (none, (Encoder.Bool e true).2)
        else Encoder.value (Encoder.Bool e true).2 elemT x packed
      | _ => Res.ok (none, (Encoder.Bool e false).2)
  | _ => Res.ok (some Err.unsupportedType, e)
/-- The element loop of the slice and array case of `Encoder.value`; the error
of an element is ignored. -/
def Encoder.elems (e : Encoder) (elemT : GoType) (xs : DataList) (packed : bool) :
    Res (Option Err × Encoder) :=
  match xs with
  | DataList.nil => Res.ok (none, e)
  | DataList.cons x rest =>
    match Encoder.value e elemT x packed with
    | Res.panic err => Res.panic err
    | Res.ok (_, e1) => Encoder.elems e1 elemT rest packed
/-- The entry loop of the map case of `Encoder.value`; the errors of keys and
values are ignored. -/
def Encoder.entries (e : Encoder) (kt vt : GoType) (kvs : EntryList) (packed : bool) :
    Res (Option Err × Encoder) :=
  match kvs with
  | EntryList.nil => Res.ok (none, e)
  | EntryList.cons k v rest =>
    match Encoder.value e kt k packed with
    | Res.panic err => Res.panic err
    | Res.ok (_, e1) =>
      match Encoder.value e1 vt v packed with
      | Res.panic err => Res.panic err
      | Res.ok (_, e2) => Encoder.entries e2 kt vt rest packed
/-- Modelled from the spec: `queryStruct(t).encode` is not in the sources.
"Records: delegate to the cached Type Plan; for each non-ignored field, recurse
with the field's packed flag", in declaration order; the first error ends the
traversal. -/
def Encoder.fields (e : Encoder) (fs : FieldList) (xs : DataList) :
    Res (Option Err × Encoder) :=
  match xs with
  | DataList.nil => Res.ok (none, e)
  | DataList.cons x rest =>
    match fs with
    | FieldList.nil => Res.ok (none, e)
    | FieldList.cons name ig pk ft frest =>
      if validField name ig then
        match Encoder.value e ft x pk with
        | Res.panic err => Res.panic err
        | Res.ok (some err, e1) => Res.ok (some err, e1)
        | Res.ok (none, e1) => Encoder.fields e1 frest rest
      else Encoder.fields e frest rest
end

/-- Go `Encoder.ValueX` on a value `x` of type `t` none of whose parts implements a
serializer capability. `reflect.Indirect` dereferences a top-level pointer; a
nil top-level pointer leaves an invalid `reflect.Value`, whose `Type()` panics. -/
def Encoder.ValueX (e : Encoder) (t : GoType) (x : Data) : Res (Option Err × Encoder) :=
  let e0 := coder.resetBoolCoder e
  match Encoder.fastValue e0 t x with
  | (true, err, e1) => Res.ok (err, e1)
  | (false, _, _) =>
    match t with
    | GoType.ptr elemT =>
      match x with
      | Data.ptr y => Encoder.value e0 elemT y false
      | _ => Res.panic Err.badValue
    | _ => Encoder.value e0 t x false

/-- Go `Encoder.Value`. -/
def Encoder.Value (e : Encoder) (t : GoType) (x : Data) : Res (Option Err × Encoder) :=
  Encoder.ValueX e t x

/-! ## Decoder -/

/-- Go `Decoder.Skip`: `-1` when `reserve` returned nil. -/
def Decoder.Skip (d : Decoder) (size : Int) : Res (Int × Decoder) :=
  match Decoder.reserve d size with
  | Res.panic err => Res.panic err
  | Res.ok (b, d1) => if b = [] then Res.ok (-1, d1) else Res.ok (size, d1)

/-- Go `Decoder.Bool`. -/
def Decoder.Bool (d : Decoder) : Res (bool × Decoder) :=
  match Decoder.reserve d 1 with
  | Res.panic err => Res.panic err
  | Res.ok (b, d1) => Res.ok (decide (b.getD 0 0 ≠ 0), d1)

/-- Go `Decoder.Float32`, as the bit pattern read. -/
def Decoder.Float32 (d : Decoder) : Res (Nat × Decoder) := Decoder.Uint32 d

/-- Go `Decoder.Float64`, as the bit pattern read. -/
def Decoder.Float64 (d : Decoder) : Res (Nat × Decoder) := Decoder.Uint64 d

/-- Go `Decoder.Complex64`: real part first. -/
def Decoder.Complex64 (d : Decoder) : Res ((Nat × Nat) × Decoder) :=
  match Decoder.Float32 d with
  | Res.panic err => Res.panic err
  | Res.ok (re, d1) =>
    match Decoder.Float32 d1 with
    | Res.panic err => Res.panic err
    | Res.ok (im, d2) => Res.ok ((re, im), d2)

/-- Go `Decoder.Complex128`: real part first. -/
def Decoder.Complex128 (d : Decoder) : Res ((Nat × Nat) × Decoder) :=
  match Decoder.Float64 d with
  | Res.panic err => Res.panic err
  | Res.ok (re, d1) =>
    match Decoder.Float64 d1 with
    | Res.panic err => Res.panic err
    | Res.ok (im, d2) => Res.ok ((re, im), d2)

/-- Go `Decoder.Int`. -/
def Decoder.Int (d : Decoder) : Res (int64 × Decoder) :=
  match Decoder.Varint d with
  | Res.panic err => Res.panic err
  | Res.ok ((n, _), d1) => Res.ok (n, d1)

/-- Go `Decoder.Uint`. -/
def Decoder.Uint (d : Decoder) : Res (Nat × Decoder) :=
  match Decoder.Uvarint d with
  | Res.panic err => Res.panic err
  | Res.ok ((n, _), d1) => Res.ok (n, d1)

mutual
/-- The zero value of a type (`reflect.New(t).Elem()`, the elements of
`reflect.MakeSlice`). -/
def zeroValue : GoType → Data
  | GoType.bool => Data.bool false
  | GoType.int | GoType.int8 | GoType.int16 | GoType.int32 | GoType.int64 => Data.int 0
  | GoType.uint | GoType.uint8 | GoType.uint16 | GoType.uint32 | GoType.uint64 => Data.uint 0
  | GoType.float32 | GoType.float64 => Data.float 0
  | GoType.complex64 | GoType.complex128 => Data.complex 0 0
  | GoType.string => Data.string []
  | GoType.slice _ => Data.seq DataList.nil
  | GoType.array n t => Data.seq (DataList.replicate n (zeroValue t))
  | GoType.map _ _ => Data.map EntryList.nil
  | GoType.ptr _ => Data.nilPtr
  | GoType.struct fs => Data.seq (zeroFields fs)
  | _ => Data.other
/-- The zero values of the fields of a struct. -/
def zeroFields : FieldList → DataList
  | FieldList.nil => DataList.nil
  | FieldList.cons _ _ _ t rest => DataList.cons (zeroValue t) (zeroFields rest)
end

/-- Modelled from the spec: `_fixTypeSize` is not in the sources. The size of a
value of a fixed-width kind ("Fixed-width integer (n bytes)", floats and complex
numbers as their parts, a lone boolean as one byte), `-1` for every other
type. -/
def _fixTypeSize : GoType → Int
  | GoType.bool | GoType.int8 | GoType.uint8 => 1
  | GoType.int16 | GoType.uint16 => 2
  | GoType.int32 | GoType.uint32 | GoType.float32 => 4
  | GoType.int64 | GoType.uint64 | GoType.float64 | GoType.complex64 => 8
  | GoType.complex128 => 16
  | _ => -1

/-- The element loops of `Decoder.skipByType` (slices, arrays): `n` elements
remain, `sum` bytes were counted; `assert(s >= 0, ...)` aborts on a negative
size. -/
def Decoder.skipLoop (f : Decoder → Res (int64 × Decoder)) : Nat → int64 → Decoder → Res (int64 × Decoder)
  | 0, sum, d => Res.ok (sum, d)
  | n + 1, sum, d =>
    match f d with
    | Res.panic err => Res.panic err
    | Res.ok (s, d1) =>
      if s < 0 then Res.panic Err.badValue
      else Decoder.skipLoop f n (sum + s) d1

/-- The entry loop of the map case of `Decoder.skipByType`. -/
def Decoder.skipEntries (fk fv : Decoder → Res (int64 × Decoder)) :
    Nat → int64 → Decoder → Res (int64 × Decoder)
  | 0, sum, d => Res.ok (sum, d)
  | n + 1, sum, d =>
    match fk d with
    | Res.panic err => Res.panic err
    | Res.ok (sk, d1) =>
      match fv d1 with
      | Res.panic err => Res.panic err
      | Res.ok (sv, d2) => Decoder.skipEntries fk fv n (sum + sk + sv) d2

mutual
/-- Go `Decoder.skipByType`. -/
def Decoder.skipByType (t : GoType) (d : Decoder) : Res (int64 × Decoder) :=
  if 0 < _fixTypeSize t then
    match Decoder.Skip d (_fixTypeSize t) with
    | Res.panic err => Res.panic err
    | Res.ok (_, d1) => Res.ok (_fixTypeSize t, d1)
  else
    match t with
    | GoType.int =>
      match Decoder.Varint d with
      | Res.panic err => Res.panic err
      | Res.ok ((_, n), d1) => Res.ok (((n : Nat) : int64), d1)
    | GoType.uint =>
      match Decoder.Uvarint d with
      | Res.panic err => Res.panic err
      | Res.ok ((_, n), d1) => Res.ok (((n : Nat) : int64), d1)
    | GoType.string =>
      match Decoder.Uvarint d with
      | Res.panic err => Res.panic err
      | Res.ok ((s, n), d1) =>
        match Decoder.Skip d1 (toSigned 64 s) with
        | Res.panic err => Res.panic err
        | Res.ok (_, d2) => Res.ok (toSigned 64 s + ((n : Nat) : int64), d2)
    | GoType.slice e | GoType.array _ e =>
      match Decoder.Uvarint d with
      | Res.panic err => Res.panic err
      | Res.ok ((s, sLen), d1) =>
        let cnt := toSigned 64 s
        if 0 < _fixTypeSize e then
          if e = GoType.bool then
            let totalSize := sizeofBoolArray cnt
            match Decoder.Skip d1 (totalSize - ((SizeofUvarint (toUnsigned 64 cnt) : Nat) : int64)) with
            | Res.panic err => Res.panic err
            | Res.ok (_, d2) => Res.ok (totalSize, d2)
          else
            match Decoder.Skip d1 (toSigned 64 (toUnsigned 64 (cnt * _fixTypeSize e))) with
            | Res.panic err => Res.panic err
            | Res.ok (_, d2) => Res.ok (toSigned 64 (toUnsigned 64 (cnt * _fixTypeSize e)), d2)
        else
          Decoder.skipLoop (fun dd => Decoder.skipByType e dd) cnt.toNat ((sLen : Nat) : int64) d1
    | GoType.map kt vt =>
      match Decoder.Uvarint d with
      | Res.panic err => Res.panic err
      | Res.ok ((s, sLen), d1) =>
        Decoder.skipEntries (fun dd => Decoder.skipByType kt dd)
          (fun dd => Decoder.skipByType vt dd) (toSigned 64 s).toNat ((sLen : Nat) : int64) d1
    | GoType.struct fs => Decoder.skipFields fs d
    | _ => Res.ok (-1, d)
/-- Modelled from the spec: `queryStruct(t).decodeSkipByType` is not in the
sources; the size-only traversal of a record advances past each non-ignored
field in declaration order and adds up their sizes. -/
def Decoder.skipFields (fs : FieldList) (d : Decoder) : Res (int64 × Decoder) :=
  match fs with
  | FieldList.nil => Res.ok (0, d)
  | FieldList.cons name ig _ ft rest =>
    if validField name ig then
      match Decoder.skipByType ft d with
      | Res.panic err => Res.panic err
      | Res.ok (s, d1) =>
        match Decoder.skipFields rest d1 with
        | Res.panic err => Res.panic err
        | Res.ok (s2, d2) => Res.ok (s + s2, d2)
    else Decoder.skipFields rest d
end

/-- The loop of `Decoder.boolArray`: `n` elements remain, `i` is the index,
`b` the current window, `xs` the destination from index `i` on. -/
def Decoder.boolArrayLoop : Nat → Nat → List Nat → DataList → Decoder → Res (DataList × Decoder)
  | 0, _, _, xs, d => Res.ok (xs, d)
  | n + 1, i, b, xs, d =>
    let bit := i % 8
    let mask := (1 <<< bit) % 256
    let r : Res (List Nat × Decoder) := if bit = 0 then Decoder.reserve d 1 else Res.ok (b, d)
    match r with
    | Res.panic err => Res.panic err
    | Res.ok (b1, d1) =>
      match xs with
      | DataList.nil => Res.panic Err.indexOutOfRange
      | DataList.cons _ rest =>
        match Decoder.boolArrayLoop n (i + 1) b1 rest d1 with
        | Res.panic err => Res.panic err
        | Res.ok (rest1, d2) =>
          Res.ok (DataList.cons (Data.bool (decide ((b1.getD 0 0 &&& mask) ≠ 0))) rest1, d2)

/-- Go `Decoder.boolArray` into a destination of type `t` holding `cur`: the
result, `-1` when `t` is not a slice or array of booleans, and the destination
afterwards. -/
def Decoder.boolArray (d : Decoder) (t : GoType) (cur : Data) : Res (int64 × Data × Decoder) :=
  let body (isSlice : bool) : Res (int64 × Data × Decoder) :=
    match Decoder.Uvarint d with
    | Res.panic err => Res.panic err
    | Res.ok ((l0, _), d1) =>
      let l := toSigned 64 l0
      let cur1 : Data :=
        if isSlice && decide (0 < l) then
          Data.seq (DataList.replicate l.toNat (Data.bool false))
        else cur
      match Decoder.boolArrayLoop l.toNat 0 [] cur1.elems d1 with
      | Res.panic err => Res.panic err
      | Res.ok (xs, d2) => Res.ok (sizeofBoolArray l, Data.seq xs, d2)
  match t with
  | GoType.slice GoType.bool => body true
  | GoType.array _ GoType.bool => body false
  | _ => Res.ok (-1, cur, d)

/-- The element loops of the slice cases of `Decoder.fastValue`. -/
def Decoder.fastLoop (rd : Decoder → Res (Data × Decoder)) : Nat → Decoder → Res (DataList × Decoder)
  | 0, d => Res.ok (DataList.nil, d)
  | n + 1, d =>
    match rd d with
    | Res.panic err => Res.panic err
    | Res.ok (x, d1) =>
      match Decoder.fastLoop rd n d1 with
      | Res.panic err => Res.panic err
      | Res.ok (xs, d2) => Res.ok (DataList.cons x xs, d2)

/-- The loop of the `*[]bool` case of `Decoder.fastValue`. -/
def Decoder.fastBoolLoop : Nat → Nat → List Nat → Decoder → Res (DataList × Decoder)
  | 0, _, _, d => Res.ok (DataList.nil, d)
  | n + 1, i, b, d =>
    let bit := i % 8
    let mask := (1 <<< bit) % 256
    let r : Res (List Nat × Decoder) := if bit = 0 then Decoder.reserve d 1 else Res.ok (b, d)
    match r with
    | Res.panic err => Res.panic err
    | Res.ok (b1, d1) =>
      match Decoder.fastBoolLoop n (i + 1) b1 d1 with
      | Res.panic err => Res.panic err
      | Res.ok (rest, d2) =>
        Res.ok (DataList.cons (Data.bool (decide ((b1.getD 0 0 &&& mask) ≠ 0))) rest, d2)

/-- Go `Decoder.fastValue` on `x` of type `t`: whether `t` is one of the fast-path
pointer types, and `x` afterwards. The store through a nil `x` panics, and so
does `make` with a negative length. The limit of the allocator is not part of
the model: for a length beyond it `make` panics in the code, while here the
reads of the elements run out of buffer. -/
def Decoder.fastValue (d : Decoder) (t : GoType) (x : Data) : Res (bool × Data × Decoder) :=
  let store {α : Type} (r : Res (α × Decoder)) (f : α → Data) : Res (bool × Data × Decoder) :=
    match r with
    | Res.panic err => Res.panic err
    | Res.ok (v, d1) =>
      if x = Data.nilPtr then Res.panic Err.badValue else Res.ok (true, Data.ptr (f v), d1)
  let slice (rd : Decoder → Res (Data × Decoder)) : Res (bool × Data × Decoder) :=
    match Decoder.Uvarint d with
    | Res.panic err => Res.panic err
    | Res.ok ((s, _), d1) =>
      if toSigned 64 s < 0 ∨ x = Data.nilPtr then Res.panic Err.badValue
      else store (Decoder.fastLoop rd (toSigned 64 s).toNat d1) Data.seq
  let rd {α : Type} (r : Decoder → Res (α × Decoder)) (f : α → Data) (dd : Decoder) :
      Res (Data × Decoder) :=
    match r dd with
    | Res.panic err => Res.panic err
    | Res.ok (v, d1) => Res.ok (f v, d1)
  match t with
  | GoType.ptr GoType.int => store (Decoder.Int d) Data.int
  | GoType.ptr GoType.uint => store (Decoder.Uint d) Data.uint
  | GoType.ptr GoType.bool => store (Decoder.Bool d) Data.bool
  | GoType.ptr GoType.int8 => store (Decoder.Int8 d) Data.int
  | GoType.ptr GoType.uint8 => store (Decoder.Uint8 d) Data.uint
  | GoType.ptr GoType.int16 => store (Decoder.Int16 d) Data.int
  | GoType.ptr GoType.uint16 => store (Decoder.Uint16 d) Data.uint
  | GoType.ptr GoType.int32 => store (Decoder.Int32 d) Data.int
  | GoType.ptr GoType.uint32 => store (Decoder.Uint32 d) Data.uint
  | GoType.ptr GoType.float32 => store (Decoder.Float32 d) Data.float
  | GoType.ptr GoType.int64 => store (Decoder.Int64 d) Data.int
  | GoType.ptr GoType.uint64 => store (Decoder.Uint64 d) Data.uint
  | GoType.ptr GoType.float64 => store (Decoder.Float64 d) Data.float
  | GoType.ptr GoType.complex64 => store (Decoder.Complex64 d) (fun c => Data.complex c.1 c.2)
  | GoType.ptr GoType.complex128 => store (Decoder.Complex128 d) (fun c => Data.complex c.1 c.2)
  | GoType.ptr GoType.string => store (Decoder.String d) Data.string
  | GoType.ptr (GoType.slice GoType.bool) =>
    match Decoder.Uvarint d with
    | Res.panic err => Res.panic err
    | Res.ok ((s, _), d1) =>
      if toSigned 64 s < 0 ∨ x = Data.nilPtr then Res.panic Err.badValue
      else store (Decoder.fastBoolLoop (toSigned 64 s).toNat 0 [] d1) Data.seq
  | GoType.ptr (GoType.slice GoType.int) => slice (rd Decoder.Int Data.int)
  | GoType.ptr (GoType.slice GoType.uint) => slice (rd Decoder.Uint Data.uint)
  | GoType.ptr (GoType.slice GoType.int8) => slice (rd Decoder.Int8 Data.int)
  | GoType.ptr (GoType.slice GoType.uint8) => slice (rd Decoder.Uint8 Data.uint)
  | GoType.ptr (GoType.slice GoType.int16) => slice (rd Decoder.Int16 Data.int)
  | GoType.ptr (GoType.slice GoType.uint16) => slice (rd Decoder.Uint16 Data.uint)
  | GoType.ptr (GoType.slice GoType.int32) => slice (rd Decoder.Int32 Data.int)
  | GoType.ptr (GoType.slice GoType.uint32) => slice (rd Decoder.Uint32 Data.uint)
  | GoType.ptr (GoType.slice GoType.int64) => slice (rd Decoder.Int64 Data.int)
  | GoType.ptr (GoType.slice GoType.uint64) => slice (rd Decoder.Uint64 Data.uint)
  | GoType.ptr (GoType.slice GoType.float32) => slice (rd Decoder.Float32 Data.float)
  | GoType.ptr (GoType.slice GoType.float64) => slice (rd Decoder.Float64 Data.float)
  | GoType.ptr (GoType.slice GoType.complex64) =>
    slice (rd Decoder.Complex64 (fun c => Data.complex c.1 c.2))
  | GoType.ptr (GoType.slice GoType.complex128) =>
    slice (rd Decoder.Complex128 (fun c => Data.complex c.1 c.2))
  | GoType.ptr (GoType.slice GoType.string) => slice (rd Decoder.String Data.string)
  | _ => Res.ok (false, x, d)

/-- Modelled from the spec: `newPtr` is not in the sources. The decoder writes
"into the destination's storage": on a destination of pointer kind `newPtr`
reports true, after pointing a nil destination at a newly allocated zero value
of the element type; on any other kind it reports false. The second component is
the referent the destination points to afterwards. -/
def newPtr (t : GoType) (cur : Data) : Bool × Data :=
  match t with
  | GoType.ptr elemT =>
    (true, match cur with
      | Data.ptr x => x
      | _ => zeroValue elemT)
  | _ => (false, cur)

/-- Go `v.SetMapIndex(key, value)`: the entry of an equal key is replaced, a new
key is added. -/
def EntryList.set : EntryList → Data → Data → EntryList
  | EntryList.nil, k, v => EntryList.cons k v EntryList.nil
  | EntryList.cons k0 v0 rest, k, v =>
    if k0 = k then EntryList.cons k0 v rest else EntryList.cons k0 v0 (rest.set k v)

/-- The element loop of the slice and array case of `Decoder.value`: `n`
encoded elements remain, `xs` is the destination from the current index on. An
element beyond the destination is skipped; the error of an element is ignored. -/
def Decoder.elemLoop (dec : Data → Decoder → Res (Option Err × Data × Decoder))
    (skip : Decoder → Res (int64 × Decoder)) :
    Nat → DataList → Decoder → Res (DataList × Decoder)
  | 0, xs, d => Res.ok (xs, d)
  | n + 1, DataList.nil, d =>
    match skip d with
    | Res.panic err => Res.panic err
    | Res.ok (_, d1) => Decoder.elemLoop dec skip n DataList.nil d1
  | n + 1, DataList.cons x xs, d =>
    match dec x d with
    | Res.panic err => Res.panic err
    | Res.ok (_, x1, d1) =>
      match Decoder.elemLoop dec skip n xs d1 with
      | Res.panic err => Res.panic err
      | Res.ok (xs1, d2) => Res.ok (DataList.cons x1 xs1, d2)

/-- The entry loop of the map case of `Decoder.value`: key and value are
decoded into zero values `zk`, `zv` and stored in the map. -/
def Decoder.entryLoop (deck decv : Data → Decoder → Res (Option Err × Data × Decoder))
    (zk zv : Data) : Nat → EntryList → Decoder → Res (EntryList × Decoder)
  | 0, m, d => Res.ok (m, d)
  | n + 1, m, d =>
    match deck zk d with
    | Res.panic err => Res.panic err
    | Res.ok (_, k, d1) =>
      match decv zv d1 with
      | Res.panic err => Res.panic err
      | Res.ok (_, v, d2) => Decoder.entryLoop deck decv zk zv n (m.set k v) d2

mutual
/-- Go `Decoder.value` into a destination of type `t` holding `cur`: the returned
error, the destination afterwards and the decoder state, or a panic. The cases
`Float32` and `Complex64` store `float64(this.Float32())` and
`complex128(this.Complex64())` with `SetFloat` and `SetComplex`, which pass
through float64. -/
def Decoder.value (t : GoType) (cur : Data) (d : Decoder) :
    Res (Option Err × Data × Decoder) :=
  let set {α : Type} (r : Res (α × Decoder)) (f : α → Data) :
      Res (Option Err × Data × Decoder) :=
    match r with
    | Res.panic err => Res.panic err
    | Res.ok (v, d1) => Res.ok (none, f v, d1)
  match t with
  | GoType.int => set (Decoder.Int d) Data.int
  | GoType.uint => set (Decoder.Uint d) Data.uint
  | GoType.bool => set (Decoder.Bool d) Data.bool
  | GoType.int8 => set (Decoder.Int8 d) Data.int
  | GoType.int16 => set (Decoder.Int16 d) Data.int
  | GoType.int32 => set (Decoder.Int32 d) Data.int
  | GoType.int64 => set (Decoder.Int64 d) Data.int
  | GoType.uint8 => set (Decoder.Uint8 d) Data.uint
  | GoType.uint16 => set (Decoder.Uint16 d) Data.uint
  | GoType.uint32 => set (Decoder.Uint32 d) Data.uint
  | GoType.uint64 => set (Decoder.Uint64 d) Data.uint
  | GoType.float32 => set (Decoder.Float32 d) (fun b => Data.float (quietNaN32 b))
  | GoType.float64 => set (Decoder.Float64 d) Data.float
  | GoType.complex64 =>
    set (Decoder.Complex64 d) (fun c => Data.complex (quietNaN32 c.1) (quietNaN32 c.2))
  | GoType.complex128 => set (Decoder.Complex128 d) (fun c => Data.complex c.1 c.2)
  | GoType.string => set (Decoder.String d) Data.string
  | GoType.slice elemT =>
    if !validUserType elemT then Res.ok (some Err.unsupportedType, cur, d)
    else
      match Decoder.boolArray d (GoType.slice elemT) cur with
      | Res.panic err => Res.panic err
      | Res.ok (n, cur1, d1) =>
        if n < 0 then
          match Decoder.Uvarint d1 with
          | Res.panic err => Res.panic err
          | Res.ok ((s, _), d2) =>
            let size := toSigned 64 s
            let cur2 : Data :=
              if 0 < size then Data.seq (DataList.replicate size.toNat (zeroValue elemT))
              else cur1
            match Decoder.elemLoop (fun x dd => Decoder.value elemT x dd)
                (fun dd => Decoder.skipByType elemT dd) size.toNat cur2.elems d2 with
            | Res.panic err => Res.panic err
            | Res.ok (xs, d3) => Res.ok (none, Data.seq xs, d3)
        else Res.ok (none, cur1, d1)
  | GoType.array len elemT =>
    if !validUserType elemT then Res.ok (some Err.unsupportedType, cur, d)
    else
      match Decoder.boolArray d (GoType.array len elemT) cur with
      | Res.panic err => Res.panic err
      | Res.ok (n, cur1, d1) =>
        if n < 0 then
          match Decoder.Uvarint d1 with
          | Res.panic err => Res.panic err
          | Res.ok ((s, _), d2) =>
            match Decoder.elemLoop (fun x dd => Decoder.value elemT x dd)
                (fun dd => Decoder.skipByType elemT dd) (toSigned 64 s).toNat cur1.elems d2 with
            | Res.panic err => Res.panic err
            | Res.ok (xs, d3) => Res.ok (none, Data.seq xs, d3)
        else Res.ok (none, cur1, d1)
  | GoType.map kt vt =>
    if !validUserType kt || !validUserType vt then Res.ok (some Err.unsupportedType, cur, d)
    else
      match Decoder.Uvarint d with
      | Res.panic err => Res.panic err
      | Res.ok ((s, _), d1) =>
        let m : EntryList := match cur with
          | Data.map kvs => kvs
          | _ => EntryList.nil
        match Decoder.entryLoop (fun x dd => Decoder.value kt x dd)
            (fun x dd => Decoder.value vt x dd) (zeroValue kt) (zeroValue vt)
            (toSigned 64 s).toNat m d1 with
        | Res.panic err => Res.panic err
        | Res.ok (m1, d2) => Res.ok (none, Data.map m1, d2)
  | GoType.struct fs =>
    match Decoder.fields fs cur.elems d with
    | Res.panic err => Res.panic err
    | Res.ok (err, xs, d1) => Res.ok (err, Data.seq xs, d1)
  | GoType.ptr elemT =>
    match Decoder.value elemT (newPtr (GoType.ptr elemT) cur).2 d with
    | Res.panic err => Res.panic err
    | Res.ok (err, x1, d1) => Res.ok (err, Data.ptr x1, d1)
  | _ => Res.ok (some Err.unsupportedType, cur, d)
/-- Modelled from the spec: `queryStruct(t).decode` is not in the sources. The
decoder "mirrors" the encoder: each non-ignored field is decoded in declaration
order into the field of the destination, the other fields are left as they
are; the first error ends the traversal. -/
def Decoder.fields (fs : FieldList) (xs : DataList) (d : Decoder) :
    Res (Option Err × DataList × Decoder) :=
  match fs with
  | FieldList.nil => Res.ok (none, xs, d)
  | FieldList.cons name ig _ ft rest =>
    match xs with
    | DataList.nil => Res.ok (none, xs, d)
    | DataList.cons x xrest =>
      if validField name ig then
        match Decoder.value ft x d with
        | Res.panic err => Res.panic err
        | Res.ok (some err, x1, d1) => Res.ok (some err, DataList.cons x1 xrest, d1)
        | Res.ok (none, x1, d1) =>
          match Decoder.fields rest xrest d1 with
          | Res.panic err => Res.panic err
          | Res.ok (err, xs1, d2) => Res.ok (err, DataList.cons x1 xs1, d2)
      else
        match Decoder.fields rest xrest d with
        | Res.panic err => Res.panic err
        | Res.ok (err, xs1, d1) => Res.ok (err, DataList.cons x xs1, d1)
end

/-- Whether a panic payload is a Go `error` value, which the type assertion
`info.(error)` in the deferred function of `Decoder.Value` accepts. The payloads
raised by the coders are errors (`fmt.Errorf`, `io.ErrUnexpectedEOF`, run-time
errors; the payload of the reserve that is not in the sources is taken to be
one); `reflect.Value.Index` beyond the length of an array panics with a string
("reflect: array index out of range"). -/
def Err.isError : Err → Bool
  | Err.indexOutOfRange => false
  | _ => true

/-- The serializer capabilities of the dynamic type of a decoding destination:
`Unpack(buffer)` of `Unpacker` as a function of the bytes it is given, returning
the destination afterwards and the error; the result of `Size()` of `Sizer`;
whether the type implements `Packer`. -/
structure Capabilities where
  unpack : Option (List Nat → Data × Option Err)
  size : Option Int
  packer : Bool

/-- A type that implements no serializer capability. -/
def noCapabilities : Capabilities := { unpack := none, size := none, packer := false }

/-- Go `Decoder.Value` on `x` of type `t` whose dynamic type has the capabilities
`c` (no part of `x` has any): the returned error and, unless the decoder was
aborted midway by a panic, `x` afterwards and the decoder state; `Res.panic`
when a panic escapes the call. The deferred function converts a panic payload
with `info.(error)`: a payload that is not an error makes that assertion panic.
A type with methods is a defined type, which no case of the type switch of
`fastValue` matches. A nil pointer `x` cannot be set through and panics. -/
def Decoder.Value (d : Decoder) (c : Capabilities) (t : GoType) (x : Data) :
    Res (Option Err × Option (Data × Decoder)) :=
  let recovered (err : Err) (st : Option (Data × Decoder)) :
      Res (Option Err × Option (Data × Decoder)) :=
    if err.isError then Res.ok (some err, st) else Res.panic Err.typeAssertion
  let fast : Res (bool × Data × Decoder) :=
    if c.unpack.isSome || c.size.isSome || c.packer then Res.ok (false, x, d)
    else Decoder.fastValue d t x
  match fast with
  | Res.panic err => recovered err none
  | Res.ok (true, x1, d1) => Res.ok (none, some (x1, d1))
  | Res.ok (false, _, _) =>
    match c.unpack with
    | some unpack =>
      match c.size with
      | none => recovered Err.serializerContract (some (x, d))
      | some size =>
        if !c.packer then recovered Err.serializerContract (some (x, d))
        else
          match unpack (d.buff.drop d.pos) with
          | (x1, some err) => Res.ok (some err, some (x1, d))
          | (x1, none) =>
            match Decoder.reserve d size with
            | Res.panic err => recovered err (some (x1, d))
            | Res.ok (_, d1) => Res.ok (none, some (x1, d1))
    | none =>
      if c.size.isSome || c.packer then recovered Err.serializerContract (some (x, d))
      else if t.isPtr then
        if x = Data.nilPtr then recovered Err.badValue none
        else
          match Decoder.value t x d with
          | Res.panic err => recovered err none
          | Res.ok (err, x1, d1) => Res.ok (err, some (x1, d1))
      else Res.ok (some Err.nonPointer, some (x, d))

/-- The elements of a slice or array of booleans. -/
def boolData (bs : List bool) : DataList := DataList.ofList (bs.map Data.bool)

/-- The value stored under key `k`, if any (`v.MapIndex(k)`). -/
def EntryList.lookup : EntryList → Data → Option Data
  | EntryList.nil, _ => none
  | EntryList.cons k0 v0 rest, k => if k0 = k then some v0 else rest.lookup k

/-- The range of the signed integer types: `intN` holds `-2^(N-1) ≤ n < 2^(N-1)`,
`int` is 64 bits wide. -/
def intInRange (t : GoType) (n : Int) : Bool :=
  match t with
  | GoType.int8 => decide (-(2 : Int) ^ 7 ≤ n ∧ n < 2 ^ 7)
  | GoType.int16 => decide (-(2 : Int) ^ 15 ≤ n ∧ n < 2 ^ 15)
  | GoType.int32 => decide (-(2 : Int) ^ 31 ≤ n ∧ n < 2 ^ 31)
  | GoType.int | GoType.int64 => decide (-(2 : Int) ^ 63 ≤ n ∧ n < 2 ^ 63)
  | _ => false

/-- The range of the unsigned integer types: `uintN` holds `n < 2^N`, `uint` is
64 bits wide. -/
def uintInRange (t : GoType) (n : Nat) : Bool :=
  match t with
  | GoType.uint8 => decide (n < 2 ^ 8)
  | GoType.uint16 => decide (n < 2 ^ 16)
  | GoType.uint32 => decide (n < 2 ^ 32)
  | GoType.uint | GoType.uint64 => decide (n < 2 ^ 64)
  | _ => false

/-- The bit patterns of the floating-point types and of the parts of the complex
types: 32 bits for `float32` and `complex64`, 64 bits for `float64` and
`complex128`. -/
def bitsInRange (t : GoType) (b : Nat) : Bool :=
  match t with
  | GoType.float32 | GoType.complex64 => decide (b < 2 ^ 32)
  | GoType.float64 | GoType.complex128 => decide (b < 2 ^ 64)
  | _ => false

mutual
/-- The content `v` is that of a Go value of type `t`: the constructor fits the
kind, numbers lie in the range of the type, the bytes of a string are bytes, an
array has the length of its type, and the parts are of the types of the parts. -/
def Data.hasType : Data → GoType → Bool
  | Data.bool _, t => t == GoType.bool
  | Data.int n, t => intInRange t n
  | Data.uint n, t => uintInRange t n
  | Data.float b, t => (t == GoType.float32 || t == GoType.float64) && bitsInRange t b
  | Data.complex re im, t =>
    (t == GoType.complex64 || t == GoType.complex128) && bitsInRange t re && bitsInRange t im
  | Data.string s, t => t == GoType.string && s.all (fun c => decide (c < 256))
  | Data.seq xs, t =>
    match t with
    | GoType.slice elemT => DataList.allHaveType xs elemT
    | GoType.array len elemT => xs.length == len && DataList.allHaveType xs elemT
    | GoType.struct fs => DataList.haveTypes xs fs
    | _ => false
  | Data.map kvs, t =>
    match t with
    | GoType.map kt vt => EntryList.allHaveType kvs kt vt
    | _ => false
  | Data.nilPtr, t => t.isPtr
  | Data.ptr x, t =>
    match t with
    | GoType.ptr elemT => Data.hasType x elemT
    | _ => false
  | Data.other, _ => false
/-- Every element is of type `elemT`. -/
def DataList.allHaveType : DataList → GoType → Bool
  | DataList.nil, _ => true
  | DataList.cons x xs, elemT => Data.hasType x elemT && DataList.allHaveType xs elemT
/-- The values are those of the fields `fs`, one for each field. -/
def DataList.haveTypes : DataList → FieldList → Bool
  | DataList.nil, fs =>
    match fs with
    | FieldList.nil => true
    | _ => false
  | DataList.cons x xs, fs =>
    match fs with
    | FieldList.cons _ _ _ t rest => Data.hasType x t && DataList.haveTypes xs rest
    | FieldList.nil => false
/-- Every key is of type `kt` and every value of type `vt`. -/
def EntryList.allHaveType : EntryList → GoType → GoType → Bool
  | EntryList.nil, _, _ => true
  | EntryList.cons k v rest, kt, vt =>
    Data.hasType k kt && Data.hasType v vt && EntryList.allHaveType rest kt vt
end

/-- The `Encode` method of a value that implements `BinaryEncoder`, as a function
of the bytes of the window it is given: the bytes the window holds afterwards,
the returned slice, and the returned error. -/
abbrev EncodeMethod : Type := List Nat → List Nat × List Nat × Option Err

/-- Go `Encoder.Serializer` on a value whose dynamic type implements
`BinaryEncoder` with the method `encode`, or does not (`none`). `typeError`, not
in the sources, builds the returned error. -/
def Encoder.Serializer (e : Encoder) (x : Option EncodeMethod) : Res (Option Err × Encoder) :=
  match x with
  | some encode =>
    let r := encode (e.buff.drop e.pos)
    let e1 : coder := { e with buff := writeAt e.buff e.pos r.1 }
    match r.2.2 with
    | some err => Res.ok (some err, e1)
    | none =>
      match coder.mustReserve e1 r.2.1.length with
      | Res.panic err => Res.panic err
      | Res.ok (_, e2) => Res.ok (none, e2)
  | none => Res.ok (some Err.unsupportedType, e)

/-- Modelled from the spec: `coder.Reset` is not in the sources; `resize(n)`
"always resets the cursor to empty", and `ResizeBuffer` documents "It will call
Reset to initial encoder state of buffer". -/
def coder.Reset (c : coder) : coder := { c with pos := 0 }

/-- Go `Encoder.ResizeBuffer`: the returned flag and the encoder afterwards;
`make([]byte, size)` is a zeroed buffer. -/
def Encoder.ResizeBuffer (e : Encoder) (size : int64) : bool × Encoder :=
  let ok := decide ((e.buff.length : int64) < size)
  let e1 : coder := if ok then { e with buff := List.replicate size.toNat 0 } else e
  (ok, coder.Reset e1)

/-- An `io.Reader`, as the chunks the source will deliver: `Read(p)` copies bytes
of the first chunk only, at most `len(p)`, and leaves the rest for later reads
("if some data is available but not len(p) bytes, Read conventionally returns
what is available instead of waiting for more"); with no chunk left it reads 0
bytes (end of stream). -/
abbrev Reader : Type := List (List Nat)

/-- Go `reader.Read(p)` with `len(p) = k`: the bytes read and the reader
afterwards. -/
def Reader.Read (r : Reader) (k : Nat) : List Nat × Reader :=
  match r with
  | [] => ([], [])
  | c :: cs => if c.length ≤ k then (c, cs) else (c.take k, c.drop k :: cs)

/-- The bytes a reader can still deliver. -/
def Reader.remaining (r : Reader) : List Nat := r.flatten

/-- The Go struct `Decoder` with its `reader` field: `none` is a nil reader, a
decoder over a buffer in memory. -/
structure ReaderDecoder where
  coder : coder
  reader : Option Reader
  deriving DecidableEq, Repr

/-- Go `Decoder.reserve`. With a reader, the buffer is replaced when it is shorter
than `size`, `this.buff[:size]` panics for a negative `size`, one `Read` fills
the window, and fewer than `size` bytes read is a panic with
`io.ErrUnexpectedEOF`; the position is not used. Without a reader it is the
reserve of the embedded coder. The result is `none` for a nil slice: the
reserve in memory returns nil for `size ≤ 0`, and `this.buff[:0]` is nil only
for a nil buffer, which a buffer of length 0 is taken to be. -/
def ReaderDecoder.reserve (d : ReaderDecoder) (size : Int) :
    Res (Option (List Nat) × ReaderDecoder) :=
  match d.reader with
  | some r =>
    if size < 0 then Res.panic Err.sliceBounds
    else
      let n := size.toNat
      let buff0 : List Nat :=
        if d.coder.buff.length < n then List.replicate n 0 else d.coder.buff
      let rd := Reader.Read r n
      let buff1 : List Nat := writeAt buff0 0 rd.1
      if rd.1.length < n then Res.panic Err.unexpectedEOF
      else
        Res.ok (if buff1 = [] then none else some (buff1.take n),
          { coder := { d.coder with buff := buff1 }, reader := some rd.2 })
  | none =>
    match Decoder.reserve d.coder size with
    | Res.panic err => Res.panic err
    | Res.ok (b, c1) => Res.ok (if b = [] then none else some b, { d with coder := c1 })

/-- Go `Decoder.Skip` on a decoder with its `reader` field: `-1` when `reserve`
returned nil. -/
def ReaderDecoder.Skip (d : ReaderDecoder) (size : Int) : Res (Int × ReaderDecoder) :=
  match ReaderDecoder.reserve d size with
  | Res.panic err => Res.panic err
  | Res.ok (b, d1) => if b = none then Res.ok (-1, d1) else Res.ok (size, d1)

/-- A write that succeeded: no error, the position advanced by `n`, the length of
the buffer as before. -/
def Advances (r : Option Err × Encoder) (e : Encoder) (n : Nat) : Prop :=
  r.1 = none ∧ r.2.pos = e.pos + n ∧ r.2.buff.length = e.buff.length

/-- The number of bytes of the unpacked encoding of a value of a scalar type of
the fast path: varint for `int` and `uint`, the width of the fixed-width kinds,
prefix and bytes of a string; a boolean takes at most one byte. -/
def scalarSize (t : GoType) (x : Data) : Nat :=
  match t with
  | GoType.int => SizeofUvarint (ToUvarint x.toInt)
  | GoType.uint => SizeofUvarint x.toNat
  | GoType.bool | GoType.int8 | GoType.uint8 => 1
  | GoType.int16 | GoType.uint16 => 2
  | GoType.int32 | GoType.uint32 | GoType.float32 => 4
  | GoType.int64 | GoType.uint64 | GoType.float64 | GoType.complex64 => 8
  | GoType.complex128 => 16
  | GoType.string => SizeofUvarint x.bytes.length + x.bytes.length
  | _ => 0

/-- The bytes of the elements of a sequence of scalars. -/
def elemsSize (t : GoType) : DataList → Nat
  | DataList.nil => 0
  | DataList.cons x xs => scalarSize t x + elemsSize t xs

/-- The number of bytes a buffer needs for the encoding of a value of a
fast-path type: a slice takes the varint of its length and its elements, a slice
of booleans one byte per started group of 8. -/
def fastSize (t : GoType) (x : Data) : Nat :=
  match t with
  | GoType.slice GoType.bool => SizeofUvarint x.elems.length + (x.elems.length + 7) / 8
  | GoType.slice el => SizeofUvarint x.elems.length + elemsSize el x.elems
  | _ => scalarSize t x

/-- The scalar cases of the type switch of `Encoder.fastValue`: `int`, `uint`,
`bool`, the integers and floats of fixed width, the complex types and
`string`. -/
def isFastScalar : GoType → Bool
  | GoType.bool | GoType.int | GoType.uint | GoType.int8 | GoType.uint8 | GoType.int16
  | GoType.uint16 | GoType.int32 | GoType.uint32 | GoType.int64 | GoType.uint64
  | GoType.float32 | GoType.float64 | GoType.complex64 | GoType.complex128
  | GoType.string => true
  | _ => false

/-- The 32 cases of the type switch of `Encoder.fastValue`: the 16 scalar types
and the slices of them. -/
def isFastType : GoType → Bool
  | GoType.slice t => isFastScalar t
  | t => isFastScalar t

/-- Every element satisfies `p`. -/
def DataList.all (p : Data → Bool) : DataList → Bool
  | DataList.nil => true
  | DataList.cons x xs => p x && DataList.all p xs

/-- Whether `float32(v.Float())` and `complex64(v.Complex())` give a scalar of
type `t` back unchanged: a `float32` and the two parts of a `complex64` are not
signalling NaNs. Every value of another type qualifies. -/
def quiet32 (t : GoType) (x : Data) : Bool :=
  match t with
  | GoType.float32 => decide (quietNaN32 x.bits = x.bits)
  | GoType.complex64 => decide (quietNaN32 x.re = x.re ∧ quietNaN32 x.im = x.im)
  | _ => true

/-- No `float32` and no part of a `complex64` held by a value of type `t`, or by
the elements of a slice of type `t`, is a signalling NaN. -/
def noSignallingNaN (t : GoType) (x : Data) : Bool :=
  match t with
  | GoType.slice el => DataList.all (quiet32 el) x.elems
  | _ => quiet32 t x

/-- The bytes of the unpacked encoding of a value of a scalar type in byte order
`en`, as `Encoder.value` writes them from a reset accumulator: the varint of
`int` and `uint`, one byte for a boolean, the fixed-width kinds in byte order,
the real part of a complex number before the imaginary part, the length prefix
and the bytes of a string. -/
def scalarBytes (en : Endian) (t : GoType) (x : Data) : List Nat :=
  match t with
  | GoType.int => uvarintBytes (SizeofUvarint (ToUvarint x.toInt) - 1) (ToUvarint x.toInt)
  | GoType.uint => uvarintBytes (SizeofUvarint x.toNat - 1) x.toNat
  | GoType.bool => [if x.toBool then 1 else 0]
  | GoType.int8 => [toUnsigned 8 x.toInt]
  | GoType.uint8 => [x.toNat]
  | GoType.int16 => en.put 2 (toUnsigned 16 x.toInt)
  | GoType.uint16 => en.put 2 x.toNat
  | GoType.int32 => en.put 4 (toUnsigned 32 x.toInt)
  | GoType.uint32 => en.put 4 x.toNat
  | GoType.int64 => en.put 8 (toUnsigned 64 x.toInt)
  | GoType.uint64 => en.put 8 x.toNat
  | GoType.float32 => en.put 4 x.bits
  | GoType.float64 => en.put 8 x.bits
  | GoType.complex64 => en.put 4 x.re ++ en.put 4 x.im
  | GoType.complex128 => en.put 8 x.re ++ en.put 8 x.im
  | GoType.string =>
    uvarintBytes (SizeofUvarint x.bytes.length - 1) x.bytes.length ++ x.bytes
  | _ => []

/-- The pairs the entry loop of the map case of `Decoder.value` decodes, in the
order it decodes them: `n` times a key into `zk` and then a value into `zv`. -/
def Decoder.readEntries (deck decv : Data → Decoder → Res (Option Err × Data × Decoder))
    (zk zv : Data) : Nat → Decoder → Res (List (Data × Data) × Decoder)
  | 0, d => Res.ok ([], d)
  | n + 1, d =>
    match deck zk d with
    | Res.panic err => Res.panic err
    | Res.ok (_, k, d1) =>
      match decv zv d1 with
      | Res.panic err => Res.panic err
      | Res.ok (_, v, d2) =>
        match Decoder.readEntries deck decv zk zv n d2 with
        | Res.panic err => Res.panic err
        | Res.ok (ps, d3) => Res.ok ((k, v) :: ps, d3)

/-- Go `v.SetMapIndex(key, value)` for each pair in turn. -/
def EntryList.setAll (m : EntryList) (ps : List (Data × Data)) : EntryList :=
  ps.foldl (fun m1 p => m1.set p.1 p.2) m

/-- The value of the last pair with key `k`, if any. -/
def lastValue : List (Data × Data) → Data → Option Data
  | [], _ => none
  | p :: ps, k =>
    match lastValue ps k with
    | some v => some v
    | none => if p.1 = k then some p.2 else none

/-- A write of `n` bytes that is all or nothing: with room for `n` bytes it
returns no error and advances the position by `n`; without, it returns an error
and leaves the encoder as it was. -/
def AllOrNothing (r : Option Err × Encoder) (e : Encoder) (n : Nat) : Prop :=
  (e.pos + n ≤ e.buff.length → Advances r e n) ∧
  (¬ e.pos + n ≤ e.buff.length → r = (some Err.buffOverflow, e))

/-! ## Lemmas: buffers -/

theorem reserve_ok (c : coder) (size : Nat) (h : c.pos + size ≤ c.buff.length) :
    coder.reserve c size = some (c.pos, { c with pos := c.pos + size }) := by
  simp [coder.reserve, h]

theorem reserve_none (c : coder) (size : Nat) (h : c.buff.length < c.pos + size) :
    coder.reserve c size = none := by
  simp [coder.reserve, Nat.not_le.mpr h]

theorem set_mid (pre post : List Nat) (a v : Nat) (i : Nat) (hi : i = pre.length) :
    (pre ++ a :: post).set i v = pre ++ v :: post := by
  subst hi
  simp

theorem split_at (l : List Nat) (p n : Nat) (h : p + n ≤ l.length) :
    ∃ pre mid post, l = pre ++ mid ++ post ∧ pre.length = p ∧ mid.length = n ∧
      pre = l.take p ∧ post = l.drop (p + n) ∧ mid = (l.drop p).take n := by
  refine ⟨l.take p, (l.drop p).take n, l.drop (p + n), ?_, ?_, ?_, rfl, rfl, rfl⟩
  · rw [List.append_assoc]
    have : List.drop (p + n) l = List.drop n (List.drop p l) := by
      rw [List.drop_drop, Nat.add_comm]
    rw [this, List.take_append_drop, List.take_append_drop]
  · simp; omega
  · simp; omega

theorem decoder_reserve_pos (d : Decoder) (n : Nat) (hn : 0 < n)
    (h : d.pos + n ≤ d.buff.length) :
    Decoder.reserve d (n : Int) =
      Res.ok ((d.buff.drop d.pos).take n, { d with pos := d.pos + n }) := by
  have h0 : ¬ ((n : Int) ≤ 0) := by omega
  simp [Decoder.reserve, h0, h]

theorem decoder_uint8_at (d : Decoder) (pre rest : List Nat) (b : Nat)
    (hb : d.buff = pre ++ b :: rest) (hp : d.pos = pre.length) :
    Decoder.Uint8 d = Res.ok (b, { d with pos := d.pos + 1 }) := by
  have hlen : d.pos + 1 ≤ d.buff.length := by rw [hb, hp]; simp
  have h := decoder_reserve_pos d 1 (by decide) hlen
  simp only [Nat.cast_one] at h
  simp [Decoder.Uint8, h, hb, hp]

/-! ## Lemmas: varints -/

theorem low7_or_cont (x : Nat) : ((x &&& 0x7f) ||| 0x80) % 256 = x % 128 + 128 := by
  have h1 : x &&& 0x7f = x % 128 := Nat.and_pow_two_sub_one_eq_mod x 7
  rw [h1]
  have h2 : x % 128 < 128 := Nat.mod_lt _ (by norm_num)
  have h3 : 2 ^ 7 * 1 + x % 128 = 2 ^ 7 * 1 ||| x % 128 :=
    Nat.mul_add_lt_is_or (by norm_num; exact h2) 1
  rw [Nat.lor_comm]
  norm_num at h3
  rw [← h3]
  omega

theorem or_shift_add (acc c k : Nat) (h : acc < 2 ^ k) :
    acc ||| (c <<< k) = acc + c * 2 ^ k := by
  have h3 := Nat.mul_add_lt_is_or h c
  rw [Nat.shiftLeft_eq, Nat.lor_comm, Nat.mul_comm c, ← h3, Nat.add_comm]

theorem uvarintBytes_length (k x : Nat) : (uvarintBytes k x).length = k + 1 := by
  induction k generalizing x with
  | zero => simp [uvarintBytes]
  | succ k ih => simp [uvarintBytes, ih]

theorem sizeofUvarintAux_pos (fuel x : Nat) : 1 ≤ sizeofUvarintAux fuel x := by
  cases fuel with
  | zero => simp [sizeofUvarintAux]
  | succ f =>
    simp only [sizeofUvarintAux]
    split <;> omega

theorem sizeofUvarintAux_le (fuel x : Nat) : sizeofUvarintAux fuel x ≤ fuel + 1 := by
  induction fuel generalizing x with
  | zero => simp [sizeofUvarintAux]
  | succ f ih =>
    simp only [sizeofUvarintAux]
    split
    · omega
    · have := ih (x / 128); omega

theorem sizeofUvarintAux_bound (fuel x : Nat) (hx : x < 128 ^ (fuel + 1)) :
    x / 128 ^ (sizeofUvarintAux fuel x - 1) < 128 := by
  induction fuel generalizing x with
  | zero => simpa [sizeofUvarintAux] using hx
  | succ f ih =>
    simp only [sizeofUvarintAux]
    split
    · simpa using (by assumption : x < 128)
    · have hx2 : x / 128 < 128 ^ (f + 1) := by
        rw [Nat.div_lt_iff_lt_mul (by norm_num)]
        rw [pow_succ] at hx
        exact hx
      have h := ih (x / 128) hx2
      have hpos := sizeofUvarintAux_pos f (x / 128)
      have e : 1 + sizeofUvarintAux f (x / 128) - 1 = (sizeofUvarintAux f (x / 128) - 1) + 1 := by
        omega
      rw [e, pow_succ, Nat.mul_comm, ← Nat.div_div_eq_div_mul]
      exact h

theorem sizeofUvarintAux_lower (fuel x : Nat) (h : 1 < sizeofUvarintAux fuel x) :
    128 ^ (sizeofUvarintAux fuel x - 1) ≤ x := by
  induction fuel generalizing x with
  | zero => simp [sizeofUvarintAux] at h
  | succ f ih =>
    simp only [sizeofUvarintAux] at h ⊢
    split at h
    · omega
    · rename_i hx
      rw [if_neg hx]
      have hpos := sizeofUvarintAux_pos f (x / 128)
      by_cases h1 : 1 < sizeofUvarintAux f (x / 128)
      · have := ih (x / 128) h1
        have e : 1 + sizeofUvarintAux f (x / 128) - 1 =
            (sizeofUvarintAux f (x / 128) - 1) + 1 := by omega
        rw [e, pow_succ]
        have := Nat.div_mul_le_self x 128
        nlinarith
      · have e : 1 + sizeofUvarintAux f (x / 128) - 1 = 1 := by omega
        rw [e]; omega

theorem SizeofUvarint_pos (x : Nat) : 1 ≤ SizeofUvarint x := sizeofUvarintAux_pos 9 x

theorem SizeofUvarint_le (x : Nat) : SizeofUvarint x ≤ 10 := sizeofUvarintAux_le 9 x

theorem SizeofUvarint_bound (x : Nat) (hx : x < 2 ^ 64) :
    x / 128 ^ (SizeofUvarint x - 1) < 128 := by
  apply sizeofUvarintAux_bound
  have : (2 : Nat) ^ 64 ≤ 128 ^ (9 + 1) := by norm_num
  omega

theorem SizeofUvarint_lower (x : Nat) (h : 1 < SizeofUvarint x) :
    128 ^ (SizeofUvarint x - 1) ≤ x := sizeofUvarintAux_lower 9 x h

theorem enc_uvarintLoop (b : Nat) (k : Nat) :
    ∀ (i : Nat) (buff : List Nat) (x : Nat) (pre mid post : List Nat),
      buff = pre ++ mid ++ post → pre.length = b + i → mid.length = k + 1 →
      ((Encoder.uvarintLoop b k i buff x).1.set (b + i + k)
          ((Encoder.uvarintLoop b k i buff x).2 % 256))
        = pre ++ uvarintBytes k x ++ post := by
  induction k with
  | zero =>
    intro i buff x pre mid post hb hp hm
    match mid, hm with
    | [a], _ =>
      subst hb
      simp only [Encoder.uvarintLoop, uvarintBytes, Nat.add_zero]
      rw [List.append_assoc, List.append_assoc]
      exact set_mid pre post a (x % 256) (b + i) hp.symm
  | succ k ih =>
    intro i buff x pre mid post hb hp hm
    match mid, hm with
    | a :: mid1, hm =>
      subst hb
      simp only [Encoder.uvarintLoop, uvarintBytes]
      have hset : (pre ++ a :: mid1 ++ post).set (b + i) (((x &&& 0x7f) ||| 0x80) % 256)
          = (pre ++ [x % 128 + 128]) ++ mid1 ++ post := by
        rw [low7_or_cont]
        have := set_mid pre (mid1 ++ post) a (x % 128 + 128) (b + i) hp.symm
        simpa using this
      rw [hset, Nat.shiftRight_eq_div_pow]
      have h := ih (i + 1) _ (x / 2 ^ 7) (pre ++ [x % 128 + 128]) mid1 post rfl
        (by simp; omega) (by simpa using hm)
      have e : b + i + (k + 1) = b + (i + 1) + k := by omega
      rw [e, h]
      simp

theorem Encoder_Uvarint_ok (e : Encoder) (x : Nat)
    (h : e.pos + SizeofUvarint x ≤ e.buff.length) :
    Encoder.Uvarint e x =
      ((SizeofUvarint x, none),
        { e with
          pos := e.pos + SizeofUvarint x,
          buff := e.buff.take e.pos ++ uvarintBytes (SizeofUvarint x - 1) x
                    ++ e.buff.drop (e.pos + SizeofUvarint x) }) := by
  obtain ⟨pre, mid, post, hb, hp, hm, hpre, hpost, _⟩ :=
    split_at e.buff e.pos (SizeofUvarint x) h
  have hpos := SizeofUvarint_pos x
  have hl := enc_uvarintLoop e.pos (SizeofUvarint x - 1) 0 e.buff x pre mid post hb
    (by simpa using hp) (by omega)
  simp only [Nat.add_zero] at hl
  simp only [Encoder.Uvarint, reserve_ok e _ h]
  rw [hl, hpre, hpost]

theorem dec_uvarintLoop (k : Nat) :
    ∀ (n i acc y : Nat) (d : Decoder) (pre rest : List Nat),
      d.buff = pre ++ uvarintBytes k y ++ rest → d.pos = pre.length →
      k < n → i + k ≤ 9 → acc < 2 ^ (7 * i) → acc + y * 2 ^ (7 * i) < 2 ^ 64 →
      y / 128 ^ k < 128 →
      Decoder.uvarintLoop n i acc (7 * i) d =
        Res.ok ((acc + y * 2 ^ (7 * i), i + k + 1), { d with pos := d.pos + (k + 1) }) := by
  induction k with
  | zero =>
    intro n i acc y d pre rest hb hp hn hi hacc hy hk
    match n, hn with
    | n + 1, _ =>
      have hy128 : y < 128 := by simpa using hk
      have hbyte : y % 256 = y := Nat.mod_eq_of_lt (by omega)
      simp only [uvarintBytes, hbyte] at hb
      have hu := decoder_uint8_at d pre rest y (by simpa using hb) hp
      have hand : y &&& 0x7f = y := by
        rw [Nat.and_pow_two_sub_one_eq_mod y 7]; exact Nat.mod_eq_of_lt (by simpa using hy128)
      have hsh : (y <<< (7 * i)) % 2 ^ 64 = y <<< (7 * i) := by
        apply Nat.mod_eq_of_lt
        rw [Nat.shiftLeft_eq]; omega
      have hchk : ¬ (i > 9 ∨ (i = 9 ∧ y > 1)) := by
        rintro (h | ⟨h1, h2⟩)
        · omega
        · subst h1
          have : 2 * 2 ^ (7 * 9) ≤ y * 2 ^ (7 * 9) := Nat.mul_le_mul_right _ h2
          norm_num at this hy
          omega
      simp only [Decoder.uvarintLoop, hu, hand, hsh, or_shift_add acc y (7 * i) hacc]
      rw [if_pos (by simpa using hy128), if_neg hchk]
  | succ k ih =>
    intro n i acc y d pre rest hb hp hn hi hacc hy hk
    match n, hn with
    | n + 1, hn =>
      simp only [uvarintBytes] at hb
      have hu := decoder_uint8_at d pre (uvarintBytes k (y / 128) ++ rest) (y % 128 + 128)
        (by simpa using hb) hp
      have hand : (y % 128 + 128) &&& 0x7f = y % 128 := by
        rw [Nat.and_pow_two_sub_one_eq_mod _ 7]; norm_num
      have hmod : y % 128 < 128 := Nat.mod_lt _ (by norm_num)
      have hdecomp : y = 128 * (y / 128) + y % 128 := (Nat.div_add_mod y 128).symm
      have hpow : (2 : Nat) ^ (7 * (i + 1)) = 128 * 2 ^ (7 * i) := by
        rw [Nat.mul_add, pow_add]; norm_num; ring
      have hle : y % 128 * 2 ^ (7 * i) ≤ y * 2 ^ (7 * i) :=
        Nat.mul_le_mul_right _ (Nat.mod_le y 128)
      have hsh : ((y % 128) <<< (7 * i)) % 2 ^ 64 = (y % 128) <<< (7 * i) := by
        apply Nat.mod_eq_of_lt
        rw [Nat.shiftLeft_eq]; omega
      have hnot : ¬ (y % 128 + 128 < 0x80) := by omega
      simp only [Decoder.uvarintLoop, hu, hand, hsh, or_shift_add acc (y % 128) (7 * i) hacc]
      rw [if_neg hnot]
      have hacc2 : acc + y % 128 * 2 ^ (7 * i) < 2 ^ (7 * (i + 1)) := by
        rw [hpow]
        have : y % 128 * 2 ^ (7 * i) ≤ 127 * 2 ^ (7 * i) := Nat.mul_le_mul_right _ (by omega)
        omega
      have hval : acc + y % 128 * 2 ^ (7 * i) + y / 128 * 2 ^ (7 * (i + 1)) =
          acc + y * 2 ^ (7 * i) := by
        rw [hpow]
        conv_rhs => rw [hdecomp]
        ring
      have hk2 : y / 128 / 128 ^ k < 128 := by
        rw [Nat.div_div_eq_div_mul, ← pow_succ']; exact hk
      have e7 : 7 * i + 7 = 7 * (i + 1) := by ring
      rw [e7]
      have h := ih n (i + 1) (acc + y % 128 * 2 ^ (7 * i)) (y / 128)
        { d with pos := d.pos + 1 } (pre ++ [y % 128 + 128]) rest
        (by simp [hb]) (by simp [hp]) (by omega) (by omega) hacc2 (by rw [hval]; exact hy) hk2
      rw [h, hval]
      simp only [Res.ok.injEq, Prod.mk.injEq, coder.mk.injEq]
      refine ⟨⟨trivial, by omega⟩, trivial, by omega, trivial, trivial, trivial⟩

theorem window_of_splice (l mid : List Nat) (p n : Nat) (hp : p ≤ l.length)
    (hm : mid.length = n) :
    ((l.take p ++ mid ++ l.drop (p + n)).drop p).take n = mid := by
  have h1 : (l.take p).length = p := by simp [hp]
  rw [List.append_assoc, List.drop_append_of_le_length (by omega)]
  rw [List.drop_of_length_le (by omega)]
  simp [← hm]

theorem Decoder_Uvarint_bytes (d : Decoder) (x : Nat) (pre rest : List Nat)
    (hx : x < 2 ^ 64)
    (hb : d.buff = pre ++ uvarintBytes (SizeofUvarint x - 1) x ++ rest)
    (hp : d.pos = pre.length) :
    Decoder.Uvarint d =
      Res.ok ((x, SizeofUvarint x), { d with pos := d.pos + SizeofUvarint x }) := by
  have hpos := SizeofUvarint_pos x
  have hle := SizeofUvarint_le x
  have h := dec_uvarintLoop (SizeofUvarint x - 1) MaxVarintLen64 0 0 x d pre rest hb hp
    (by simp [MaxVarintLen64]; omega) (by omega) (by norm_num) (by simpa using hx)
    (SizeofUvarint_bound x hx)
  simp only [Nat.mul_zero, pow_zero, Nat.mul_one, Nat.zero_add] at h
  have e : SizeofUvarint x - 1 + 1 = SizeofUvarint x := by omega
  rw [e] at h
  exact h

theorem ToUvarint_lt (n : Int) : ToUvarint n < 2 ^ 64 := by
  unfold ToUvarint
  split <;> omega

theorem ToVarint_ToUvarint (n : Int) (hlo : -2 ^ 63 ≤ n) (hhi : n < 2 ^ 63) :
    ToVarint (ToUvarint n) = n := by
  unfold ToVarint ToUvarint
  split <;> split <;> omega

theorem getD_splice (pre mid post : List Nat) (i : Nat) (hi : i < mid.length) :
    (pre ++ mid ++ post).getD (pre.length + i) 0 = mid.getD i 0 := by
  rw [List.append_assoc]
  simp [List.getD_eq_getElem?_getD, List.getElem?_append_right, List.getElem?_append_left, hi]

theorem uvarintBytes_getD (k : Nat) : ∀ (x i : Nat), i ≤ k →
    (uvarintBytes k x).getD i 0 =
      if i < k then (x / 128 ^ i) % 128 + 128 else (x / 128 ^ k) % 256 := by
  induction k with
  | zero =>
    intro x i hi
    have : i = 0 := by omega
    subst this
    simp [uvarintBytes]
  | succ k ih =>
    intro x i hi
    cases i with
    | zero => simp [uvarintBytes]
    | succ i =>
      have h := ih (x / 128) i (by omega)
      simp only [uvarintBytes, List.getD_cons_succ, h, Nat.div_div_eq_div_mul, ← pow_succ']
      simp

theorem SizeofUvarint_eq_size (x : Nat) (hx : x < 2 ^ 64) :
    SizeofUvarint x = max 1 ((Nat.size x + 6) / 7) := by
  have hpos := SizeofUvarint_pos x
  have hb := SizeofUvarint_bound x hx
  have hup : x < 2 ^ (7 * SizeofUvarint x) := by
    have h1 : x < 128 * 128 ^ (SizeofUvarint x - 1) := by
      rw [Nat.div_lt_iff_lt_mul (by positivity)] at hb
      exact hb
    have h2 : ∀ k : Nat, 128 * 128 ^ k = 2 ^ (7 * (k + 1)) := by
      intro k
      rw [Nat.mul_add, pow_add, pow_mul]; norm_num; ring
    have e : SizeofUvarint x = (SizeofUvarint x - 1) + 1 := by omega
    rw [e, ← h2]
    exact h1
  have hsz : Nat.size x ≤ 7 * SizeofUvarint x := Nat.size_le.mpr hup
  by_cases h1 : 1 < SizeofUvarint x
  · have hlow := SizeofUvarint_lower x h1
    have hlow2 : 2 ^ (7 * (SizeofUvarint x - 1)) ≤ x := by
      rw [pow_mul]; simpa using hlow
    have := Nat.lt_size.mpr hlow2
    omega
  · omega

theorem uvarint_roundtrip_core (e : Encoder) (x : Nat) (hx : x < 2 ^ 64)
    (hroom : e.pos + SizeofUvarint x ≤ e.buff.length) :
    (Encoder.Uvarint e x).1.2 = none ∧
    (Encoder.Uvarint e x).2.pos = e.pos + (Encoder.Uvarint e x).1.1 ∧
    ∀ (d : Decoder) (pre rest : List Nat),
      d.buff = pre ++
        ((Encoder.Uvarint e x).2.buff.drop e.pos).take (Encoder.Uvarint e x).1.1 ++ rest →
      d.pos = pre.length →
      Decoder.Uvarint d =
        Res.ok ((x, (Encoder.Uvarint e x).1.1),
          { d with pos := d.pos + (Encoder.Uvarint e x).1.1 }) := by
  rw [Encoder_Uvarint_ok e x hroom]
  refine ⟨rfl, rfl, ?_⟩
  intro d pre rest hb hp
  have hpos := SizeofUvarint_pos x
  have hw := window_of_splice e.buff (uvarintBytes (SizeofUvarint x - 1) x) e.pos
    (SizeofUvarint x) (by omega) (by rw [uvarintBytes_length]; omega)
  simp only at hb
  rw [hw] at hb
  exact Decoder_Uvarint_bytes d x pre rest hx hb hp

theorem groupsValue_lt (cs : List Nat) : groupsValue cs < 128 ^ cs.length := by
  induction cs with
  | nil => simp [groupsValue]
  | cons b bs ih =>
    simp only [groupsValue, List.length_cons, pow_succ]
    have := Nat.mod_lt b (show 0 < 128 by norm_num)
    omega

theorem dec_uvarintLoop_cont (cs : List Nat) :
    ∀ (n i acc : Nat) (d : Decoder) (pre rest : List Nat),
      d.buff = pre ++ cs ++ rest → d.pos = pre.length → (∀ b ∈ cs, 128 ≤ b) →
      i + cs.length ≤ 9 → acc < 2 ^ (7 * i) →
      Decoder.uvarintLoop (n + cs.length) i acc (7 * i) d =
        Decoder.uvarintLoop n (i + cs.length) (acc + groupsValue cs * 2 ^ (7 * i))
          (7 * (i + cs.length)) { d with pos := d.pos + cs.length } := by
  induction cs with
  | nil =>
    intro n i acc d pre rest _ _ _ _ _
    simp [groupsValue]
  | cons b cs ih =>
    intro n i acc d pre rest hb hp hc hi hacc
    have hu := decoder_uint8_at d pre (cs ++ rest) b (by simpa using hb) hp
    have hb128 : 128 ≤ b := hc b (by simp)
    have hand : b &&& 0x7f = b % 128 := Nat.and_pow_two_sub_one_eq_mod b 7
    have hmod : b % 128 < 128 := Nat.mod_lt _ (by norm_num)
    simp only [List.length_cons] at hi
    have h56 : 2 ^ (7 * i) ≤ 2 ^ 56 := Nat.pow_le_pow_right (by norm_num) (by omega)
    have hmul : b % 128 * 2 ^ (7 * i) ≤ 127 * 2 ^ 56 :=
      Nat.mul_le_mul (by omega) h56
    have hsh : ((b % 128) <<< (7 * i)) % 2 ^ 64 = (b % 128) <<< (7 * i) := by
      apply Nat.mod_eq_of_lt
      rw [Nat.shiftLeft_eq]
      norm_num at hmul ⊢
      omega
    have hpow : (2 : Nat) ^ (7 * (i + 1)) = 128 * 2 ^ (7 * i) := by
      rw [Nat.mul_add, pow_add]; norm_num; ring
    have hnot : ¬ (b < 0x80) := by omega
    have e1 : n + (cs.length + 1) = (n + cs.length) + 1 := by omega
    simp only [List.length_cons, e1, Decoder.uvarintLoop, hu, hand, hsh,
      or_shift_add acc (b % 128) (7 * i) hacc]
    rw [if_neg hnot]
    have hacc2 : acc + b % 128 * 2 ^ (7 * i) < 2 ^ (7 * (i + 1)) := by
      rw [hpow]
      have : b % 128 * 2 ^ (7 * i) ≤ 127 * 2 ^ (7 * i) := Nat.mul_le_mul_right _ (by omega)
      omega
    have e7 : 7 * i + 7 = 7 * (i + 1) := by ring
    rw [e7]
    have h := ih n (i + 1) (acc + b % 128 * 2 ^ (7 * i)) { d with pos := d.pos + 1 }
      (pre ++ [b]) rest (by simp [hb]) (by simp [hp]) (fun c hc1 => hc c (by simp [hc1]))
      (by omega) hacc2
    have hn : n.add cs.length = n + cs.length := rfl
    rw [hn, h]
    have hval : acc + b % 128 * 2 ^ (7 * i) + groupsValue cs * 2 ^ (7 * (i + 1)) =
        acc + groupsValue (b :: cs) * 2 ^ (7 * i) := by
      rw [hpow]; simp only [groupsValue]; ring
    have ei : i + 1 + cs.length = i + (cs.length + 1) := by omega
    have ep : d.pos + 1 + cs.length = d.pos + (cs.length + 1) := by omega
    simp only [hval, ei, ep]

theorem exists_split_at (l : List Nat) (b : Nat) (h : b < l.length) :
    ∃ l1 a l2, l = l1 ++ a :: l2 ∧ l1.length = b := by
  refine ⟨l.take b, l[b], l.drop (b + 1), ?_, ?_⟩
  · simp
  · simp; omega

theorem writeAt_splice (src : List Nat) : ∀ (buff : List Nat) (b : Nat),
    b + src.length ≤ buff.length →
    writeAt buff b src = buff.take b ++ src ++ buff.drop (b + src.length) := by
  induction src with
  | nil =>
    intro buff b _
    simp [writeAt]
  | cons x xs ih =>
    intro buff b h
    simp only [List.length_cons] at h
    obtain ⟨l1, a, l2, rfl, hlen⟩ := exists_split_at buff b (by omega)
    subst hlen
    have hl2 : xs.length ≤ l2.length := by simp at h; omega
    rw [writeAt, set_mid l1 l2 a x l1.length rfl, ih _ _ (by simp; omega)]
    have d1 : l1.length + 1 + xs.length - l1.length = xs.length + 1 := by omega
    have d2 : l1.length + (xs.length + 1) - l1.length = xs.length + 1 := by omega
    have d3 : l1.length + 1 - l1.length = 1 := by omega
    simp only [List.take_append_eq_append_take, List.drop_append_eq_append_drop, d1, d2, d3,
      List.length_cons]
    rw [List.take_of_length_le (by omega), List.drop_of_length_le (by omega),
      List.drop_of_length_le (by omega : l1.length ≤ l1.length + (xs.length + 1))]
    simp

theorem leBytes_length (n x : Nat) : (leBytes n x).length = n := by
  induction n generalizing x with
  | zero => rfl
  | succ n ih => simp [leBytes, ih]

theorem leValue_leBytes (n : Nat) : ∀ x, leValue (leBytes n x) = x % 256 ^ n := by
  induction n with
  | zero => intro x; simp [leBytes, leValue, Nat.mod_one]
  | succ n ih =>
    intro x
    simp only [leBytes, leValue, ih]
    rw [pow_succ', Nat.mod_mul]

theorem leBytes_getD (n : Nat) : ∀ (x i : Nat), i < n →
    (leBytes n x).getD i 0 = x / 256 ^ i % 256 := by
  induction n with
  | zero => intro x i hi; omega
  | succ n ih =>
    intro x i hi
    cases i with
    | zero => simp [leBytes]
    | succ i =>
      simp only [leBytes, List.getD_cons_succ, ih (x / 256) i (by omega),
        Nat.div_div_eq_div_mul, ← pow_succ']

theorem Endian_put_length (en : Endian) (n x : Nat) : (en.put n x).length = n := by
  cases en <;> simp [Endian.put, leBytes_length]

theorem Endian_get_put (en : Endian) (n x : Nat) : en.get (en.put n x) = x % 256 ^ n := by
  cases en <;> simp [Endian.get, Endian.put, leValue_leBytes]

theorem decoder_reserve_at (d : Decoder) (pre mid rest : List Nat) (n : Nat)
    (hn : 0 < n) (hm : mid.length = n)
    (hb : d.buff = pre ++ mid ++ rest) (hp : d.pos = pre.length) :
    Decoder.reserve d (n : Int) = Res.ok (mid, { d with pos := d.pos + n }) := by
  have hlen : d.pos + n ≤ d.buff.length := by rw [hb, hp]; simp; omega
  rw [decoder_reserve_pos d n hn hlen, hb, hp]
  simp [← hm]

theorem fixed_splice (e : Encoder) (bytes : List Nat)
    (h : e.pos + bytes.length ≤ e.buff.length) :
    writeAt e.buff e.pos bytes =
      e.buff.take e.pos ++ bytes ++ e.buff.drop (e.pos + bytes.length) :=
  writeAt_splice bytes e.buff e.pos h

theorem toSigned_toUnsigned (w : Nat) (hw : 0 < w) (x : Int)
    (hlo : -2 ^ (w - 1) ≤ x) (hhi : x < 2 ^ (w - 1)) :
    toSigned w (toUnsigned w x) = x := by
  obtain ⟨k, rfl⟩ : ∃ k, w = k + 1 := ⟨w - 1, by omega⟩
  simp only [Nat.add_sub_cancel] at hlo hhi
  have hp : (2 : Int) ^ (k + 1) = 2 * 2 ^ k := by rw [pow_succ]; ring
  have hpn : (2 : Nat) ^ (k + 1) = 2 * 2 ^ k := by rw [pow_succ]; ring
  have hpos : (0 : Int) < 2 ^ k := by positivity
  have hcast : ((2 ^ k : Nat) : Int) = (2 : Int) ^ k := by push_cast; rfl
  unfold toSigned toUnsigned
  have hnn : 0 ≤ x % 2 ^ (k + 1) := Int.emod_nonneg _ (by positivity)
  have hlt : x % 2 ^ (k + 1) < 2 ^ (k + 1) := Int.emod_lt_of_pos _ (by positivity)
  have hmod : ((x % 2 ^ (k + 1)).toNat) % 2 ^ (k + 1) = (x % 2 ^ (k + 1)).toNat := by
    apply Nat.mod_eq_of_lt
    have : ((x % 2 ^ (k + 1)).toNat : Int) < ((2 ^ (k + 1) : Nat) : Int) := by
      rw [Int.toNat_of_nonneg hnn]; push_cast; exact hlt
    exact_mod_cast this
  rw [hmod, Int.toNat_of_nonneg hnn]
  simp only [Nat.add_sub_cancel]
  by_cases hx : 0 ≤ x
  · have hx2 : x % 2 ^ (k + 1) = x := Int.emod_eq_of_lt hx (by rw [hp]; omega)
    have hc : (x % 2 ^ (k + 1)).toNat < 2 ^ k := by
      have : ((x % 2 ^ (k + 1)).toNat : Int) < ((2 ^ k : Nat) : Int) := by
        rw [Int.toNat_of_nonneg hnn, hx2, hcast]; exact hhi
      exact_mod_cast this
    rw [if_pos hc, hx2]
  · have hx2 : x % 2 ^ (k + 1) = x + 2 ^ (k + 1) := by
      have h1 : (x + 2 ^ (k + 1)) % 2 ^ (k + 1) = x % 2 ^ (k + 1) := by simp
      rw [← h1]
      exact Int.emod_eq_of_lt (by rw [hp]; omega) (by omega)
    have hc : ¬ (x % 2 ^ (k + 1)).toNat < 2 ^ k := by
      intro hc
      have : ((x % 2 ^ (k + 1)).toNat : Int) < ((2 ^ k : Nat) : Int) := by exact_mod_cast hc
      rw [Int.toNat_of_nonneg hnn, hx2, hcast, hp] at this
      omega
    rw [if_neg hc, hx2]
    ring

theorem toUnsigned_lt (w : Nat) (x : Int) : toUnsigned w x < 2 ^ w := by
  unfold toUnsigned
  have hnn : 0 ≤ x % 2 ^ w := Int.emod_nonneg _ (by positivity)
  have hlt : x % 2 ^ w < 2 ^ w := Int.emod_lt_of_pos _ (by positivity)
  have : ((x % 2 ^ w).toNat : Int) < ((2 ^ w : Nat) : Int) := by
    rw [Int.toNat_of_nonneg hnn]; push_cast; exact hlt
  exact_mod_cast this

theorem enc_fixed_state (e : Encoder) (bytes : List Nat) (n : Nat)
    (hn : bytes.length = n) (h : e.pos + n ≤ e.buff.length) :
    ({ buff := writeAt e.buff e.pos bytes, pos := e.pos + n, boolPos := e.boolPos,
       boolBit := e.boolBit, endian := e.endian } : coder) =
      { e with pos := e.pos + bytes.length,
               buff := e.buff.take e.pos ++ bytes ++ e.buff.drop (e.pos + bytes.length) } := by
  subst hn
  rw [writeAt_splice bytes e.buff e.pos h]

theorem Uint16_rt (en : Endian) (x : Nat) (hx : x < 2 ^ 16) :
    WritesAndReadsBack (fun e => Encoder.Uint16 e x false) Decoder.Uint16 en (en.put 2 x) x := by
  have hl := Endian_put_length en 2 x
  constructor
  · intro e he h
    rw [hl] at h
    subst he
    simp only [Encoder.Uint16, Bool.false_eq_true, if_false, reserve_ok e 2 h, Endian.PutUint16]
    rw [enc_fixed_state e _ 2 (Endian_put_length _ 2 x) h]
  · intro d pre rest he hb hp
    subst he
    have hr := decoder_reserve_at d pre (d.endian.put 2 x) rest 2 (by decide) hl hb hp
    simp only [Nat.cast_ofNat] at hr
    simp only [Decoder.Uint16, hr, Endian.Uint16]
    rw [List.take_of_length_le (by rw [hl]), Endian_get_put, hl,
      Nat.mod_eq_of_lt (by norm_num; omega)]

theorem Uint32_rt (en : Endian) (x : Nat) (hx : x < 2 ^ 32) :
    WritesAndReadsBack (fun e => Encoder.Uint32 e x false) Decoder.Uint32 en (en.put 4 x) x := by
  have hl := Endian_put_length en 4 x
  constructor
  · intro e he h
    rw [hl] at h
    subst he
    simp only [Encoder.Uint32, Bool.false_eq_true, if_false, reserve_ok e 4 h, Endian.PutUint32]
    rw [enc_fixed_state e _ 4 (Endian_put_length _ 4 x) h]
  · intro d pre rest he hb hp
    subst he
    have hr := decoder_reserve_at d pre (d.endian.put 4 x) rest 4 (by decide) hl hb hp
    simp only [Nat.cast_ofNat] at hr
    simp only [Decoder.Uint32, hr, Endian.Uint32]
    rw [List.take_of_length_le (by rw [hl]), Endian_get_put, hl,
      Nat.mod_eq_of_lt (by norm_num; omega)]

theorem Uint64_rt (en : Endian) (x : Nat) (hx : x < 2 ^ 64) :
    WritesAndReadsBack (fun e => Encoder.Uint64 e x false) Decoder.Uint64 en (en.put 8 x) x := by
  have hl := Endian_put_length en 8 x
  constructor
  · intro e he h
    rw [hl] at h
    subst he
    simp only [Encoder.Uint64, Bool.false_eq_true, if_false, reserve_ok e 8 h, Endian.PutUint64]
    rw [enc_fixed_state e _ 8 (Endian_put_length _ 8 x) h]
  · intro d pre rest he hb hp
    subst he
    have hr := decoder_reserve_at d pre (d.endian.put 8 x) rest 8 (by decide) hl hb hp
    simp only [Nat.cast_ofNat] at hr
    simp only [Decoder.Uint64, hr, Endian.Uint64]
    rw [List.take_of_length_le (by rw [hl]), Endian_get_put, hl,
      Nat.mod_eq_of_lt (by norm_num; omega)]

theorem Uint8_rt (en : Endian) (x : Nat) :
    WritesAndReadsBack (fun e => Encoder.Uint8 e x) Decoder.Uint8 en [x] x := by
  constructor
  · intro e _ h
    simp only [List.length_singleton] at h
    simp only [Encoder.Uint8, reserve_ok e 1 h]
    have hw : e.buff.set e.pos x = writeAt e.buff e.pos [x] := by simp [writeAt]
    rw [hw, enc_fixed_state e [x] 1 rfl h]
  · intro d pre rest _ hb hp
    have hu := decoder_uint8_at d pre rest x (by simpa using hb) hp
    simpa using hu

theorem Int8_rt (en : Endian) (x : Int) (hlo : -2 ^ 7 ≤ x) (hhi : x < 2 ^ 7) :
    WritesAndReadsBack (fun e => Encoder.Int8 e x) Decoder.Int8 en [(x % 256).toNat] x := by
  have h := Uint8_rt en (x % 256).toNat
  constructor
  · intro e he hr
    exact h.1 e he hr
  · intro d pre rest he hb hp
    have hu := h.2 d pre rest he hb hp
    simp only [Decoder.Int8, hu]
    have hv : (if (x % 256).toNat < 128 then (((x % 256).toNat : Nat) : Int)
        else (((x % 256).toNat : Nat) : Int) - 256) = x := by
      split <;> omega
    rw [hv]

theorem Int16_rt (en : Endian) (x : Int) (hlo : -2 ^ 15 ≤ x) (hhi : x < 2 ^ 15) :
    WritesAndReadsBack (fun e => Encoder.Int16 e x false) Decoder.Int16 en
      (en.put 2 (toUnsigned 16 x)) x := by
  have h := Uint16_rt en (toUnsigned 16 x) (toUnsigned_lt 16 x)
  constructor
  · intro e he hr
    have := h.1 e he hr
    simpa [Encoder.Int16] using this
  · intro d pre rest he hb hp
    have hu := h.2 d pre rest he hb hp
    simp only [Decoder.Int16, hu, toSigned_toUnsigned 16 (by decide) x hlo hhi]

theorem Int32_rt (en : Endian) (x : Int) (hlo : -2 ^ 31 ≤ x) (hhi : x < 2 ^ 31) :
    WritesAndReadsBack (fun e => Encoder.Int32 e x false) Decoder.Int32 en
      (en.put 4 (toUnsigned 32 x)) x := by
  have h := Uint32_rt en (toUnsigned 32 x) (toUnsigned_lt 32 x)
  constructor
  · intro e he hr
    have := h.1 e he hr
    simpa [Encoder.Int32] using this
  · intro d pre rest he hb hp
    have hu := h.2 d pre rest he hb hp
    simp only [Decoder.Int32, hu, toSigned_toUnsigned 32 (by decide) x hlo hhi]

theorem Int64_rt (en : Endian) (x : Int) (hlo : -2 ^ 63 ≤ x) (hhi : x < 2 ^ 63) :
    WritesAndReadsBack (fun e => Encoder.Int64 e x false) Decoder.Int64 en
      (en.put 8 (toUnsigned 64 x)) x := by
  have h := Uint64_rt en (toUnsigned 64 x) (toUnsigned_lt 64 x)
  constructor
  · intro e he hr
    have := h.1 e he hr
    simpa [Encoder.Int64] using this
  · intro d pre rest he hb hp
    have hu := h.2 d pre rest he hb hp
    simp only [Decoder.Int64, hu, toSigned_toUnsigned 64 (by decide) x hlo hhi]

theorem bigEndian_getD (n x i : Nat) (hi : i < n) :
    (Endian.BigEndian.put n x).getD i 0 = x / 256 ^ (n - 1 - i) % 256 := by
  have hl := leBytes_length n x
  simp only [Endian.put]
  rw [List.getD_eq_getElem?_getD, List.getElem?_reverse (by rw [hl]; exact hi), hl,
    ← List.getD_eq_getElem?_getD, leBytes_getD n x (n - 1 - i) (by omega)]

theorem splice_length (c : coder) (bytes : List Nat)
    (h : c.pos + bytes.length ≤ c.buff.length) :
    (c.splice bytes).buff.length = c.buff.length := by
  simp only [coder.splice, List.length_append, List.length_take, List.length_drop]
  omega

theorem splice_nil (c : coder) : c.splice [] = c := by
  simp [coder.splice]

theorem splice_splice (c : coder) (b1 b2 : List Nat)
    (h : c.pos + (b1.length + b2.length) ≤ c.buff.length) :
    (c.splice b1).splice b2 = c.splice (b1 ++ b2) := by
  have ht : (c.buff.take c.pos).length = c.pos := by simp; omega
  have hl : (c.buff.take c.pos ++ b1).length = c.pos + b1.length := by simp [ht]
  have e1 : List.take (c.pos + b1.length)
      (c.buff.take c.pos ++ b1 ++ c.buff.drop (c.pos + b1.length)) =
      c.buff.take c.pos ++ b1 := by
    rw [← hl, List.take_left']
    rfl
  have e2 : List.drop (c.pos + b1.length + b2.length)
      (c.buff.take c.pos ++ b1 ++ c.buff.drop (c.pos + b1.length)) =
      c.buff.drop (c.pos + (b1.length + b2.length)) := by
    rw [List.drop_append_eq_append_drop, List.drop_of_length_le (by rw [hl]; omega), hl,
      List.drop_drop]
    simp only [List.nil_append]
    congr 1
    omega
  simp only [coder.splice, List.length_append]
  rw [e1, e2]
  simp [Nat.add_assoc]

theorem Encoder_Uvarint_splice (e : Encoder) (x : Nat)
    (h : e.pos + SizeofUvarint x ≤ e.buff.length) :
    Encoder.Uvarint e x =
      ((SizeofUvarint x, none), e.splice (uvarintBytes (SizeofUvarint x - 1) x)) := by
  have hpos := SizeofUvarint_pos x
  have hlen : (uvarintBytes (SizeofUvarint x - 1) x).length = SizeofUvarint x := by
    rw [uvarintBytes_length]; omega
  rw [Encoder_Uvarint_ok e x h]
  simp only [coder.splice, hlen]

theorem reserve_splice (c : coder) (bytes : List Nat)
    (h : c.pos + bytes.length ≤ c.buff.length) :
    coder.reserve c bytes.length = some (c.pos, { c with pos := c.pos + bytes.length }) ∧
    ({ c with pos := c.pos + bytes.length, buff := writeAt c.buff c.pos bytes } : coder) =
      c.splice bytes := by
  refine ⟨reserve_ok c _ h, ?_⟩
  simp only [coder.splice, writeAt_splice bytes c.buff c.pos h]

theorem String_rt (en : Endian) (s : List Nat) (hs : s.length < 2 ^ 63) :
    WritesAndReadsBack (fun e => Encoder.String e s) Decoder.String en
      (uvarintBytes (SizeofUvarint s.length - 1) s.length ++ s) s := by
  have hpos := SizeofUvarint_pos s.length
  have hul : (uvarintBytes (SizeofUvarint s.length - 1) s.length).length =
      SizeofUvarint s.length := by rw [uvarintBytes_length]; omega
  constructor
  · intro e _ h
    simp only [List.length_append, hul] at h
    have h1 : e.pos + SizeofUvarint s.length ≤ e.buff.length := by omega
    have hsp := splice_length e (uvarintBytes (SizeofUvarint s.length - 1) s.length)
      (by rw [hul]; exact h1)
    have h2 : (e.splice (uvarintBytes (SizeofUvarint s.length - 1) s.length)).pos + s.length ≤
        (e.splice (uvarintBytes (SizeofUvarint s.length - 1) s.length)).buff.length := by
      rw [hsp]; simp only [coder.splice, hul]; omega
    have hr := reserve_splice _ s h2
    simp only [Encoder.String, Encoder_Uvarint_splice e _ h1, hr.1]
    have hss := splice_splice e (uvarintBytes (SizeofUvarint s.length - 1) s.length) s
      (by rw [hul]; omega)
    rw [hr.2, hss]
    rfl
  · intro d pre rest _ hb hp
    have hu := Decoder_Uvarint_bytes d s.length pre (s ++ rest)
      (by have : (2 : Nat) ^ 63 < 2 ^ 64 := by norm_num
          omega)
      (by simpa using hb) hp
    have hint : toSigned 64 s.length = (s.length : Int) := by
      unfold toSigned
      have hm : s.length % 2 ^ 64 = s.length := Nat.mod_eq_of_lt (by
        have : (2 : Nat) ^ 63 < 2 ^ 64 := by norm_num
        omega)
      rw [hm, if_pos (by simpa using hs)]
    simp only [Decoder.String, hu, hint]
    by_cases h0 : s.length = 0
    · have hnil : s = [] := List.length_eq_zero.mp h0
      subst hnil
      simp only [List.length_nil] at hul
      simp [Decoder.reserve, hul]
    · have hr := decoder_reserve_at { d with pos := d.pos + SizeofUvarint s.length }
        (pre ++ uvarintBytes (SizeofUvarint s.length - 1) s.length) s rest s.length
        (by omega) rfl (by simpa using hb) (by simp [hp, hul])
      simp only [hr, List.length_append, hul]
      simp only [Nat.add_assoc]

/-! ## Lemmas: bit-packed booleans -/

theorem getD_snoc_bool (bs : List bool) (b : bool) (i : Nat) :
    (bs ++ [b]).getD i false = (bs.getD i false || (decide (i = bs.length) && b)) := by
  rcases Nat.lt_trichotomy i bs.length with h | h | h
  · rw [List.getD_append _ _ _ _ h]
    simp [Nat.ne_of_lt h]
  · subst h
    rw [List.getD_append_right _ _ _ _ (Nat.le_refl _)]
    simp [List.getD_eq_getElem?_getD]
  · rw [List.getD_append_right _ _ _ _ (Nat.le_of_lt h)]
    have h1 : i - bs.length ≠ 0 := by omega
    obtain ⟨m, hm⟩ : ∃ m, i - bs.length = m + 1 := ⟨i - bs.length - 1, by omega⟩
    have h2 : bs.length ≤ i := by omega
    simp [List.getD_eq_getElem?_getD, hm, List.getElem?_eq_none h2, Nat.ne_of_gt h]

theorem testBit_boolByte (b : bool) (r : Nat) :
    (if b then 1 else 0 : Nat).testBit r = (decide (r = 0) && b) := by
  cases b <;> cases r <;> simp [Nat.testBit_succ]

theorem getD_set_nat (l : List Nat) (i j v : Nat) (hi : i < l.length) :
    (l.set i v).getD j 0 = if i = j then v else l.getD j 0 := by
  simp only [List.getD_eq_getElem?_getD, List.getElem?_set, hi, if_true]
  split <;> simp

theorem packStep_PackedBits (acc : List Nat) (bs : List bool) (b : bool)
    (h : PackedBits acc bs) : PackedBits (packStep acc bs.length b) (bs ++ [b]) := by
  obtain ⟨hlen, hbits, hbyte⟩ := h
  unfold packStep
  by_cases h0 : bs.length % 8 = 0
  · rw [if_pos h0]
    refine ⟨by simp; omega, ?_, ?_⟩
    · intro q r hr
      rw [getD_snoc_bool]
      rcases Nat.lt_trichotomy q acc.length with hq | hq | hq
      · rw [List.getD_append _ _ _ _ hq, hbits q r hr]
        have : 8 * q + r ≠ bs.length := by omega
        simp [this]
      · rw [List.getD_append_right _ _ _ _ (Nat.le_of_eq hq.symm)]
        have hz : q - acc.length = 0 := by omega
        have hout : bs.length ≤ 8 * q + r := by omega
        have hnone : bs.getD (8 * q + r) false = false := by
          simp [List.getD_eq_getElem?_getD, List.getElem?_eq_none hout]
        rw [hz, hnone]
        simp only [List.getD_cons_zero, Bool.false_or]
        rw [testBit_boolByte]
        have hiff : (8 * q + r = bs.length) ↔ (r = 0) := by omega
        simp [hiff]
      · rw [List.getD_append_right _ _ _ _ (Nat.le_of_lt hq)]
        obtain ⟨m, hm⟩ : ∃ m, q - acc.length = m + 1 := ⟨q - acc.length - 1, by omega⟩
        have hout : bs.length ≤ 8 * q + r := by omega
        have hnone : bs.getD (8 * q + r) false = false := by
          simp [List.getD_eq_getElem?_getD, List.getElem?_eq_none hout]
        have hne : 8 * q + r ≠ bs.length := by omega
        rw [hnone]
        simp [hm, hne]
    · intro q
      rcases Nat.lt_or_ge q acc.length with hq | hq
      · rw [List.getD_append _ _ _ _ hq]; exact hbyte q
      · rw [List.getD_append_right _ _ _ _ hq]
        cases hqq : q - acc.length with
        | zero => cases b <;> simp
        | succ m => simp
  · rw [if_neg h0]
    have hpos : 0 < acc.length := by omega
    have hlast : acc.length - 1 = bs.length / 8 := by omega
    cases b with
    | false =>
      simp only [Bool.false_eq_true, if_false]
      refine ⟨by simp; omega, ?_, hbyte⟩
      intro q r hr
      rw [getD_snoc_bool, hbits q r hr]
      simp
    | true =>
      simp only [if_true]
      refine ⟨by simp; omega, ?_, ?_⟩
      · intro q r hr
        rw [getD_snoc_bool, getD_set_nat _ _ _ _ (by omega)]
        by_cases hq : acc.length - 1 = q
        · rw [if_pos hq, Nat.testBit_or, Nat.testBit_two_pow, hq, hbits q r hr]
          have hiff : (bs.length % 8 = r) ↔ (8 * q + r = bs.length) := by omega
          simp [hiff]
        · rw [if_neg hq, hbits q r hr]
          have hne : 8 * q + r ≠ bs.length := by omega
          simp [hne]
      · intro q
        rw [getD_set_nat _ _ _ _ (by omega)]
        split
        · apply Nat.or_lt_two_pow (n := 8) (hbyte _)
          exact Nat.pow_lt_pow_right (by norm_num) (by omega)
        · exact hbyte q

theorem packRun_PackedBits (bs : List bool) : ∀ (acc : List Nat) (done : List bool),
    PackedBits acc done → PackedBits (packRun acc done.length bs) (done ++ bs) := by
  induction bs with
  | nil => intro acc done h; simpa [packRun] using h
  | cons b bs ih =>
    intro acc done h
    have h1 := ih (packStep acc done.length b) (done ++ [b]) (packStep_PackedBits acc done b h)
    simpa [packRun] using h1

theorem packBools_PackedBits (bs : List bool) : PackedBits (packBools bs) bs := by
  have h := packRun_PackedBits bs [] [] ⟨rfl, by intro q r _; simp, by intro q; simp⟩
  simpa [packBools] using h

theorem splice_take_length (c : coder) (acc : List Nat)
    (h : c.pos + acc.length ≤ c.buff.length) : (c.buff.take c.pos).length = c.pos := by
  simp; omega

theorem splice_getD (c : coder) (acc : List Nat) (i : Nat)
    (h : c.pos + acc.length ≤ c.buff.length) (hi : i < acc.length) :
    (c.splice acc).buff.getD (c.pos + i) 0 = acc.getD i 0 := by
  have ht := splice_take_length c acc h
  have := getD_splice (c.buff.take c.pos) acc (c.buff.drop (c.pos + acc.length)) i hi
  rw [ht] at this
  exact this

theorem splice_set_last (c : coder) (acc : List Nat) (i v : Nat)
    (h : c.pos + acc.length ≤ c.buff.length) (hi : i < acc.length) :
    (c.splice acc).buff.set (c.pos + i) v = (c.splice (acc.set i v)).buff := by
  have ht := splice_take_length c acc h
  simp only [coder.splice, List.length_set]
  rw [List.append_assoc, List.append_assoc, List.set_append, ht,
    if_neg (by omega), List.set_append, if_pos (by omega)]
  congr 3
  omega

theorem splice_set_new (c : coder) (acc : List Nat) (v : Nat)
    (h : c.pos + acc.length + 1 ≤ c.buff.length) :
    (c.splice acc).buff.set (c.pos + acc.length) v = (c.splice (acc ++ [v])).buff := by
  have ht := splice_take_length c acc (by omega)
  obtain ⟨l1, a, l2, hl, hlen⟩ :=
    exists_split_at (c.buff.drop (c.pos + acc.length)) 0 (by simp; omega)
  have hl1 : l1 = [] := List.length_eq_zero.mp hlen
  subst hl1
  have hd : c.buff.drop (c.pos + (acc.length + 1)) = l2 := by
    have : c.buff.drop (c.pos + (acc.length + 1)) =
        (c.buff.drop (c.pos + acc.length)).drop 1 := by
      rw [List.drop_drop, Nat.add_assoc]
    rw [this, hl]; simp
  simp only [coder.splice, List.length_append, List.length_singleton, hd, hl]
  have := set_mid (c.buff.take c.pos ++ acc) l2 a v (c.pos + acc.length) (by simp [ht])
  simpa using this

theorem mask_eq (r : Nat) (hr : r < 8) : (1 <<< r) % 256 = 2 ^ r := by
  rw [Nat.one_shiftLeft]
  apply Nat.mod_eq_of_lt
  have : (2 : Nat) ^ r < 2 ^ 8 := Nat.pow_lt_pow_right (by norm_num) hr
  simpa using this

theorem PackedBits_length_pos (acc : List Nat) (done : List bool)
    (h : PackedBits acc done) (hj : done.length % 8 ≠ 0) : 0 < acc.length := by
  have := h.1; omega

theorem packStep_length (acc : List Nat) (j : Nat) (b : bool) :
    (packStep acc j b).length = if j % 8 = 0 then acc.length + 1 else acc.length := by
  unfold packStep
  split
  · simp
  · split <;> simp

theorem Encoder_Bool_step (e0 : coder) (acc : List Nat) (done : List bool) (bp : Nat)
    (b : bool) (hinv : PackedBits acc done)
    (hbp : done.length % 8 ≠ 0 → bp = e0.pos + acc.length - 1)
    (hroom : e0.pos + (done.length + 1 + 7) / 8 ≤ e0.buff.length) :
    Encoder.Bool (runState e0 acc (done.length % 8) bp) b =
      (none, runState e0 (packStep acc done.length b) ((done.length + 1) % 8)
        (e0.pos + (packStep acc done.length b).length - 1)) := by
  have hlen := hinv.1
  have hbit : (done.length % 8 + 1) % 8 = (done.length + 1) % 8 := by omega
  by_cases h0 : done.length % 8 = 0
  · have hr : e0.pos + acc.length + 1 ≤ e0.buff.length := by omega
    have hsl := splice_length e0 acc (by omega)
    have hnew := splice_set_new e0 acc 0 hr
    have hlast := splice_set_last e0 (acc ++ [0]) acc.length 1 (by simpa using hr) (by simp)
    have hg := splice_getD e0 (acc ++ [0]) acc.length (by simpa using hr) (by simp)
    have hacc1 : (acc ++ [0]).set acc.length 1 = acc ++ [1] := by simp
    have hacc0 : (acc ++ [0]).getD acc.length 0 = 0 := by simp
    rw [hacc1] at hlast
    rw [hacc0] at hg
    unfold Encoder.Bool
    rw [h0]
    rw [if_pos (show (runState e0 acc 0 bp).boolBit = 0 from rfl)]
    rw [reserve_ok (runState e0 acc 0 bp) 1 (by simp only [runState]; omega)]
    simp only [runState, Nat.add_sub_cancel, hnew, Nat.shiftLeft_zero, Nat.one_mod]
    cases b with
    | true =>
      simp only [if_true, hg, Nat.zero_or, hlast, packStep, h0]
      simp only [← hbit, h0]
      simp [Nat.add_assoc]
    | false =>
      simp only [Bool.false_eq_true, if_false, packStep, h0, if_true]
      simp only [← hbit, h0]
      simp [Nat.add_assoc]
  · have hpos := PackedBits_length_pos acc done hinv h0
    have hbp2 := hbp h0
    have hr : e0.pos + acc.length ≤ e0.buff.length := by omega
    have hlt : done.length % 8 < 8 := Nat.mod_lt _ (by norm_num)
    have hidx : bp = e0.pos + (acc.length - 1) := by omega
    have hlast := splice_set_last e0 acc (acc.length - 1)
      (acc.getD (acc.length - 1) 0 ||| 2 ^ (done.length % 8)) hr (by omega)
    have hg := splice_getD e0 acc (acc.length - 1) hr (by omega)
    unfold Encoder.Bool
    rw [if_neg (show ¬ (runState e0 acc (done.length % 8) bp).boolBit = 0 from h0)]
    simp only [runState, mask_eq _ hlt]
    cases b with
    | true =>
      simp only [if_true, hidx, hg, hlast, packStep, h0, if_false, List.length_set]
      have : e0.pos + (acc.length - 1) = e0.pos + acc.length - 1 := by omega
      rw [this, hbit]
    | false =>
      simp only [Bool.false_eq_true, if_false, packStep, h0, hidx]
      have : e0.pos + (acc.length - 1) = e0.pos + acc.length - 1 := by omega
      rw [this, hbit]

theorem runState_start (e : coder) (h : e.boolBit = 0) :
    runState e [] 0 e.boolPos = e := by
  obtain ⟨buff, pos, bp, bb, en⟩ := e
  simp only at h
  subst h
  simp [runState, coder.splice]

theorem boolRun_sim (e0 : coder) (bs : List bool) :
    ∀ (acc : List Nat) (done : List bool) (bp : Nat), PackedBits acc done →
      (done.length % 8 ≠ 0 → bp = e0.pos + acc.length - 1) →
      e0.pos + (done.length + bs.length + 7) / 8 ≤ e0.buff.length →
      Encoder.boolRun (runState e0 acc (done.length % 8) bp) bs =
        (none, runState e0 (packRun acc done.length bs) ((done.length + bs.length) % 8)
          (if bs = [] then bp else e0.pos + (packRun acc done.length bs).length - 1)) := by
  induction bs with
  | nil =>
    intro acc done bp _ _ _
    simp [Encoder.boolRun, packRun]
  | cons b bs ih =>
    intro acc done bp hinv hbp hroom
    simp only [List.length_cons] at hroom
    have hstep := Encoder_Bool_step e0 acc done bp b hinv hbp (by omega)
    have hinv2 := packStep_PackedBits acc done b hinv
    have h := ih (packStep acc done.length b) (done ++ [b])
      (e0.pos + (packStep acc done.length b).length - 1) hinv2 (fun _ => rfl)
      (by simp only [List.length_append, List.length_singleton]; omega)
    simp only [List.length_append, List.length_singleton] at h
    simp only [Encoder.boolRun, hstep, h, packRun, List.length_cons]
    have e1 : done.length + 1 + bs.length = done.length + (bs.length + 1) := by omega
    rw [e1]
    by_cases hb : bs = []
    · subst hb; simp [packRun]
    · simp [hb]

theorem PackedBits_window (acc : List Nat) (bs : List bool) (h : PackedBits acc bs) :
    (∀ i, i < bs.length → (acc.getD (i / 8) 0).testBit (i % 8) = bs.getD i false) ∧
    (∀ i, bs.length ≤ i → (acc.getD (i / 8) 0).testBit (i % 8) = false) := by
  obtain ⟨_, hbits, _⟩ := h
  constructor
  · intro i _
    have := hbits (i / 8) (i % 8) (Nat.mod_lt _ (by norm_num))
    rwa [Nat.div_add_mod] at this
  · intro i hi
    have := hbits (i / 8) (i % 8) (Nat.mod_lt _ (by norm_num))
    rw [Nat.div_add_mod] at this
    rw [this]
    simp [List.getD_eq_getElem?_getD, List.getElem?_eq_none hi]

theorem runState_self (e0 : coder) (acc : List Nat) :
    runState e0 acc e0.boolBit e0.boolPos = e0.splice acc := rfl

theorem boolData_length (bs : List bool) : (boolData bs).length = bs.length := by
  induction bs with
  | nil => rfl
  | cons b bs ih => simp only [boolData, List.map_cons, DataList.ofList, DataList.length] at ih ⊢; rw [ih]; rfl

theorem fastBoolLoop_step (e : coder) (x : bool) (xs : DataList) (i b : Nat)
    (hroom : i % 8 = 0 → e.pos + 1 ≤ e.buff.length) :
    Encoder.fastBoolLoop (DataList.cons (Data.bool x) xs) i b none e =
      Encoder.fastBoolLoop xs (i + 1)
        (Encoder.Bool { e with boolBit := i % 8, boolPos := b } x).2.boolPos none
        { (Encoder.Bool { e with boolBit := i % 8, boolPos := b } x).2 with
          boolBit := e.boolBit, boolPos := e.boolPos } := by
  by_cases h0 : i % 8 = 0
  · have hp := hroom h0
    cases x <;>
      simp [Encoder.fastBoolLoop, Encoder.Bool, coder.reserve, h0, hp, Data.toBool]
  · simp only [Encoder.fastBoolLoop, Encoder.Bool, h0, if_false, Data.toBool]
    cases x <;> simp

theorem boolArrayLoop_step (e : coder) (x : bool) (xs : DataList) (i b : Nat)
    (hroom : i % 8 = 0 → e.pos + 1 ≤ e.buff.length) :
    Encoder.boolArrayLoop (DataList.cons (Data.bool x) xs) i b e =
      Encoder.boolArrayLoop xs (i + 1)
        (Encoder.Bool { e with boolBit := i % 8, boolPos := b } x).2.boolPos
        { (Encoder.Bool { e with boolBit := i % 8, boolPos := b } x).2 with
          boolBit := e.boolBit, boolPos := e.boolPos } := by
  by_cases h0 : i % 8 = 0
  · have hp := hroom h0
    cases x <;>
      simp [Encoder.boolArrayLoop, coder.mustReserve, Encoder.Bool, coder.reserve, h0, hp,
        Data.toBool]
  · simp only [Encoder.boolArrayLoop, Encoder.Bool, h0, if_false, Data.toBool]
    cases x <;> simp

theorem fastBoolLoop_sim (e0 : coder) (bb bp : Nat) (bs : List bool) :
    ∀ (acc : List Nat) (done : List bool) (b : Nat), PackedBits acc done →
      (done.length % 8 ≠ 0 → b = e0.pos + acc.length - 1) →
      e0.pos + (done.length + bs.length + 7) / 8 ≤ e0.buff.length →
      Encoder.fastBoolLoop (boolData bs) done.length b none (runState e0 acc bb bp) =
        (none, runState e0 (packRun acc done.length bs) bb bp) := by
  induction bs with
  | nil =>
    intro acc done b _ _ _
    simp [boolData, DataList.ofList, Encoder.fastBoolLoop, packRun]
  | cons x bs ih =>
    intro acc done b hinv hb hroom
    simp only [List.length_cons] at hroom
    have hlen := hinv.1
    have hstep := Encoder_Bool_step e0 acc done b x hinv hb (by omega)
    have hinv2 := packStep_PackedBits acc done x hinv
    have h := ih (packStep acc done.length x) (done ++ [x])
      (e0.pos + (packStep acc done.length x).length - 1) hinv2 (fun _ => rfl)
      (by simp only [List.length_append, List.length_singleton]; omega)
    simp only [List.length_append, List.length_singleton] at h
    have hs := fastBoolLoop_step (runState e0 acc bb bp) x (boolData bs) done.length b
      (by intro h0; simp only [runState, splice_length e0 acc (by omega)]; omega)
    have hst : ({ runState e0 acc bb bp with boolBit := done.length % 8, boolPos := b } : coder)
        = runState e0 acc (done.length % 8) b := rfl
    rw [hst, hstep] at hs
    simp only [boolData, List.map_cons, DataList.ofList] at hs ⊢
    rw [hs]
    exact h

theorem boolArrayLoop_sim (e0 : coder) (bb bp : Nat) (bs : List bool) :
    ∀ (acc : List Nat) (done : List bool) (b : Nat), PackedBits acc done →
      (done.length % 8 ≠ 0 → b = e0.pos + acc.length - 1) →
      e0.pos + (done.length + bs.length + 7) / 8 ≤ e0.buff.length →
      Encoder.boolArrayLoop (boolData bs) done.length b (runState e0 acc bb bp) =
        Res.ok (runState e0 (packRun acc done.length bs) bb bp) := by
  induction bs with
  | nil =>
    intro acc done b _ _ _
    simp [boolData, DataList.ofList, Encoder.boolArrayLoop, packRun]
  | cons x bs ih =>
    intro acc done b hinv hb hroom
    simp only [List.length_cons] at hroom
    have hlen := hinv.1
    have hstep := Encoder_Bool_step e0 acc done b x hinv hb (by omega)
    have hinv2 := packStep_PackedBits acc done x hinv
    have h := ih (packStep acc done.length x) (done ++ [x])
      (e0.pos + (packStep acc done.length x).length - 1) hinv2 (fun _ => rfl)
      (by simp only [List.length_append, List.length_singleton]; omega)
    simp only [List.length_append, List.length_singleton] at h
    have hs := boolArrayLoop_step (runState e0 acc bb bp) x (boolData bs) done.length b
      (by intro h0; simp only [runState, splice_length e0 acc (by omega)]; omega)
    have hst : ({ runState e0 acc bb bp with boolBit := done.length % 8, boolPos := b } : coder)
        = runState e0 acc (done.length % 8) b := rfl
    rw [hst, hstep] at hs
    simp only [boolData, List.map_cons, DataList.ofList] at hs ⊢
    rw [hs]
    exact h

theorem sizeofBoolArray_nat (l : Nat) (hl : l < 2 ^ 63) :
    sizeofBoolArray (l : Int) = ((SizeofUvarint l + (l + 7) / 8 : Nat) : Int) := by
  unfold sizeofBoolArray toUnsigned
  have h1 : ((l : Int) % 2 ^ 64).toNat = l := by omega
  rw [h1]
  have h2 : Int.tdiv ((l : Int) + 7) 8 = (((l + 7) / 8 : Nat) : Int) := by
    have : ((l : Int) + 7) = ((l + 7 : Nat) : Int) := by push_cast; ring
    rw [this]
    exact (Int.ofNat_tdiv (l + 7) 8).symm
  rw [h2]
  push_cast
  ring

theorem boolLoops_run (e : coder) (bs : List bool)
    (hroom : e.pos + (SizeofUvarint bs.length + (bs.length + 7) / 8) ≤ e.buff.length) :
    Encoder.fastBoolLoop (boolData bs) 0 0 none (Encoder.Uvarint e bs.length).2 =
      (none, e.splice (uvarintBytes (SizeofUvarint bs.length - 1) bs.length ++ packBools bs)) ∧
    Encoder.boolArrayLoop (boolData bs) 0 0 (Encoder.Uvarint e bs.length).2 =
      Res.ok (e.splice (uvarintBytes (SizeofUvarint bs.length - 1) bs.length ++ packBools bs)) := by
  have hpos := SizeofUvarint_pos bs.length
  have hul : (uvarintBytes (SizeofUvarint bs.length - 1) bs.length).length =
      SizeofUvarint bs.length := by rw [uvarintBytes_length]; omega
  have hpl := (packBools_PackedBits bs).1
  have hu := Encoder_Uvarint_splice e bs.length (by omega)
  have hsl := splice_length e (uvarintBytes (SizeofUvarint bs.length - 1) bs.length)
    (by rw [hul]; omega)
  have hinit : PackedBits [] ([] : List bool) :=
    ⟨rfl, by intro q r _; simp, by intro q; simp⟩
  have hroom2 : (e.splice (uvarintBytes (SizeofUvarint bs.length - 1) bs.length)).pos +
      (([] : List bool).length + bs.length + 7) / 8 ≤
      (e.splice (uvarintBytes (SizeofUvarint bs.length - 1) bs.length)).buff.length := by
    rw [hsl]
    simp only [coder.splice, hul, List.length_nil, Nat.zero_add]
    omega
  have hss := splice_splice e (uvarintBytes (SizeofUvarint bs.length - 1) bs.length)
    (packBools bs) (by rw [hul, hpl]; exact hroom)
  have hstart : ∀ c : coder, runState c [] c.boolBit c.boolPos = c := by
    intro c
    rw [runState_self, splice_nil]
  rw [hu]
  simp only
  constructor
  · have h := fastBoolLoop_sim (e.splice (uvarintBytes (SizeofUvarint bs.length - 1) bs.length))
      (e.splice (uvarintBytes (SizeofUvarint bs.length - 1) bs.length)).boolBit
      (e.splice (uvarintBytes (SizeofUvarint bs.length - 1) bs.length)).boolPos
      bs [] [] 0 hinit (by simp) hroom2
    rw [hstart, runState_self] at h
    simp only [List.length_nil] at h
    rw [h]
    simp only [packBools] at hss
    rw [hss]
    rfl
  · have h := boolArrayLoop_sim (e.splice (uvarintBytes (SizeofUvarint bs.length - 1) bs.length))
      (e.splice (uvarintBytes (SizeofUvarint bs.length - 1) bs.length)).boolBit
      (e.splice (uvarintBytes (SizeofUvarint bs.length - 1) bs.length)).boolPos
      bs [] [] 0 hinit (by simp) hroom2
    rw [hstart, runState_self] at h
    simp only [List.length_nil] at h
    rw [h]
    simp only [packBools] at hss
    rw [hss]
    rfl

theorem testBit_mask (v r : Nat) (hr : r < 8) :
    decide ((v &&& (1 <<< r) % 256) ≠ 0) = v.testBit r := by
  rw [mask_eq r hr, Nat.and_two_pow]
  have hpos : 0 < 2 ^ r := by positivity
  cases h : v.testBit r
  · simp
  · simp only [Bool.toNat_true, Nat.one_mul, ne_eq, decide_eq_true_eq]
    omega

theorem replicate_length (n : Nat) (x : Data) : (DataList.replicate n x).length = n := by
  induction n with
  | zero => rfl
  | succ n ih => simp only [DataList.replicate, DataList.length, ih]

theorem boolData_drop (bs : List bool) (i : Nat) (hi : i < bs.length) :
    boolData (bs.drop i) =
      DataList.cons (Data.bool (bs.getD i false)) (boolData (bs.drop (i + 1))) := by
  have h := List.drop_eq_getElem_cons hi
  have hg : bs.getD i false = bs[i] := by
    simp [List.getD_eq_getElem?_getD, List.getElem?_eq_getElem hi]
  rw [h, hg]
  rfl

theorem window_byte (w pre rest : List Nat) (q : Nat) (hq : q < w.length) :
    ∃ l1 l2, pre ++ w ++ rest = (pre ++ l1) ++ [w.getD q 0] ++ (l2 ++ rest) ∧
      (pre ++ l1).length = pre.length + q := by
  obtain ⟨l1, a, l2, hw, hl1⟩ := exists_split_at w q hq
  refine ⟨l1, l2, ?_, by simp [hl1]⟩
  have ha : w.getD q 0 = a := by
    rw [hw, ← hl1, List.getD_append_right _ _ _ _ (Nat.le_refl _)]
    simp
  rw [ha]
  conv_lhs => rw [hw]
  simp

theorem dec_bit_step (w : List Nat) (pre rest : List Nat) (i : Nat) (b : List Nat)
    (d : Decoder) (hq : i / 8 < w.length)
    (hb : d.buff = pre ++ w ++ rest) (hp : d.pos = pre.length + (i + 7) / 8)
    (hwin : i % 8 ≠ 0 → b.getD 0 0 = w.getD (i / 8) 0) :
    ∃ b1, (if i % 8 = 0 then Decoder.reserve d 1 else Res.ok (b, d)) =
        Res.ok (b1, { d with pos := pre.length + (i + 1 + 7) / 8 }) ∧
      b1.getD 0 0 = w.getD (i / 8) 0 := by
  by_cases h0 : i % 8 = 0
  · obtain ⟨l1, l2, hsplit, hl⟩ := window_byte w pre rest (i / 8) hq
    have hr := decoder_reserve_at d (pre ++ l1) [w.getD (i / 8) 0] (l2 ++ rest) 1 (by decide)
      rfl (by rw [hb, hsplit]) (by rw [hp, hl]; omega)
    simp only [Nat.cast_one] at hr
    refine ⟨[w.getD (i / 8) 0], ?_, by simp⟩
    rw [if_pos h0, hr]
    have : d.pos + 1 = pre.length + (i + 1 + 7) / 8 := by omega
    rw [this]
  · refine ⟨b, ?_, hwin h0⟩
    rw [if_neg h0]
    have : d.pos = pre.length + (i + 1 + 7) / 8 := by omega
    rw [← this]

theorem dec_fastBoolLoop (w : List Nat) (bs : List bool) (pre rest : List Nat)
    (hw : PackedBits w bs) :
    ∀ (n i : Nat) (b : List Nat) (d : Decoder), i + n = bs.length →
      d.buff = pre ++ w ++ rest → d.pos = pre.length + (i + 7) / 8 →
      (i % 8 ≠ 0 → b.getD 0 0 = w.getD (i / 8) 0) →
      Decoder.fastBoolLoop n i b d =
        Res.ok (boolData (bs.drop i), { d with pos := pre.length + (bs.length + 7) / 8 }) := by
  intro n
  induction n with
  | zero =>
    intro i b d hi _ hp _
    have : i = bs.length := by omega
    subst this
    simp only [Decoder.fastBoolLoop, List.drop_length, ← hp]
    rfl
  | succ n ih =>
    intro i b d hi hb hp hwin
    have hlen := hw.1
    have hq : i / 8 < w.length := by omega
    obtain ⟨b1, hstep, hb1⟩ := dec_bit_step w pre rest i b d hq hb hp hwin
    have hbit := (hw.2.1 (i / 8) (i % 8) (Nat.mod_lt _ (by norm_num)))
    rw [Nat.div_add_mod] at hbit
    have hrec := ih (i + 1) b1 { d with pos := pre.length + (i + 1 + 7) / 8 } (by omega) hb rfl
      (by intro h1
          have : (i + 1) / 8 = i / 8 := by omega
          rw [this]; exact hb1)
    simp only [Decoder.fastBoolLoop, hstep, hrec]
    rw [boolData_drop bs i (by omega), hb1, testBit_mask _ _ (Nat.mod_lt _ (by norm_num)), hbit]

theorem dec_boolArrayLoop (w : List Nat) (bs : List bool) (pre rest : List Nat)
    (hw : PackedBits w bs) :
    ∀ (n i : Nat) (b : List Nat) (xs : DataList) (d : Decoder), i + n = bs.length →
      xs.length = n →
      d.buff = pre ++ w ++ rest → d.pos = pre.length + (i + 7) / 8 →
      (i % 8 ≠ 0 → b.getD 0 0 = w.getD (i / 8) 0) →
      Decoder.boolArrayLoop n i b xs d =
        Res.ok (boolData (bs.drop i), { d with pos := pre.length + (bs.length + 7) / 8 }) := by
  intro n
  induction n with
  | zero =>
    intro i b xs d hi hxs _ hp _
    have : i = bs.length := by omega
    subst this
    cases xs with
    | nil =>
      simp only [Decoder.boolArrayLoop, List.drop_length, ← hp]
      rfl
    | cons x xs => simp [DataList.length] at hxs
  | succ n ih =>
    intro i b xs d hi hxs hb hp hwin
    cases xs with
    | nil => simp [DataList.length] at hxs
    | cons x xs =>
      have hxs2 : xs.length = n := by simpa [DataList.length] using hxs
      have hlen := hw.1
      have hq : i / 8 < w.length := by omega
      obtain ⟨b1, hstep, hb1⟩ := dec_bit_step w pre rest i b d hq hb hp hwin
      have hbit := (hw.2.1 (i / 8) (i % 8) (Nat.mod_lt _ (by norm_num)))
      rw [Nat.div_add_mod] at hbit
      have hrec := ih (i + 1) b1 xs { d with pos := pre.length + (i + 1 + 7) / 8 } (by omega)
        hxs2 hb rfl
        (by intro h1
            have : (i + 1) / 8 = i / 8 := by omega
            rw [this]; exact hb1)
      simp only [Decoder.boolArrayLoop, hstep, hrec]
      rw [boolData_drop bs i (by omega), hb1, testBit_mask _ _ (Nat.mod_lt _ (by norm_num)),
        hbit]

theorem toSigned_len (l : Nat) (hl : l < 2 ^ 63) : toSigned 64 l = (l : Int) := by
  unfold toSigned
  have hm : l % 2 ^ 64 = l := Nat.mod_eq_of_lt (by
    have : (2 : Nat) ^ 63 < 2 ^ 64 := by norm_num
    omega)
  rw [hm, if_pos (by simpa using hl)]

theorem dec_bool_wire (d : Decoder) (bs : List bool) (pre rest : List Nat)
    (hlen : bs.length < 2 ^ 63)
    (hb : d.buff = pre ++
      (uvarintBytes (SizeofUvarint bs.length - 1) bs.length ++ packBools bs) ++ rest)
    (hp : d.pos = pre.length) :
    Decoder.Uvarint d = Res.ok ((bs.length, SizeofUvarint bs.length),
      { d with pos := d.pos + SizeofUvarint bs.length }) ∧
    Decoder.fastBoolLoop bs.length 0 [] { d with pos := d.pos + SizeofUvarint bs.length } =
      Res.ok (boolData bs,
        { d with pos := d.pos + (SizeofUvarint bs.length + (bs.length + 7) / 8) }) ∧
    (∀ xs : DataList, xs.length = bs.length →
      Decoder.boolArrayLoop bs.length 0 [] xs
          { d with pos := d.pos + SizeofUvarint bs.length } =
        Res.ok (boolData bs,
          { d with pos := d.pos + (SizeofUvarint bs.length + (bs.length + 7) / 8) })) := by
  have hpos := SizeofUvarint_pos bs.length
  have hul : (uvarintBytes (SizeofUvarint bs.length - 1) bs.length).length =
      SizeofUvarint bs.length := by rw [uvarintBytes_length]; omega
  have hw := packBools_PackedBits bs
  have hx : bs.length < 2 ^ 64 := by
    have : (2 : Nat) ^ 63 < 2 ^ 64 := by norm_num
    omega
  have hu := Decoder_Uvarint_bytes d bs.length pre (packBools bs ++ rest) hx
    (by simpa using hb) hp
  have hb2 : ({ d with pos := d.pos + SizeofUvarint bs.length } : coder).buff =
      (pre ++ uvarintBytes (SizeofUvarint bs.length - 1) bs.length) ++ packBools bs ++ rest := by
    simpa using hb
  have hp2 : ({ d with pos := d.pos + SizeofUvarint bs.length } : coder).pos =
      (pre ++ uvarintBytes (SizeofUvarint bs.length - 1) bs.length).length + (0 + 7) / 8 := by
    simp [hp, hul]
  have hfin : (pre ++ uvarintBytes (SizeofUvarint bs.length - 1) bs.length).length +
      (bs.length + 7) / 8 = d.pos + (SizeofUvarint bs.length + (bs.length + 7) / 8) := by
    simp only [List.length_append, hul, hp]; omega
  refine ⟨hu, ?_, ?_⟩
  · have h := dec_fastBoolLoop (packBools bs) bs
      (pre ++ uvarintBytes (SizeofUvarint bs.length - 1) bs.length) rest hw bs.length 0 []
      { d with pos := d.pos + SizeofUvarint bs.length } (by omega) hb2 hp2 (by simp)
    rw [h, hfin]
    rfl
  · intro xs hxs
    have h := dec_boolArrayLoop (packBools bs) bs
      (pre ++ uvarintBytes (SizeofUvarint bs.length - 1) bs.length) rest hw bs.length 0 [] xs
      { d with pos := d.pos + SizeofUvarint bs.length } (by omega) hxs hb2 hp2 (by simp)
    rw [h, hfin]
    rfl

theorem dec_bool_paths (d : Decoder) (bs : List bool) (pre rest : List Nat)
    (hlen : bs.length < 2 ^ 63)
    (hb : d.buff = pre ++
      (uvarintBytes (SizeofUvarint bs.length - 1) bs.length ++ packBools bs) ++ rest)
    (hp : d.pos = pre.length) :
    (∀ x : Data, x ≠ Data.nilPtr →
      Decoder.fastValue d (GoType.ptr (GoType.slice GoType.bool)) x =
        Res.ok (true, Data.ptr (Data.seq (boolData bs)),
          { d with pos := d.pos + (SizeofUvarint bs.length + (bs.length + 7) / 8) })) ∧
    Decoder.boolArray d (GoType.slice GoType.bool) (zeroValue (GoType.slice GoType.bool)) =
      Res.ok (((SizeofUvarint bs.length + (bs.length + 7) / 8 : Nat) : Int),
        Data.seq (boolData bs),
        { d with pos := d.pos + (SizeofUvarint bs.length + (bs.length + 7) / 8) }) ∧
    (∀ cur : Data, bs ≠ [] →
      Decoder.boolArray d (GoType.slice GoType.bool) cur =
        Res.ok (((SizeofUvarint bs.length + (bs.length + 7) / 8 : Nat) : Int),
          Data.seq (boolData bs),
          { d with pos := d.pos + (SizeofUvarint bs.length + (bs.length + 7) / 8) })) := by
  obtain ⟨hu, hfast, hrefl⟩ := dec_bool_wire d bs pre rest hlen hb hp
  have hs := toSigned_len bs.length hlen
  have hsz := sizeofBoolArray_nat bs.length hlen
  refine ⟨?_, ?_, ?_⟩
  · intro x hx
    have hnot : ¬ ((bs.length : Int) < 0 ∨ x = Data.nilPtr) := by
      rintro (h | h)
      · exact absurd h (not_lt.mpr (Int.natCast_nonneg _))
      · exact hx h
    have hneg : ¬ ((bs.length : Int) < 0 ∨ False) := by
      rintro (h | h)
      · exact absurd h (not_lt.mpr (Int.natCast_nonneg _))
      · exact h
    simp only [Decoder.fastValue, hu, hs, hnot, if_false, Int.toNat_ofNat, hfast, hx]
    rw [if_neg hneg]
  · by_cases h0 : bs = []
    · subst h0
      have h := hrefl DataList.nil rfl
      simp only [List.length_nil] at h hu hs hsz
      simp only [Decoder.boolArray, hu, hs, hsz, zeroValue, Data.elems, List.length_nil]
      simp [h]
    · have hpos : 0 < bs.length := List.length_pos.mpr h0
      have h := hrefl (DataList.replicate bs.length (Data.bool false))
        (replicate_length _ _)
      have hgt : (0 : Int) < (bs.length : Int) := by omega
      simp only [Decoder.boolArray, hu, hs, hsz, hgt, decide_True, Bool.and_self, if_true,
        Int.toNat_ofNat, Data.elems, h]
  · intro cur h0
    have hpos : 0 < bs.length := List.length_pos.mpr h0
    have h := hrefl (DataList.replicate bs.length (Data.bool false))
      (replicate_length _ _)
    have hgt : (0 : Int) < (bs.length : Int) := by omega
    simp only [Decoder.boolArray, hu, hs, hsz, hgt, decide_True, Bool.and_self, if_true,
      Int.toNat_ofNat, Data.elems, h]

/-! ## Lemmas: a boolean inside and outside a run -/

theorem Encoder_Bool_open (e : Encoder) (b : bool) (h : e.boolBit ≠ 0) :
    Encoder.Bool e b =
      (none, { e with
        buff := if b then
            e.buff.set e.boolPos (e.buff.getD e.boolPos 0 ||| (1 <<< e.boolBit) % 256)
          else e.buff,
        boolBit := (e.boolBit + 1) % 8 }) := by
  unfold Encoder.Bool
  rw [if_neg h]
  cases b <;> simp

theorem Encoder_Bool_fresh (e : Encoder) (b : bool) (h : e.boolBit = 0)
    (hroom : e.pos + 1 ≤ e.buff.length) :
    Encoder.Bool e b =
      (none, { e.splice [if b then 1 else 0] with boolBit := 1, boolPos := e.pos }) := by
  have hstep := Encoder_Bool_step e [] [] e.boolPos b
    ⟨rfl, by intro q r _; simp, by intro q; simp⟩ (by simp) (by simpa using hroom)
  simp only [List.length_nil, Nat.zero_mod] at hstep
  rw [runState_start e h] at hstep
  rw [hstep]
  simp [runState, packStep, coder.splice]

/-! ## Lemmas: the fast path and the generic path of the encoder -/

theorem truncInt_of_range (w : Nat) (hw : 0 < w) (x : Int)
    (hlo : -2 ^ (w - 1) ≤ x) (hhi : x < 2 ^ (w - 1)) : truncInt w x = x :=
  toSigned_toUnsigned w hw x hlo hhi

theorem hasType_int16 (x : Data) (h : x.hasType GoType.int16 = true) :
    truncInt 16 x.toInt = x.toInt := by
  cases x <;>
    simp [Data.hasType, intInRange, uintInRange, bitsInRange, GoType.isPtr] at h
  exact truncInt_of_range 16 (by norm_num) _ (by simpa using h.1) (by simpa using h.2)

theorem hasType_int32 (x : Data) (h : x.hasType GoType.int32 = true) :
    truncInt 32 x.toInt = x.toInt := by
  cases x <;>
    simp [Data.hasType, intInRange, uintInRange, bitsInRange, GoType.isPtr] at h
  exact truncInt_of_range 32 (by norm_num) _ (by simpa using h.1) (by simpa using h.2)

theorem hasType_uint8 (x : Data) (h : x.hasType GoType.uint8 = true) :
    x.toNat % 2 ^ 8 = x.toNat := by
  cases x <;>
    simp [Data.hasType, intInRange, uintInRange, bitsInRange, GoType.isPtr] at h
  exact Nat.mod_eq_of_lt (by simpa [Data.toNat] using h)

theorem hasType_uint16 (x : Data) (h : x.hasType GoType.uint16 = true) :
    x.toNat % 2 ^ 16 = x.toNat := by
  cases x <;>
    simp [Data.hasType, intInRange, uintInRange, bitsInRange, GoType.isPtr] at h
  exact Nat.mod_eq_of_lt (by simpa [Data.toNat] using h)

theorem hasType_uint32 (x : Data) (h : x.hasType GoType.uint32 = true) :
    x.toNat % 2 ^ 32 = x.toNat := by
  cases x <;>
    simp [Data.hasType, intInRange, uintInRange, bitsInRange, GoType.isPtr] at h
  exact Nat.mod_eq_of_lt (by simpa [Data.toNat] using h)

theorem hasType_seq (x : Data) (elemT : GoType) (h : x.hasType (GoType.slice elemT) = true) :
    ∃ xs, x = Data.seq xs ∧ DataList.allHaveType xs elemT = true := by
  cases x <;>
    simp [Data.hasType, intInRange, uintInRange, bitsInRange, GoType.isPtr] at h
  exact ⟨_, rfl, h⟩

theorem value_int_state (e : Encoder) (x : Data) (err : Option Err) (e2 : Encoder)
    (h : Encoder.value e GoType.int x false = Res.ok (err, e2)) :
    e2 = (Encoder.Int e x.toInt).2 := by
  have heq : Encoder.value e GoType.int x false = Res.ok (none, (Encoder.Int e x.toInt).2) := by
    cases x <;> rfl
  rw [heq] at h
  simp only [Res.ok.injEq, Prod.mk.injEq] at h
  exact h.2.symm

theorem value_uint_state (e : Encoder) (x : Data) (err : Option Err) (e2 : Encoder)
    (h : Encoder.value e GoType.uint x false = Res.ok (err, e2)) :
    e2 = (Encoder.Uint e x.toNat).2 := by
  have heq : Encoder.value e GoType.uint x false = Res.ok (none, (Encoder.Uint e x.toNat).2) := by
    cases x <;> rfl
  rw [heq] at h
  simp only [Res.ok.injEq, Prod.mk.injEq] at h
  exact h.2.symm

theorem value_bool_state (e : Encoder) (x : Data) (err : Option Err) (e2 : Encoder)
    (h : Encoder.value e GoType.bool x false = Res.ok (err, e2)) :
    e2 = (Encoder.Bool e x.toBool).2 := by
  have heq : Encoder.value e GoType.bool x false = Res.ok (none, (Encoder.Bool e x.toBool).2) := by
    cases x <;> rfl
  rw [heq] at h
  simp only [Res.ok.injEq, Prod.mk.injEq] at h
  exact h.2.symm

theorem value_int64_state (e : Encoder) (x : Data) (err : Option Err) (e2 : Encoder)
    (h : Encoder.value e GoType.int64 x false = Res.ok (err, e2)) :
    e2 = (Encoder.Int64 e x.toInt false).2 := by
  have heq : Encoder.value e GoType.int64 x false = Res.ok (none, (Encoder.Int64 e x.toInt false).2) := by
    cases x <;> rfl
  rw [heq] at h
  simp only [Res.ok.injEq, Prod.mk.injEq] at h
  exact h.2.symm

theorem value_float32_state (e : Encoder) (x : Data)
    (hq : quiet32 GoType.float32 x = true) (err : Option Err) (e2 : Encoder)
    (h : Encoder.value e GoType.float32 x false = Res.ok (err, e2)) :
    e2 = (Encoder.Float32 e x.bits).2 := by
  have heq : Encoder.value e GoType.float32 x false =
      Res.ok (none, (Encoder.Float32 e (quietNaN32 x.bits)).2) := by
    cases x <;> rfl
  have hb : quietNaN32 x.bits = x.bits := by simpa [quiet32] using hq
  rw [heq, hb] at h
  simp only [Res.ok.injEq, Prod.mk.injEq] at h
  exact h.2.symm

theorem value_float64_state (e : Encoder) (x : Data) (err : Option Err) (e2 : Encoder)
    (h : Encoder.value e GoType.float64 x false = Res.ok (err, e2)) :
    e2 = (Encoder.Float64 e x.bits).2 := by
  have heq : Encoder.value e GoType.float64 x false = Res.ok (none, (Encoder.Float64 e x.bits).2) := by
    cases x <;> rfl
  rw [heq] at h
  simp only [Res.ok.injEq, Prod.mk.injEq] at h
  exact h.2.symm

theorem value_complex64_state (e : Encoder) (x : Data)
    (hq : quiet32 GoType.complex64 x = true) (err : Option Err) (e2 : Encoder)
    (h : Encoder.value e GoType.complex64 x false = Res.ok (err, e2)) :
    e2 = (Encoder.Complex64 e x.re x.im).2 := by
  have heq : Encoder.value e GoType.complex64 x false =
      Res.ok (none, (Encoder.Complex64 e (quietNaN32 x.re) (quietNaN32 x.im)).2) := by
    cases x <;> rfl
  have hb : quietNaN32 x.re = x.re ∧ quietNaN32 x.im = x.im := by simpa [quiet32] using hq
  rw [heq, hb.1, hb.2] at h
  simp only [Res.ok.injEq, Prod.mk.injEq] at h
  exact h.2.symm

theorem value_complex128_state (e : Encoder) (x : Data) (err : Option Err) (e2 : Encoder)
    (h : Encoder.value e GoType.complex128 x false = Res.ok (err, e2)) :
    e2 = (Encoder.Complex128 e x.re x.im).2 := by
  have heq : Encoder.value e GoType.complex128 x false = Res.ok (none, (Encoder.Complex128 e x.re x.im).2) := by
    cases x <;> rfl
  rw [heq] at h
  simp only [Res.ok.injEq, Prod.mk.injEq] at h
  exact h.2.symm

theorem value_string_state (e : Encoder) (x : Data) (err : Option Err) (e2 : Encoder)
    (h : Encoder.value e GoType.string x false = Res.ok (err, e2)) :
    e2 = (Encoder.String e x.bytes).2 := by
  have heq : Encoder.value e GoType.string x false = Res.ok (none, (Encoder.String e x.bytes).2) := by
    cases x <;> rfl
  rw [heq] at h
  simp only [Res.ok.injEq, Prod.mk.injEq] at h
  exact h.2.symm

theorem value_int16_state (e : Encoder) (x : Data) (hx : x.hasType GoType.int16 = true)
    (err : Option Err) (e2 : Encoder)
    (h : Encoder.value e GoType.int16 x false = Res.ok (err, e2)) :
    e2 = (Encoder.Int16 e x.toInt false).2 := by
  have heq : Encoder.value e GoType.int16 x false = Res.ok (none, (Encoder.Int16 e (truncInt 16 x.toInt) false).2) := by
    cases x <;> rfl
  rw [heq, hasType_int16 x hx] at h
  simp only [Res.ok.injEq, Prod.mk.injEq] at h
  exact h.2.symm

theorem value_int32_state (e : Encoder) (x : Data) (hx : x.hasType GoType.int32 = true)
    (err : Option Err) (e2 : Encoder)
    (h : Encoder.value e GoType.int32 x false = Res.ok (err, e2)) :
    e2 = (Encoder.Int32 e x.toInt false).2 := by
  have heq : Encoder.value e GoType.int32 x false = Res.ok (none, (Encoder.Int32 e (truncInt 32 x.toInt) false).2) := by
    cases x <;> rfl
  rw [heq, hasType_int32 x hx] at h
  simp only [Res.ok.injEq, Prod.mk.injEq] at h
  exact h.2.symm

theorem value_uint8_state (e : Encoder) (x : Data) (hx : x.hasType GoType.uint8 = true)
    (err : Option Err) (e2 : Encoder)
    (h : Encoder.value e GoType.uint8 x false = Res.ok (err, e2)) :
    e2 = (Encoder.Uint8 e x.toNat).2 := by
  have heq : Encoder.value e GoType.uint8 x false = Res.ok (none, (Encoder.Uint8 e (x.toNat % 2 ^ 8)).2) := by
    cases x <;> rfl
  rw [heq, hasType_uint8 x hx] at h
  simp only [Res.ok.injEq, Prod.mk.injEq] at h
  exact h.2.symm

theorem value_uint16_state (e : Encoder) (x : Data) (hx : x.hasType GoType.uint16 = true)
    (err : Option Err) (e2 : Encoder)
    (h : Encoder.value e GoType.uint16 x false = Res.ok (err, e2)) :
    e2 = (Encoder.Uint16 e x.toNat false).2 := by
  have heq : Encoder.value e GoType.uint16 x false = Res.ok (none, (Encoder.Uint16 e (x.toNat % 2 ^ 16) false).2) := by
    cases x <;> rfl
  rw [heq, hasType_uint16 x hx] at h
  simp only [Res.ok.injEq, Prod.mk.injEq] at h
  exact h.2.symm

theorem value_int8_state (e : Encoder) (x : Data) (err : Option Err) (e2 : Encoder)
    (h : Encoder.value e GoType.int8 x false = Res.ok (err, e2)) :
    e2 = (Encoder.Int8 e x.toInt).2 := by
  have heq : Encoder.value e GoType.int8 x false =
      (match coder.mustReserve e 1 with
        | Res.panic err => Res.panic err
        | Res.ok (b, e1) =>
          Res.ok (none, { e1 with buff := e1.buff.set b (toUnsigned 8 x.toInt) })) := by
    cases x <;> rfl
  rw [heq] at h
  unfold Encoder.Int8 Encoder.Uint8
  unfold coder.mustReserve at h
  cases hr : coder.reserve e 1 with
  | none => simp [hr] at h
  | some r =>
    obtain ⟨b, e1⟩ := r
    simp only [hr, Res.ok.injEq, Prod.mk.injEq] at h
    rw [← h.2]
    simp [toUnsigned]

theorem value_uint32_state (e : Encoder) (x : Data) (hx : x.hasType GoType.uint32 = true)
    (err : Option Err) (e2 : Encoder)
    (h : Encoder.value e GoType.uint32 x false = Res.ok (err, e2)) :
    e2 = (Encoder.Uint32 e x.toNat false).2 := by
  have heq : Encoder.value e GoType.uint32 x false =
      (match coder.mustReserve e 4 with
        | Res.panic err => Res.panic err
        | Res.ok (b, e1) =>
          Res.ok (none, { e1 with
            buff := e1.endian.PutUint32 e1.buff b (x.toNat % 2 ^ 32) })) := by
    cases x <;> rfl
  rw [heq, hasType_uint32 x hx] at h
  unfold Encoder.Uint32
  unfold coder.mustReserve at h
  cases hr : coder.reserve e 4 with
  | none => simp [hr] at h
  | some r =>
    obtain ⟨b, e1⟩ := r
    simp only [hr, Res.ok.injEq, Prod.mk.injEq] at h
    rw [← h.2]
    simp

theorem value_uint64_state (e : Encoder) (x : Data) (err : Option Err) (e2 : Encoder)
    (h : Encoder.value e GoType.uint64 x false = Res.ok (err, e2)) :
    e2 = (Encoder.Uint64 e x.toNat false).2 := by
  have heq : Encoder.value e GoType.uint64 x false =
      (match coder.mustReserve e 8 with
        | Res.panic err => Res.panic err
        | Res.ok (b, e1) =>
          Res.ok (none, { e1 with buff := e1.endian.PutUint64 e1.buff b x.toNat })) := by
    cases x <;> rfl
  rw [heq] at h
  unfold Encoder.Uint64
  unfold coder.mustReserve at h
  cases hr : coder.reserve e 8 with
  | none => simp [hr] at h
  | some r =>
    obtain ⟨b, e1⟩ := r
    simp only [hr, Res.ok.injEq, Prod.mk.injEq] at h
    rw [← h.2]
    simp
theorem elems_fastLoop (elemT : GoType) (w : Encoder → Data → Encoder)
    (hw : ∀ (e : Encoder) (x : Data), x.hasType elemT = true → quiet32 elemT x = true →
      ∀ (err : Option Err) (e2 : Encoder),
        Encoder.value e elemT x false = Res.ok (err, e2) → e2 = w e x) :
    ∀ (xs : DataList) (e : Encoder), DataList.allHaveType xs elemT = true →
      DataList.all (quiet32 elemT) xs = true →
      ∀ (err : Option Err) (e2 : Encoder),
        Encoder.elems e elemT xs false = Res.ok (err, e2) → e2 = Encoder.fastLoop w xs e
  | DataList.nil, e, _, _, err, e2, h => by
    have heq : Encoder.elems e elemT DataList.nil false = Res.ok (none, e) := rfl
    rw [heq] at h
    simp only [Res.ok.injEq, Prod.mk.injEq] at h
    rw [← h.2]
    rfl
  | DataList.cons x rest, e, hx, hq, err, e2, h => by
    have heq : Encoder.elems e elemT (DataList.cons x rest) false =
        (match Encoder.value e elemT x false with
          | Res.panic err => Res.panic err
          | Res.ok (_, e1) => Encoder.elems e1 elemT rest false) := rfl
    rw [heq] at h
    simp only [DataList.allHaveType, Bool.and_eq_true] at hx
    simp only [DataList.all, Bool.and_eq_true] at hq
    cases hv : Encoder.value e elemT x false with
    | panic perr => simp [hv] at h
    | ok r =>
      obtain ⟨err1, e1⟩ := r
      simp only [hv] at h
      have h1 := hw e x hx.1 hq.1 err1 e1 hv
      have h2 := elems_fastLoop elemT w hw rest e1 hx.2 hq.2 err e2 h
      rw [h2, h1]
      rfl

theorem boolArrayLoop_fastBoolLoop :
    ∀ (xs : DataList) (i b : Nat) (err : Option Err) (e e2 : Encoder),
      Encoder.boolArrayLoop xs i b e = Res.ok e2 →
      (Encoder.fastBoolLoop xs i b err e).2 = e2
  | DataList.nil, i, b, err, e, e2, h => by
    simp only [Encoder.boolArrayLoop, Res.ok.injEq] at h
    simp [Encoder.fastBoolLoop, h]
  | DataList.cons x rest, i, b, err, e, e2, h => by
    simp only [Encoder.boolArrayLoop, coder.mustReserve] at h
    simp only [Encoder.fastBoolLoop]
    by_cases hb : i % 8 = 0
    · simp only [hb, if_true] at h ⊢
      cases hr : coder.reserve e 1 with
      | none => simp [hr] at h
      | some r =>
        obtain ⟨b1, e1⟩ := r
        simp only [hr] at h ⊢
        exact boolArrayLoop_fastBoolLoop rest (i + 1) b1 none _ e2 h
    · simp only [hb, if_false] at h ⊢
      exact boolArrayLoop_fastBoolLoop rest (i + 1) b err _ e2 h
theorem sizeofBoolArray_nonneg (l : Nat) : ¬ sizeofBoolArray (l : Nat) < 0 := by
  unfold sizeofBoolArray
  have h1 : (0 : Int) ≤ ((SizeofUvarint (toUnsigned 64 (l : Nat)) : Nat) : Int) :=
    Int.natCast_nonneg _
  have h2 : (0 : Int) ≤ Int.tdiv ((l : Int) + 7) 8 :=
    Int.tdiv_nonneg (by have := Int.natCast_nonneg l; omega) (by norm_num)
  omega

theorem value_boolSlice_state (e : Encoder) (xs : DataList) (err : Option Err) (e2 : Encoder)
    (h : Encoder.value e (GoType.slice GoType.bool) (Data.seq xs) false = Res.ok (err, e2)) :
    e2 = (Encoder.fastValue e (GoType.slice GoType.bool) (Data.seq xs)).2.2 := by
  have heq : Encoder.value e (GoType.slice GoType.bool) (Data.seq xs) false =
      (match Encoder.boolArrayLoop xs 0 0 (Encoder.Uvarint e xs.length).2 with
        | Res.panic err => Res.panic err
        | Res.ok e1 =>
          if sizeofBoolArray (xs.length : Nat) < 0 then
            Encoder.elems (Encoder.Uvarint e1 xs.length).2 GoType.bool xs false
          else Res.ok (none, e1)) := by
    have h0 : Encoder.value e (GoType.slice GoType.bool) (Data.seq xs) false =
        (match Encoder.boolArray e (GoType.slice GoType.bool) (Data.seq xs) with
          | Res.panic err => Res.panic err
          | Res.ok (n, e1) =>
            if n < 0 then
              Encoder.elems (Encoder.Uvarint e1 xs.length).2 GoType.bool xs false
            else Res.ok (none, e1)) := rfl
    rw [h0]
    simp only [Encoder.boolArray, Data.elems]
    cases Encoder.boolArrayLoop xs 0 0 (Encoder.Uvarint e xs.length).2 <;> rfl
  rw [heq] at h
  have hf : (Encoder.fastValue e (GoType.slice GoType.bool) (Data.seq xs)).2.2 =
      (Encoder.fastBoolLoop xs 0 0 (Encoder.Uvarint e xs.length).1.2
        (Encoder.Uvarint e xs.length).2).2 := rfl
  rw [hf]
  cases hl : Encoder.boolArrayLoop xs 0 0 (Encoder.Uvarint e xs.length).2 with
  | panic perr => simp [hl] at h
  | ok e1 =>
    simp only [hl, if_neg (sizeofBoolArray_nonneg xs.length), Res.ok.injEq,
      Prod.mk.injEq] at h
    rw [boolArrayLoop_fastBoolLoop xs 0 0 _ _ e1 hl]
    exact h.2.symm

theorem value_slice_state (elemT : GoType) (w : Encoder → Data → Encoder)
    (hw : ∀ (e : Encoder) (x : Data), x.hasType elemT = true → quiet32 elemT x = true →
      ∀ (err : Option Err) (e2 : Encoder),
        Encoder.value e elemT x false = Res.ok (err, e2) → e2 = w e x)
    (e : Encoder) (xs : DataList) (hx : DataList.allHaveType xs elemT = true)
    (hq : DataList.all (quiet32 elemT) xs = true)
    (heq : Encoder.value e (GoType.slice elemT) (Data.seq xs) false =
      Encoder.elems (Encoder.Uvarint e xs.length).2 elemT xs false)
    (err : Option Err) (e2 : Encoder)
    (h : Encoder.value e (GoType.slice elemT) (Data.seq xs) false = Res.ok (err, e2)) :
    e2 = Encoder.fastLoop w xs (Encoder.Uvarint e xs.length).2 := by
  rw [heq] at h
  exact elems_fastLoop elemT w hw xs _ hx hq err e2 h

theorem fastValue_value_state (e : Encoder) (T : GoType) (x : Data)
    (hx : x.hasType T = true) (hq : noSignallingNaN T x = true) (hf : isFastType T = true)
    (err : Option Err) (e2 : Encoder)
    (h : Encoder.value e T x false = Res.ok (err, e2)) :
    e2 = (Encoder.fastValue e T x).2.2 := by
  cases T with
  | bool => exact value_bool_state e x err e2 h
  | int => exact value_int_state e x err e2 h
  | uint => exact value_uint_state e x err e2 h
  | int8 => exact value_int8_state e x err e2 h
  | int16 => exact value_int16_state e x hx err e2 h
  | int32 => exact value_int32_state e x hx err e2 h
  | int64 => exact value_int64_state e x err e2 h
  | uint8 => exact value_uint8_state e x hx err e2 h
  | uint16 => exact value_uint16_state e x hx err e2 h
  | uint32 => exact value_uint32_state e x hx err e2 h
  | uint64 => exact value_uint64_state e x err e2 h
  | float32 => exact value_float32_state e x hq err e2 h
  | float64 => exact value_float64_state e x err e2 h
  | complex64 => exact value_complex64_state e x hq err e2 h
  | complex128 => exact value_complex128_state e x err e2 h
  | string => exact value_string_state e x err e2 h
  | slice elemT =>
    obtain ⟨xs, rfl, hxs⟩ := hasType_seq x elemT hx
    cases elemT with
    | bool => exact value_boolSlice_state e xs err e2 h
    | int =>
      exact value_slice_state GoType.int _ (fun e x _ _ => value_int_state e x) e xs hxs hq rfl
        err e2 h
    | uint =>
      exact value_slice_state GoType.uint _ (fun e x _ _ => value_uint_state e x) e xs hxs hq rfl
        err e2 h
    | int8 =>
      exact value_slice_state GoType.int8 _ (fun e x _ _ => value_int8_state e x) e xs hxs hq rfl
        err e2 h
    | int16 =>
      exact value_slice_state GoType.int16 _ (fun e x hx _ => value_int16_state e x hx) e xs
        hxs hq rfl err e2 h
    | int32 =>
      exact value_slice_state GoType.int32 _ (fun e x hx _ => value_int32_state e x hx) e xs
        hxs hq rfl err e2 h
    | int64 =>
      exact value_slice_state GoType.int64 _ (fun e x _ _ => value_int64_state e x) e xs hxs hq
        rfl err e2 h
    | uint8 =>
      exact value_slice_state GoType.uint8 _ (fun e x hx _ => value_uint8_state e x hx) e xs
        hxs hq rfl err e2 h
    | uint16 =>
      exact value_slice_state GoType.uint16 _ (fun e x hx _ => value_uint16_state e x hx) e xs
        hxs hq rfl err e2 h
    | uint32 =>
      exact value_slice_state GoType.uint32 _ (fun e x hx _ => value_uint32_state e x hx) e xs
        hxs hq rfl err e2 h
    | uint64 =>
      exact value_slice_state GoType.uint64 _ (fun e x _ _ => value_uint64_state e x) e xs hxs hq
        rfl err e2 h
    | float32 =>
      exact value_slice_state GoType.float32 _ (fun e x _ hq => value_float32_state e x hq) e xs
        hxs hq rfl err e2 h
    | float64 =>
      exact value_slice_state GoType.float64 _ (fun e x _ _ => value_float64_state e x) e xs
        hxs hq rfl err e2 h
    | complex64 =>
      exact value_slice_state GoType.complex64 _ (fun e x _ hq => value_complex64_state e x hq) e
        xs hxs hq rfl err e2 h
    | complex128 =>
      exact value_slice_state GoType.complex128 _ (fun e x _ _ => value_complex128_state e x)
        e xs hxs hq rfl err e2 h
    | string =>
      exact value_slice_state GoType.string _ (fun e x _ _ => value_string_state e x) e xs hxs hq
        rfl err e2 h
    | _ => exact Bool.noConfusion hf
  | _ => exact Bool.noConfusion hf

/-! ## Lemmas: unsupported types -/

theorem fastValue_invalid_elem (e : Encoder) (el : GoType) (x : Data)
    (h : validUserType el = false) :
    Encoder.fastValue e (GoType.slice el) x = (false, none, e) := by
  cases el <;> first | rfl | exact absurd h (by decide)

theorem value_slice_invalid (e : Encoder) (el : GoType) (x : Data) (packed : bool)
    (h : validUserType el = false) :
    Encoder.value e (GoType.slice el) x packed = Res.ok (some Err.unsupportedType, e) := by
  have heq : Encoder.value e (GoType.slice el) x packed =
      if !validUserType el then Res.ok (some Err.unsupportedType, e)
      else
        match Encoder.boolArray e (GoType.slice el) x with
        | Res.panic err => Res.panic err
        | Res.ok (n, e1) =>
          if n < 0 then
            match x with
            | Data.seq xs => Encoder.elems (Encoder.Uvarint e1 xs.length).2 el xs packed
            | _ => Res.panic Err.badValue
          else Res.ok (none, e1) := by
    cases x <;> rfl
  rw [heq, h]
  rfl

theorem value_array_invalid (e : Encoder) (n : Nat) (el : GoType) (x : Data) (packed : bool)
    (h : validUserType el = false) :
    Encoder.value e (GoType.array n el) x packed = Res.ok (some Err.unsupportedType, e) := by
  have heq : Encoder.value e (GoType.array n el) x packed =
      if !validUserType el then Res.ok (some Err.unsupportedType, e)
      else
        match Encoder.boolArray e (GoType.array n el) x with
        | Res.panic err => Res.panic err
        | Res.ok (n, e1) =>
          if n < 0 then
            match x with
            | Data.seq xs => Encoder.elems (Encoder.Uvarint e1 xs.length).2 el xs packed
            | _ => Res.panic Err.badValue
          else Res.ok (none, e1) := by
    cases x <;> rfl
  rw [heq, h]
  rfl

theorem value_map_invalid (e : Encoder) (kt vt : GoType) (x : Data) (packed : bool)
    (h : validUserType kt = false ∨ validUserType vt = false) :
    Encoder.value e (GoType.map kt vt) x packed = Res.ok (some Err.unsupportedType, e) := by
  have heq : Encoder.value e (GoType.map kt vt) x packed =
      if !validUserType kt || !validUserType vt then Res.ok (some Err.unsupportedType, e)
      else
        match x with
        | Data.map kvs => Encoder.entries (Encoder.Uvarint e kvs.length).2 kt vt kvs packed
        | _ => Res.panic Err.badValue := by
    cases x <;> rfl
  rw [heq]
  rcases h with h | h <;> simp [h]

/-! ## Lemmas: the serializer contract -/

theorem writeAt_length (xs : List Nat) :
    ∀ (buff : List Nat) (b : Nat), (writeAt buff b xs).length = buff.length := by
  induction xs with
  | nil => intro buff b; rfl
  | cons y ys ih => intro buff b; simp [writeAt, ih]

theorem Serializer_ok_none (e e1 : Encoder) (encode : EncodeMethod)
    (h : Encoder.Serializer e (some encode) = Res.ok (none, e1)) :
    e1.pos = e.pos + (encode (e.buff.drop e.pos)).2.1.length ∧ e1.pos ≤ e1.buff.length ∧
    e1.endian = e.endian := by
  simp only [Encoder.Serializer, coder.mustReserve, coder.reserve, writeAt_length] at h
  cases herr : (encode (e.buff.drop e.pos)).2.2 with
  | some err => simp [herr] at h
  | none =>
    simp only [herr] at h
    by_cases hfit : e.pos + (encode (e.buff.drop e.pos)).2.1.length ≤ e.buff.length
    · simp only [hfit, if_true, Res.ok.injEq, Prod.mk.injEq, true_and] at h
      subst h
      simp [writeAt_length, hfit]
    · simp [hfit] at h

theorem Value_full_contract (d : Decoder) (u : List Nat → Data × Option Err) (s : Int)
    (t : GoType) (x : Data) :
    Decoder.Value d { unpack := some u, size := some s, packer := true } t x =
      match u (d.buff.drop d.pos) with
      | (x1, some err) => Res.ok (some err, some (x1, d))
      | (x1, none) =>
        match Decoder.reserve d s with
        | Res.panic err => Res.ok (some err, some (x1, d))
        | Res.ok (_, d1) => Res.ok (none, some (x1, d1)) := by
  unfold Decoder.Value
  simp only [Option.isSome_some, Bool.true_or, if_true, Bool.not_true, Bool.false_eq_true,
    if_false]
  rcases hu : u (d.buff.drop d.pos) with ⟨x1, err⟩
  cases err with
  | some err => rfl
  | none =>
    simp only
    unfold Decoder.reserve
    split_ifs <;> simp [Err.isError]

/-! ## Lemmas: writes with room -/

theorem Uvarint_advances (e : Encoder) (x : Nat)
    (h : e.pos + SizeofUvarint x ≤ e.buff.length) :
    Advances ((Encoder.Uvarint e x).1.2, (Encoder.Uvarint e x).2) e (SizeofUvarint x) := by
  have hpos := SizeofUvarint_pos x
  have hlen : (uvarintBytes (SizeofUvarint x - 1) x).length = SizeofUvarint x := by
    rw [uvarintBytes_length]; omega
  have hs := splice_length e (uvarintBytes (SizeofUvarint x - 1) x) (by rw [hlen]; exact h)
  rw [Encoder_Uvarint_splice e x h]
  refine ⟨rfl, ?_, hs⟩
  simp [coder.splice, hlen]

theorem Uint8_advances (e : Encoder) (x : Nat) (h : e.pos + 1 ≤ e.buff.length) :
    Advances (Encoder.Uint8 e x) e 1 := by
  simp [Advances, Encoder.Uint8, reserve_ok e 1 h]

theorem Uint16_advances (e : Encoder) (x : Nat) (h : e.pos + 2 ≤ e.buff.length) :
    Advances (Encoder.Uint16 e x false) e 2 := by
  simp [Advances, Encoder.Uint16, reserve_ok e 2 h, Endian.PutUint16, writeAt_length]

theorem Uint32_advances (e : Encoder) (x : Nat) (h : e.pos + 4 ≤ e.buff.length) :
    Advances (Encoder.Uint32 e x false) e 4 := by
  simp [Advances, Encoder.Uint32, reserve_ok e 4 h, Endian.PutUint32, writeAt_length]

theorem Uint64_advances (e : Encoder) (x : Nat) (h : e.pos + 8 ≤ e.buff.length) :
    Advances (Encoder.Uint64 e x false) e 8 := by
  simp [Advances, Encoder.Uint64, reserve_ok e 8 h, Endian.PutUint64, writeAt_length]

theorem Complex64_advances (e : Encoder) (re im : Nat) (h : e.pos + 8 ≤ e.buff.length) :
    Advances (Encoder.Complex64 e re im) e 8 := by
  obtain ⟨h1, h2, h3⟩ := Uint32_advances e re (by omega)
  rcases hr : Encoder.Uint32 e re false with ⟨err, e1⟩
  rw [hr] at h1 h2 h3
  simp only at h1 h2 h3
  subst h1
  obtain ⟨k1, k2, k3⟩ := Uint32_advances e1 im (by omega)
  simp only [Encoder.Complex64, hr]
  exact ⟨k1, by omega, by omega⟩

theorem Complex128_advances (e : Encoder) (re im : Nat) (h : e.pos + 16 ≤ e.buff.length) :
    Advances (Encoder.Complex128 e re im) e 16 := by
  obtain ⟨h1, h2, h3⟩ := Uint64_advances e re (by omega)
  rcases hr : Encoder.Uint64 e re false with ⟨err, e1⟩
  rw [hr] at h1 h2 h3
  simp only at h1 h2 h3
  subst h1
  obtain ⟨k1, k2, k3⟩ := Uint64_advances e1 im (by omega)
  simp only [Encoder.Complex128, hr]
  exact ⟨k1, by omega, by omega⟩

theorem String_advances (e : Encoder) (s : List Nat)
    (h : e.pos + (SizeofUvarint s.length + s.length) ≤ e.buff.length) :
    Advances (Encoder.String e s) e (SizeofUvarint s.length + s.length) := by
  obtain ⟨h1, h2, h3⟩ := Uvarint_advances e s.length (by omega)
  rcases hr : Encoder.Uvarint e s.length with ⟨⟨n, err⟩, e1⟩
  rw [hr] at h1 h2 h3
  simp only at h1 h2 h3
  subst h1
  have hres := reserve_ok e1 s.length (by omega)
  simp only [Encoder.String, hr, hres]
  refine ⟨rfl, ?_, ?_⟩
  · simp only; omega
  · simp only [writeAt_length]; omega
theorem value_int_room (e : Encoder) (x : Data) (hx : x.hasType GoType.int = true)
    (h : e.pos + scalarSize GoType.int x ≤ e.buff.length) :
    Encoder.value e GoType.int x false = Res.ok (none, (Encoder.Int e x.toInt).2) ∧
    Advances (Encoder.Int e x.toInt) e (scalarSize GoType.int x) := by
  have heq : Encoder.value e GoType.int x false =
      Res.ok (none, (Encoder.Int e x.toInt).2) := by
    cases x <;> rfl
  have hadv := Uvarint_advances e (ToUvarint x.toInt) h
  refine ⟨?_, hadv⟩
  rw [heq]

theorem value_uint_room (e : Encoder) (x : Data) (hx : x.hasType GoType.uint = true)
    (h : e.pos + scalarSize GoType.uint x ≤ e.buff.length) :
    Encoder.value e GoType.uint x false = Res.ok (none, (Encoder.Uint e x.toNat).2) ∧
    Advances (Encoder.Uint e x.toNat) e (scalarSize GoType.uint x) := by
  have heq : Encoder.value e GoType.uint x false =
      Res.ok (none, (Encoder.Uint e x.toNat).2) := by
    cases x <;> rfl
  have hadv := Uvarint_advances e x.toNat h
  refine ⟨?_, hadv⟩
  rw [heq]

theorem value_int64_room (e : Encoder) (x : Data) (hx : x.hasType GoType.int64 = true)
    (h : e.pos + scalarSize GoType.int64 x ≤ e.buff.length) :
    Encoder.value e GoType.int64 x false = Res.ok (none, (Encoder.Int64 e x.toInt false).2) ∧
    Advances (Encoder.Int64 e x.toInt false) e (scalarSize GoType.int64 x) := by
  have heq : Encoder.value e GoType.int64 x false =
      Res.ok (none, (Encoder.Int64 e x.toInt false).2) := by
    cases x <;> rfl
  have hadv := Uint64_advances e (toUnsigned 64 x.toInt) h
  refine ⟨?_, hadv⟩
  rw [heq]

theorem value_float32_room (e : Encoder) (x : Data) (hx : x.hasType GoType.float32 = true)
    (hq : quiet32 GoType.float32 x = true)
    (h : e.pos + scalarSize GoType.float32 x ≤ e.buff.length) :
    Encoder.value e GoType.float32 x false = Res.ok (none, (Encoder.Float32 e x.bits).2) ∧
    Advances (Encoder.Float32 e x.bits) e (scalarSize GoType.float32 x) := by
  have heq : Encoder.value e GoType.float32 x false =
      Res.ok (none, (Encoder.Float32 e (quietNaN32 x.bits)).2) := by
    cases x <;> rfl
  have hb : quietNaN32 x.bits = x.bits := by simpa [quiet32] using hq
  have hadv := Uint32_advances e x.bits h
  refine ⟨?_, hadv⟩
  rw [heq, hb]

theorem value_float64_room (e : Encoder) (x : Data) (hx : x.hasType GoType.float64 = true)
    (h : e.pos + scalarSize GoType.float64 x ≤ e.buff.length) :
    Encoder.value e GoType.float64 x false = Res.ok (none, (Encoder.Float64 e x.bits).2) ∧
    Advances (Encoder.Float64 e x.bits) e (scalarSize GoType.float64 x) := by
  have heq : Encoder.value e GoType.float64 x false =
      Res.ok (none, (Encoder.Float64 e x.bits).2) := by
    cases x <;> rfl
  have hadv := Uint64_advances e x.bits h
  refine ⟨?_, hadv⟩
  rw [heq]

theorem value_complex64_room (e : Encoder) (x : Data) (hx : x.hasType GoType.complex64 = true)
    (hq : quiet32 GoType.complex64 x = true)
    (h : e.pos + scalarSize GoType.complex64 x ≤ e.buff.length) :
    Encoder.value e GoType.complex64 x false = Res.ok (none, (Encoder.Complex64 e x.re x.im).2) ∧
    Advances (Encoder.Complex64 e x.re x.im) e (scalarSize GoType.complex64 x) := by
  have heq : Encoder.value e GoType.complex64 x false =
      Res.ok (none, (Encoder.Complex64 e (quietNaN32 x.re) (quietNaN32 x.im)).2) := by
    cases x <;> rfl
  have hb : quietNaN32 x.re = x.re ∧ quietNaN32 x.im = x.im := by simpa [quiet32] using hq
  have hadv := Complex64_advances e x.re x.im h
  refine ⟨?_, hadv⟩
  rw [heq, hb.1, hb.2]

theorem value_complex128_room (e : Encoder) (x : Data) (hx : x.hasType GoType.complex128 = true)
    (h : e.pos + scalarSize GoType.complex128 x ≤ e.buff.length) :
    Encoder.value e GoType.complex128 x false = Res.ok (none, (Encoder.Complex128 e x.re x.im).2) ∧
    Advances (Encoder.Complex128 e x.re x.im) e (scalarSize GoType.complex128 x) := by
  have heq : Encoder.value e GoType.complex128 x false =
      Res.ok (none, (Encoder.Complex128 e x.re x.im).2) := by
    cases x <;> rfl
  have hadv := Complex128_advances e x.re x.im h
  refine ⟨?_, hadv⟩
  rw [heq]

theorem value_string_room (e : Encoder) (x : Data) (hx : x.hasType GoType.string = true)
    (h : e.pos + scalarSize GoType.string x ≤ e.buff.length) :
    Encoder.value e GoType.string x false = Res.ok (none, (Encoder.String e x.bytes).2) ∧
    Advances (Encoder.String e x.bytes) e (scalarSize GoType.string x) := by
  have heq : Encoder.value e GoType.string x false =
      Res.ok (none, (Encoder.String e x.bytes).2) := by
    cases x <;> rfl
  have hadv := String_advances e x.bytes h
  refine ⟨?_, hadv⟩
  rw [heq]

theorem value_int16_room (e : Encoder) (x : Data) (hx : x.hasType GoType.int16 = true)
    (h : e.pos + scalarSize GoType.int16 x ≤ e.buff.length) :
    Encoder.value e GoType.int16 x false = Res.ok (none, (Encoder.Int16 e x.toInt false).2) ∧
    Advances (Encoder.Int16 e x.toInt false) e (scalarSize GoType.int16 x) := by
  have heq : Encoder.value e GoType.int16 x false =
      Res.ok (none, (Encoder.Int16 e (truncInt 16 x.toInt) false).2) := by
    cases x <;> rfl
  have hadv := Uint16_advances e (toUnsigned 16 x.toInt) h
  refine ⟨?_, hadv⟩
  rw [heq, hasType_int16 x hx]

theorem value_int32_room (e : Encoder) (x : Data) (hx : x.hasType GoType.int32 = true)
    (h : e.pos + scalarSize GoType.int32 x ≤ e.buff.length) :
    Encoder.value e GoType.int32 x false = Res.ok (none, (Encoder.Int32 e x.toInt false).2) ∧
    Advances (Encoder.Int32 e x.toInt false) e (scalarSize GoType.int32 x) := by
  have heq : Encoder.value e GoType.int32 x false =
      Res.ok (none, (Encoder.Int32 e (truncInt 32 x.toInt) false).2) := by
    cases x <;> rfl
  have hadv := Uint32_advances e (toUnsigned 32 x.toInt) h
  refine ⟨?_, hadv⟩
  rw [heq, hasType_int32 x hx]

theorem value_uint8_room (e : Encoder) (x : Data) (hx : x.hasType GoType.uint8 = true)
    (h : e.pos + scalarSize GoType.uint8 x ≤ e.buff.length) :
    Encoder.value e GoType.uint8 x false = Res.ok (none, (Encoder.Uint8 e x.toNat).2) ∧
    Advances (Encoder.Uint8 e x.toNat) e (scalarSize GoType.uint8 x) := by
  have heq : Encoder.value e GoType.uint8 x false =
      Res.ok (none, (Encoder.Uint8 e (x.toNat % 2 ^ 8)).2) := by
    cases x <;> rfl
  have hadv := Uint8_advances e x.toNat h
  refine ⟨?_, hadv⟩
  rw [heq, hasType_uint8 x hx]

theorem value_uint16_room (e : Encoder) (x : Data) (hx : x.hasType GoType.uint16 = true)
    (h : e.pos + scalarSize GoType.uint16 x ≤ e.buff.length) :
    Encoder.value e GoType.uint16 x false = Res.ok (none, (Encoder.Uint16 e x.toNat false).2) ∧
    Advances (Encoder.Uint16 e x.toNat false) e (scalarSize GoType.uint16 x) := by
  have heq : Encoder.value e GoType.uint16 x false =
      Res.ok (none, (Encoder.Uint16 e (x.toNat % 2 ^ 16) false).2) := by
    cases x <;> rfl
  have hadv := Uint16_advances e x.toNat h
  refine ⟨?_, hadv⟩
  rw [heq, hasType_uint16 x hx]

theorem value_int8_room (e : Encoder) (x : Data) (hx : x.hasType GoType.int8 = true)
    (h : e.pos + scalarSize GoType.int8 x ≤ e.buff.length) :
    Encoder.value e GoType.int8 x false = Res.ok (none, (Encoder.Int8 e x.toInt).2) ∧
    Advances (Encoder.Int8 e x.toInt) e (scalarSize GoType.int8 x) := by
  have heq : Encoder.value e GoType.int8 x false =
      (match coder.mustReserve e 1 with
        | Res.panic err => Res.panic err
        | Res.ok (b, e1) =>
          Res.ok (none, { e1 with buff := e1.buff.set b (toUnsigned 8 x.toInt) })) := by
    cases x <;> rfl
  have hadv := Uint8_advances e (x.toInt % 256).toNat h
  refine ⟨?_, hadv⟩
  rw [heq]
  simp [coder.mustReserve, reserve_ok e 1 h, Encoder.Int8, Encoder.Uint8, toUnsigned]

theorem value_uint32_room (e : Encoder) (x : Data) (hx : x.hasType GoType.uint32 = true)
    (h : e.pos + scalarSize GoType.uint32 x ≤ e.buff.length) :
    Encoder.value e GoType.uint32 x false = Res.ok (none, (Encoder.Uint32 e x.toNat false).2) ∧
    Advances (Encoder.Uint32 e x.toNat false) e (scalarSize GoType.uint32 x) := by
  have heq : Encoder.value e GoType.uint32 x false =
      (match coder.mustReserve e 4 with
        | Res.panic err => Res.panic err
        | Res.ok (b, e1) =>
          Res.ok (none, { e1 with
            buff := e1.endian.PutUint32 e1.buff b (x.toNat % 2 ^ 32) })) := by
    cases x <;> rfl
  have hadv := Uint32_advances e x.toNat h
  refine ⟨?_, hadv⟩
  rw [heq, hasType_uint32 x hx]
  simp [coder.mustReserve, reserve_ok e 4 h, Encoder.Uint32]

theorem value_uint64_room (e : Encoder) (x : Data) (hx : x.hasType GoType.uint64 = true)
    (h : e.pos + scalarSize GoType.uint64 x ≤ e.buff.length) :
    Encoder.value e GoType.uint64 x false = Res.ok (none, (Encoder.Uint64 e x.toNat false).2) ∧
    Advances (Encoder.Uint64 e x.toNat false) e (scalarSize GoType.uint64 x) := by
  have heq : Encoder.value e GoType.uint64 x false =
      (match coder.mustReserve e 8 with
        | Res.panic err => Res.panic err
        | Res.ok (b, e1) =>
          Res.ok (none, { e1 with buff := e1.endian.PutUint64 e1.buff b x.toNat })) := by
    cases x <;> rfl
  have hadv := Uint64_advances e x.toNat h
  refine ⟨?_, hadv⟩
  rw [heq]
  simp [coder.mustReserve, reserve_ok e 8 h, Encoder.Uint64]

theorem elems_room (elemT : GoType) (w : Encoder → Data → Encoder)
    (hw : ∀ (e : Encoder) (x : Data), x.hasType elemT = true → quiet32 elemT x = true →
      e.pos + scalarSize elemT x ≤ e.buff.length →
      Encoder.value e elemT x false = Res.ok (none, w e x) ∧
      (w e x).pos = e.pos + scalarSize elemT x ∧ (w e x).buff.length = e.buff.length) :
    ∀ (xs : DataList) (e : Encoder), DataList.allHaveType xs elemT = true →
      DataList.all (quiet32 elemT) xs = true →
      e.pos + elemsSize elemT xs ≤ e.buff.length →
      Encoder.elems e elemT xs false = Res.ok (none, Encoder.fastLoop w xs e)
  | DataList.nil, e, _, _, _ => rfl
  | DataList.cons x rest, e, hx, hq, hroom => by
    have heq : Encoder.elems e elemT (DataList.cons x rest) false =
        (match Encoder.value e elemT x false with
          | Res.panic err => Res.panic err
          | Res.ok (_, e1) => Encoder.elems e1 elemT rest false) := rfl
    simp only [DataList.allHaveType, Bool.and_eq_true] at hx
    simp only [elemsSize] at hroom
    simp only [DataList.all, Bool.and_eq_true] at hq
    obtain ⟨hv, hp, hl⟩ := hw e x hx.1 hq.1 (by omega)
    have ih := elems_room elemT w hw rest (w e x) hx.2 hq.2 (by omega)
    rw [heq, hv]
    simp only
    rw [ih]
    rfl

theorem allHaveType_bool : ∀ (xs : DataList), DataList.allHaveType xs GoType.bool = true →
    ∃ bs : List bool, xs = boolData bs
  | DataList.nil, _ => ⟨[], rfl⟩
  | DataList.cons x rest, h => by
    simp only [DataList.allHaveType, Bool.and_eq_true] at h
    obtain ⟨bs, hbs⟩ := allHaveType_bool rest h.2
    cases x <;>
      simp [Data.hasType, intInRange, uintInRange, bitsInRange, GoType.isPtr] at h
    rename_i b
    exact ⟨b :: bs, by rw [hbs]; rfl⟩

theorem value_boolSlice_room (e : Encoder) (xs : DataList)
    (hx : DataList.allHaveType xs GoType.bool = true)
    (hroom : e.pos + (SizeofUvarint xs.length + (xs.length + 7) / 8) ≤ e.buff.length) :
    Encoder.value e (GoType.slice GoType.bool) (Data.seq xs) false =
      Res.ok (none, (Encoder.fastValue e (GoType.slice GoType.bool) (Data.seq xs)).2.2) ∧
    (Encoder.fastValue e (GoType.slice GoType.bool) (Data.seq xs)).2.1 = none := by
  obtain ⟨bs, rfl⟩ := allHaveType_bool xs hx
  rw [boolData_length] at hroom
  obtain ⟨hfastl, hgen⟩ := boolLoops_run e bs hroom
  have hu := (Uvarint_advances e bs.length (by omega)).1
  simp only at hu
  have heq : Encoder.value e (GoType.slice GoType.bool) (Data.seq (boolData bs)) false =
      (match Encoder.boolArrayLoop (boolData bs) 0 0
          (Encoder.Uvarint e (boolData bs).length).2 with
        | Res.panic err => Res.panic err
        | Res.ok e1 =>
          if sizeofBoolArray ((boolData bs).length : Nat) < 0 then
            Encoder.elems (Encoder.Uvarint e1 (boolData bs).length).2 GoType.bool (boolData bs)
              false
          else Res.ok (none, e1)) := by
    have h0 : Encoder.value e (GoType.slice GoType.bool) (Data.seq (boolData bs)) false =
        (match Encoder.boolArray e (GoType.slice GoType.bool) (Data.seq (boolData bs)) with
          | Res.panic err => Res.panic err
          | Res.ok (n, e1) =>
            if n < 0 then
              Encoder.elems (Encoder.Uvarint e1 (boolData bs).length).2 GoType.bool
                (boolData bs) false
            else Res.ok (none, e1)) := rfl
    rw [h0]
    simp only [Encoder.boolArray, Data.elems]
    cases Encoder.boolArrayLoop (boolData bs) 0 0 (Encoder.Uvarint e (boolData bs).length).2 <;>
      rfl
  have hf : Encoder.fastValue e (GoType.slice GoType.bool) (Data.seq (boolData bs)) =
      (true, Encoder.fastBoolLoop (boolData bs) 0 0 (Encoder.Uvarint e (boolData bs).length).1.2
        (Encoder.Uvarint e (boolData bs).length).2) := rfl
  rw [heq, hf, boolData_length, hgen, hu, hfastl]
  simp [if_neg (sizeofBoolArray_nonneg bs.length)]
theorem value_slice_room (elemT : GoType) (w : Encoder → Data → Encoder)
    (hw : ∀ (e : Encoder) (x : Data), x.hasType elemT = true → quiet32 elemT x = true →
      e.pos + scalarSize elemT x ≤ e.buff.length →
      Encoder.value e elemT x false = Res.ok (none, w e x) ∧
      (w e x).pos = e.pos + scalarSize elemT x ∧ (w e x).buff.length = e.buff.length)
    (e : Encoder) (xs : DataList) (hx : DataList.allHaveType xs elemT = true)
    (hq : DataList.all (quiet32 elemT) xs = true)
    (hroom : e.pos + (SizeofUvarint xs.length + elemsSize elemT xs) ≤ e.buff.length)
    (heq : Encoder.value e (GoType.slice elemT) (Data.seq xs) false =
      Encoder.elems (Encoder.Uvarint e xs.length).2 elemT xs false) :
    Encoder.value e (GoType.slice elemT) (Data.seq xs) false =
      Res.ok (none, Encoder.fastLoop w xs (Encoder.Uvarint e xs.length).2) := by
  obtain ⟨_, h2, h3⟩ := Uvarint_advances e xs.length (by omega)
  simp only at h2 h3
  rw [heq]
  exact elems_room elemT w hw xs _ hx hq (by omega)

theorem value_bool_room (e : Encoder) (x : Data) (h : e.pos + 1 ≤ e.buff.length) :
    Encoder.value e GoType.bool x false = Res.ok (none, (Encoder.Bool e x.toBool).2) ∧
    (Encoder.Bool e x.toBool).1 = none := by
  have heq : Encoder.value e GoType.bool x false =
      Res.ok (none, (Encoder.Bool e x.toBool).2) := by
    cases x <;> rfl
  refine ⟨heq, ?_⟩
  by_cases hb : e.boolBit = 0
  · rw [Encoder_Bool_fresh e _ hb h]
  · rw [Encoder_Bool_open e _ hb]

theorem fastValue_generic_room (e : Encoder) (T : GoType) (x : Data)
    (hf : isFastType T = true) (hx : x.hasType T = true)
    (hq : noSignallingNaN T x = true)
    (hroom : e.pos + fastSize T x ≤ e.buff.length) :
    Encoder.value e T x false = Res.ok (none, (Encoder.fastValue e T x).2.2) ∧
    (Encoder.fastValue e T x).2.1 = none := by
  cases T with
  | bool => exact value_bool_room e x hroom
  | int => exact ⟨(value_int_room e x hx hroom).1, (value_int_room e x hx hroom).2.1⟩
  | uint => exact ⟨(value_uint_room e x hx hroom).1, (value_uint_room e x hx hroom).2.1⟩
  | int8 => exact ⟨(value_int8_room e x hx hroom).1, (value_int8_room e x hx hroom).2.1⟩
  | int16 => exact ⟨(value_int16_room e x hx hroom).1, (value_int16_room e x hx hroom).2.1⟩
  | int32 => exact ⟨(value_int32_room e x hx hroom).1, (value_int32_room e x hx hroom).2.1⟩
  | int64 => exact ⟨(value_int64_room e x hx hroom).1, (value_int64_room e x hx hroom).2.1⟩
  | uint8 => exact ⟨(value_uint8_room e x hx hroom).1, (value_uint8_room e x hx hroom).2.1⟩
  | uint16 => exact ⟨(value_uint16_room e x hx hroom).1, (value_uint16_room e x hx hroom).2.1⟩
  | uint32 => exact ⟨(value_uint32_room e x hx hroom).1, rfl⟩
  | uint64 => exact ⟨(value_uint64_room e x hx hroom).1, (value_uint64_room e x hx hroom).2.1⟩
  | float32 =>
    exact ⟨(value_float32_room e x hx hq hroom).1, (value_float32_room e x hx hq hroom).2.1⟩
  | float64 => exact ⟨(value_float64_room e x hx hroom).1, (value_float64_room e x hx hroom).2.1⟩
  | complex64 =>
    exact ⟨(value_complex64_room e x hx hq hroom).1,
      (value_complex64_room e x hx hq hroom).2.1⟩
  | complex128 => exact ⟨(value_complex128_room e x hx hroom).1, (value_complex128_room e x hx hroom).2.1⟩
  | string => exact ⟨(value_string_room e x hx hroom).1, (value_string_room e x hx hroom).2.1⟩
  | slice elemT =>
    obtain ⟨xs, rfl, hxs⟩ := hasType_seq x elemT hx
    cases elemT with
    | bool => exact value_boolSlice_room e xs hxs hroom
    | int =>
      exact ⟨value_slice_room GoType.int _
        (fun e x hx _ h => ⟨(value_int_room e x hx h).1, (value_int_room e x hx h).2.2⟩)
        e xs hxs hq hroom rfl, rfl⟩
    | uint =>
      exact ⟨value_slice_room GoType.uint _
        (fun e x hx _ h => ⟨(value_uint_room e x hx h).1, (value_uint_room e x hx h).2.2⟩)
        e xs hxs hq hroom rfl, rfl⟩
    | int8 =>
      exact ⟨value_slice_room GoType.int8 _
        (fun e x hx _ h => ⟨(value_int8_room e x hx h).1, (value_int8_room e x hx h).2.2⟩)
        e xs hxs hq hroom rfl, rfl⟩
    | int16 =>
      exact ⟨value_slice_room GoType.int16 _
        (fun e x hx _ h => ⟨(value_int16_room e x hx h).1, (value_int16_room e x hx h).2.2⟩)
        e xs hxs hq hroom rfl, rfl⟩
    | int32 =>
      exact ⟨value_slice_room GoType.int32 _
        (fun e x hx _ h => ⟨(value_int32_room e x hx h).1, (value_int32_room e x hx h).2.2⟩)
        e xs hxs hq hroom rfl, rfl⟩
    | int64 =>
      exact ⟨value_slice_room GoType.int64 _
        (fun e x hx _ h => ⟨(value_int64_room e x hx h).1, (value_int64_room e x hx h).2.2⟩)
        e xs hxs hq hroom rfl, rfl⟩
    | uint8 =>
      exact ⟨value_slice_room GoType.uint8 _
        (fun e x hx _ h => ⟨(value_uint8_room e x hx h).1, (value_uint8_room e x hx h).2.2⟩)
        e xs hxs hq hroom rfl, rfl⟩
    | uint16 =>
      exact ⟨value_slice_room GoType.uint16 _
        (fun e x hx _ h => ⟨(value_uint16_room e x hx h).1, (value_uint16_room e x hx h).2.2⟩)
        e xs hxs hq hroom rfl, rfl⟩
    | uint32 =>
      exact ⟨value_slice_room GoType.uint32 _
        (fun e x hx _ h => ⟨(value_uint32_room e x hx h).1, (value_uint32_room e x hx h).2.2⟩)
        e xs hxs hq hroom rfl, rfl⟩
    | uint64 =>
      exact ⟨value_slice_room GoType.uint64 _
        (fun e x hx _ h => ⟨(value_uint64_room e x hx h).1, (value_uint64_room e x hx h).2.2⟩)
        e xs hxs hq hroom rfl, rfl⟩
    | float32 =>
      exact ⟨value_slice_room GoType.float32 _
        (fun e x hx hq h =>
          ⟨(value_float32_room e x hx hq h).1, (value_float32_room e x hx hq h).2.2⟩)
        e xs hxs hq hroom rfl, rfl⟩
    | float64 =>
      exact ⟨value_slice_room GoType.float64 _
        (fun e x hx _ h => ⟨(value_float64_room e x hx h).1, (value_float64_room e x hx h).2.2⟩)
        e xs hxs hq hroom rfl, rfl⟩
    | complex64 =>
      exact ⟨value_slice_room GoType.complex64 _
        (fun e x hx hq h =>
          ⟨(value_complex64_room e x hx hq h).1, (value_complex64_room e x hx hq h).2.2⟩)
        e xs hxs hq hroom rfl, rfl⟩
    | complex128 =>
      exact ⟨value_slice_room GoType.complex128 _
        (fun e x hx _ h => ⟨(value_complex128_room e x hx h).1, (value_complex128_room e x hx h).2.2⟩)
        e xs hxs hq hroom rfl, rfl⟩
    | string =>
      exact ⟨value_slice_room GoType.string _
        (fun e x hx _ h => ⟨(value_string_room e x hx h).1, (value_string_room e x hx h).2.2⟩)
        e xs hxs hq hroom rfl, rfl⟩
    | _ => exact Bool.noConfusion hf
  | _ => exact Bool.noConfusion hf

theorem fastValue_flag (e : Encoder) (T : GoType) (x : Data) :
    (Encoder.fastValue e T x).1 = isFastType T := by
  cases T with
  | slice elemT => cases elemT <;> rfl
  | _ => rfl

/-! ## Lemmas: decoding what the encoder writes -/

/-- Decoding of what the bool-array encoder writes: let `w` be the bytes the bool-array encoder writes for `bs` (the fast
path and `Encoder.boolArray` leave the same encoder state). On a decoder
positioned at a copy of `w`, the `*[]bool` fast path stores exactly `bs`, and so
does the reflective `Decoder.boolArray` into a bool slice (a fresh one, or any
one when `bs` is not empty); each consumes exactly the length prefix plus
`ceil(len bs / 8)` bytes. -/
theorem boolArray_decodes_written (e : Encoder) (bs : List bool) (d : Decoder)
    (pre rest : List Nat) (hlen : bs.length < 2 ^ 63)
    (hroom : e.pos + (SizeofUvarint bs.length + (bs.length + 7) / 8) ≤ e.buff.length)
    (hb : d.buff = pre ++
      ((Encoder.fastValue e (GoType.slice GoType.bool) (Data.seq (boolData bs))).2.2.buff.drop
        e.pos).take (SizeofUvarint bs.length + (bs.length + 7) / 8) ++ rest)
    (hp : d.pos = pre.length) :
    Encoder.boolArray e (GoType.slice GoType.bool) (Data.seq (boolData bs)) =
      Res.ok (((SizeofUvarint bs.length + (bs.length + 7) / 8 : Nat) : Int),
        (Encoder.fastValue e (GoType.slice GoType.bool) (Data.seq (boolData bs))).2.2) ∧
    (∀ x : Data, x ≠ Data.nilPtr →
      Decoder.fastValue d (GoType.ptr (GoType.slice GoType.bool)) x =
        Res.ok (true, Data.ptr (Data.seq (boolData bs)),
          { d with pos := d.pos + (SizeofUvarint bs.length + (bs.length + 7) / 8) })) ∧
    Decoder.boolArray d (GoType.slice GoType.bool) (zeroValue (GoType.slice GoType.bool)) =
      Res.ok (((SizeofUvarint bs.length + (bs.length + 7) / 8 : Nat) : Int),
        Data.seq (boolData bs),
        { d with pos := d.pos + (SizeofUvarint bs.length + (bs.length + 7) / 8) }) ∧
    (∀ cur : Data, bs ≠ [] →
      Decoder.boolArray d (GoType.slice GoType.bool) cur =
        Res.ok (((SizeofUvarint bs.length + (bs.length + 7) / 8 : Nat) : Int),
          Data.seq (boolData bs),
          { d with pos := d.pos + (SizeofUvarint bs.length + (bs.length + 7) / 8) })) := by
  have hrun := boolLoops_run e bs hroom
  have hu := Encoder_Uvarint_splice e bs.length (by omega)
  simp only [hu] at hrun
  have hsz := sizeofBoolArray_nat bs.length hlen
  have hpos := SizeofUvarint_pos bs.length
  have hwl : (uvarintBytes (SizeofUvarint bs.length - 1) bs.length ++ packBools bs).length =
      SizeofUvarint bs.length + (bs.length + 7) / 8 := by
    rw [List.length_append, uvarintBytes_length, (packBools_PackedBits bs).1]; omega
  have hfv : Encoder.fastValue e (GoType.slice GoType.bool) (Data.seq (boolData bs)) =
      (true, none,
        e.splice (uvarintBytes (SizeofUvarint bs.length - 1) bs.length ++ packBools bs)) := by
    simp only [Encoder.fastValue, Data.elems, boolData_length, hu, hrun.1]
  have hwin := window_of_splice e.buff
    (uvarintBytes (SizeofUvarint bs.length - 1) bs.length ++ packBools bs) e.pos
    (SizeofUvarint bs.length + (bs.length + 7) / 8) (by omega) hwl
  rw [hfv] at hb ⊢
  simp only [coder.splice, hwl] at hb
  rw [hwin] at hb
  have hdec := dec_bool_paths d bs pre rest hlen hb hp
  refine ⟨?_, hdec.1, hdec.2.1, hdec.2.2⟩
  simp only [Encoder.boolArray, Data.elems, boolData_length, hu, hrun.2, hsz]

theorem scalar_fixed_roundtrip {α : Type} (en : Endian) (T : GoType) (x : Data)
    (enc : Encoder → Option Err × Encoder) (dec : Decoder → Res (α × Decoder)) (v : α)
    (f : α → Data) (bytes : List Nat)
    (hrt : WritesAndReadsBack enc dec en bytes v)
    (hbytes : scalarBytes en T x = bytes) (hf : f v = x)
    (henc : ∀ e : Encoder, e.pos + bytes.length ≤ e.buff.length →
      Encoder.value e T x false = Res.ok (none, (enc e).2))
    (hdec : ∀ (cur : Data) (d : Decoder), Decoder.value T cur d =
      (match dec d with
        | Res.panic err => Res.panic err
        | Res.ok (w, d1) => Res.ok (none, f w, d1))) :
    (∀ e : Encoder, e.endian = en →
      e.pos + (scalarBytes en T x).length ≤ e.buff.length →
      Encoder.value e T x false = Res.ok (none, e.splice (scalarBytes en T x))) ∧
    (∀ (d : Decoder) (cur : Data) (pre rest : List Nat), d.endian = en →
      d.buff = pre ++ scalarBytes en T x ++ rest → d.pos = pre.length →
      Decoder.value T cur d =
        Res.ok (none, x, { d with pos := d.pos + (scalarBytes en T x).length })) := by
  rw [hbytes]
  refine ⟨fun e he hroom => ?_, fun d cur pre rest he hb hp => ?_⟩
  · rw [henc e hroom, hrt.1 e he hroom]
    rfl
  · rw [hdec cur d, hrt.2 d pre rest he hb hp, ← hf]

theorem Uvarint_rt (en : Endian) (x : Nat) (hx : x < 2 ^ 64) :
    WritesAndReadsBack (fun e => ((Encoder.Uvarint e x).1.2, (Encoder.Uvarint e x).2))
      Decoder.Uint en (uvarintBytes (SizeofUvarint x - 1) x) x := by
  have hpos := SizeofUvarint_pos x
  have hl : (uvarintBytes (SizeofUvarint x - 1) x).length = SizeofUvarint x := by
    rw [uvarintBytes_length]; omega
  constructor
  · intro e _ h
    rw [hl] at h
    simp only [Encoder_Uvarint_splice e x h]
    rfl
  · intro d pre rest _ hb hp
    simp only [Decoder.Uint, Decoder_Uvarint_bytes d x pre rest hx hb hp, hl]

theorem Varint_rt (en : Endian) (n : Int) (hlo : -2 ^ 63 ≤ n) (hhi : n < 2 ^ 63) :
    WritesAndReadsBack
      (fun e => ((Encoder.Uvarint e (ToUvarint n)).1.2, (Encoder.Uvarint e (ToUvarint n)).2))
      Decoder.Int en (uvarintBytes (SizeofUvarint (ToUvarint n) - 1) (ToUvarint n)) n := by
  have h := Uvarint_rt en (ToUvarint n) (ToUvarint_lt n)
  constructor
  · exact h.1
  · intro d pre rest he hb hp
    have hu := h.2 d pre rest he hb hp
    simp only [Decoder.Uint] at hu
    cases hd : Decoder.Uvarint d with
    | panic perr => simp [hd] at hu
    | ok r =>
      obtain ⟨⟨ux, k⟩, d1⟩ := r
      simp only [hd, Res.ok.injEq, Prod.mk.injEq] at hu
      simp only [Decoder.Int, Decoder.Varint, hd, hu.1, hu.2,
        ToVarint_ToUvarint n hlo hhi]

theorem Bool_rt (b : bool) :
    (∀ e : Encoder, e.boolBit = 0 → e.pos + 1 ≤ e.buff.length →
      Encoder.Bool e b =
        (none, { e.splice [if b then 1 else 0] with boolBit := 1, boolPos := e.pos })) ∧
    (∀ (d : Decoder) (pre rest : List Nat),
      d.buff = pre ++ [if b then 1 else 0] ++ rest → d.pos = pre.length →
      Decoder.Bool d = Res.ok (b, { d with pos := d.pos + 1 })) := by
  refine ⟨fun e h0 hroom => Encoder_Bool_fresh e b h0 hroom, fun d pre rest hb hp => ?_⟩
  have hr := decoder_reserve_at d pre [if b then 1 else 0] rest 1 (by decide) rfl hb hp
  simp only [Nat.cast_one] at hr
  simp only [Decoder.Bool, hr]
  cases b <;> simp

theorem Complex64_rt (en : Endian) (re im : Nat) (hre : re < 2 ^ 32) (him : im < 2 ^ 32) :
    WritesAndReadsBack (fun e => Encoder.Complex64 e re im) Decoder.Complex64 en
      (en.put 4 re ++ en.put 4 im) (re, im) := by
  have h1 := Uint32_rt en re hre
  have h2 := Uint32_rt en im him
  have l1 := Endian_put_length en 4 re
  have l2 := Endian_put_length en 4 im
  constructor
  · intro e he hroom
    simp only [List.length_append, l1, l2] at hroom
    have a1 := h1.1 e he (by rw [l1]; omega)
    have hs1 : (e.splice (en.put 4 re)).pos + (en.put 4 im).length ≤
        (e.splice (en.put 4 re)).buff.length := by
      rw [splice_length e _ (by rw [l1]; omega)]
      simp only [coder.splice, l1, l2]; omega
    have a2 := h2.1 (e.splice (en.put 4 re)) he hs1
    have hss := splice_splice e (en.put 4 re) (en.put 4 im) (by rw [l1, l2]; omega)
    simp only [Encoder.Complex64]
    simp only at a1 a2
    rw [a1]
    simp only
    change Encoder.Uint32 (e.splice (en.put 4 re)) im false = _
    rw [a2]
    change (none, (e.splice (en.put 4 re)).splice (en.put 4 im)) = _
    rw [hss]
    rfl
  · intro d pre rest he hb hp
    have b1 := h1.2 d pre (en.put 4 im ++ rest) he (by simpa using hb) hp
    have b2 := h2.2 { d with pos := d.pos + (en.put 4 re).length } (pre ++ en.put 4 re) rest
      he (by simpa using hb) (by simp [hp])
    simp only [Decoder.Complex64, Decoder.Float32, b1, b2, List.length_append, Nat.add_assoc]

theorem Complex128_rt (en : Endian) (re im : Nat) (hre : re < 2 ^ 64) (him : im < 2 ^ 64) :
    WritesAndReadsBack (fun e => Encoder.Complex128 e re im) Decoder.Complex128 en
      (en.put 8 re ++ en.put 8 im) (re, im) := by
  have h1 := Uint64_rt en re hre
  have h2 := Uint64_rt en im him
  have l1 := Endian_put_length en 8 re
  have l2 := Endian_put_length en 8 im
  constructor
  · intro e he hroom
    simp only [List.length_append, l1, l2] at hroom
    have a1 := h1.1 e he (by rw [l1]; omega)
    have hs1 : (e.splice (en.put 8 re)).pos + (en.put 8 im).length ≤
        (e.splice (en.put 8 re)).buff.length := by
      rw [splice_length e _ (by rw [l1]; omega)]
      simp only [coder.splice, l1, l2]; omega
    have a2 := h2.1 (e.splice (en.put 8 re)) he hs1
    have hss := splice_splice e (en.put 8 re) (en.put 8 im) (by rw [l1, l2]; omega)
    simp only [Encoder.Complex128]
    simp only at a1 a2
    rw [a1]
    simp only
    change Encoder.Uint64 (e.splice (en.put 8 re)) im false = _
    rw [a2]
    change (none, (e.splice (en.put 8 re)).splice (en.put 8 im)) = _
    rw [hss]
    rfl
  · intro d pre rest he hb hp
    have b1 := h1.2 d pre (en.put 8 im ++ rest) he (by simpa using hb) hp
    have b2 := h2.2 { d with pos := d.pos + (en.put 8 re).length } (pre ++ en.put 8 re) rest
      he (by simpa using hb) (by simp [hp])
    simp only [Decoder.Complex128, Decoder.Float64, b1, b2, List.length_append, Nat.add_assoc]

theorem scalar_dec {α : Type} (en : Endian) (T : GoType) (x : Data)
    (dec : Decoder → Res (α × Decoder)) (v : α) (f : α → Data) (bytes : List Nat)
    (hread : ∀ (d : Decoder) (pre rest : List Nat), d.endian = en →
      d.buff = pre ++ bytes ++ rest → d.pos = pre.length →
      dec d = Res.ok (v, { d with pos := d.pos + bytes.length }))
    (hbytes : scalarBytes en T x = bytes) (hf : f v = x)
    (hdec : ∀ (cur : Data) (d : Decoder), Decoder.value T cur d =
      (match dec d with
        | Res.panic err => Res.panic err
        | Res.ok (w, d1) => Res.ok (none, f w, d1))) :
    ∀ (d : Decoder) (cur : Data) (pre rest : List Nat), d.endian = en →
      d.buff = pre ++ scalarBytes en T x ++ rest → d.pos = pre.length →
      Decoder.value T cur d =
        Res.ok (none, x, { d with pos := d.pos + (scalarBytes en T x).length }) := by
  rw [hbytes]
  intro d cur pre rest he hb hp
  rw [hdec cur d, hread d pre rest he hb hp, ← hf]

theorem scalar_roundtrip (en : Endian) (T : GoType) (x : Data)
    (hT : isFastScalar T = true) (hx : x.hasType T = true) (hq : quiet32 T x = true)
    (hlen : x.bytes.length < 2 ^ 63) :
    (∀ e : Encoder, e.endian = en → e.boolBit = 0 →
      e.pos + (scalarBytes en T x).length ≤ e.buff.length →
      ∃ e2, Encoder.value e T x false = Res.ok (none, e2) ∧
        e2.pos = e.pos + (scalarBytes en T x).length ∧
        e2.buff = e.buff.take e.pos ++ scalarBytes en T x ++
          e.buff.drop (e.pos + (scalarBytes en T x).length)) ∧
    (∀ (d : Decoder) (cur : Data) (pre rest : List Nat), d.endian = en →
      d.buff = pre ++ scalarBytes en T x ++ rest → d.pos = pre.length →
      Decoder.value T cur d =
        Res.ok (none, x, { d with pos := d.pos + (scalarBytes en T x).length })) := by
  have wrap : ((∀ e : Encoder, e.endian = en →
      e.pos + (scalarBytes en T x).length ≤ e.buff.length →
      Encoder.value e T x false = Res.ok (none, e.splice (scalarBytes en T x))) ∧
    (∀ (d : Decoder) (cur : Data) (pre rest : List Nat), d.endian = en →
      d.buff = pre ++ scalarBytes en T x ++ rest → d.pos = pre.length →
      Decoder.value T cur d =
        Res.ok (none, x, { d with pos := d.pos + (scalarBytes en T x).length }))) →
    ((∀ e : Encoder, e.endian = en → e.boolBit = 0 →
      e.pos + (scalarBytes en T x).length ≤ e.buff.length →
      ∃ e2, Encoder.value e T x false = Res.ok (none, e2) ∧
        e2.pos = e.pos + (scalarBytes en T x).length ∧
        e2.buff = e.buff.take e.pos ++ scalarBytes en T x ++
          e.buff.drop (e.pos + (scalarBytes en T x).length)) ∧
    (∀ (d : Decoder) (cur : Data) (pre rest : List Nat), d.endian = en →
      d.buff = pre ++ scalarBytes en T x ++ rest → d.pos = pre.length →
      Decoder.value T cur d =
        Res.ok (none, x, { d with pos := d.pos + (scalarBytes en T x).length }))) :=
    fun h => ⟨fun e he _ hroom => ⟨_, h.1 e he hroom, rfl, rfl⟩, h.2⟩
  cases T with
  | bool =>
    cases x <;> simp [Data.hasType, intInRange, uintInRange, bitsInRange, GoType.isPtr] at hx
    rename_i b
    have hrt := Bool_rt b
    refine ⟨fun e _ h0 hroom => ?_, fun d cur pre rest _ hb hp => ?_⟩
    · have heq : Encoder.value e GoType.bool (Data.bool b) false =
          Res.ok (none, (Encoder.Bool e b).2) := rfl
      rw [heq, hrt.1 e h0 hroom]
      exact ⟨_, rfl, rfl, rfl⟩
    · exact scalar_dec d.endian GoType.bool (Data.bool b) Decoder.Bool b Data.bool _
        (fun d1 pre1 rest1 _ hb1 hp1 => hrt.2 d1 pre1 rest1 hb1 hp1) rfl rfl
        (fun cur d => rfl) d cur pre rest rfl hb hp
  | int =>
    cases x <;> simp [Data.hasType, intInRange, uintInRange, bitsInRange, GoType.isPtr] at hx
    rename_i n
    exact wrap (scalar_fixed_roundtrip en GoType.int (Data.int n) _ Decoder.Int n Data.int _
      (Varint_rt en n (by simpa using hx.1) (by simpa using hx.2)) rfl rfl
      (fun e _ => rfl) (fun cur d => rfl))
  | uint =>
    cases x <;> simp [Data.hasType, intInRange, uintInRange, bitsInRange, GoType.isPtr] at hx
    rename_i n
    exact wrap (scalar_fixed_roundtrip en GoType.uint (Data.uint n) _ Decoder.Uint n Data.uint _
      (Uvarint_rt en n (by simpa using hx)) rfl rfl
      (fun e _ => rfl) (fun cur d => rfl))
  | int8 =>
    have hx0 := hx
    cases x <;> simp [Data.hasType, intInRange, uintInRange, bitsInRange, GoType.isPtr] at hx
    rename_i n
    exact wrap (scalar_fixed_roundtrip en GoType.int8 (Data.int n) _ Decoder.Int8 n Data.int _
      (Int8_rt en n (by simpa using hx.1) (by simpa using hx.2))
      (by simp [scalarBytes, toUnsigned, Data.toInt]) rfl
      (fun e h => (value_int8_room e (Data.int n) hx0 h).1) (fun cur d => rfl))
  | int16 =>
    have hx0 := hx
    cases x <;> simp [Data.hasType, intInRange, uintInRange, bitsInRange, GoType.isPtr] at hx
    rename_i n
    exact wrap (scalar_fixed_roundtrip en GoType.int16 (Data.int n) _ Decoder.Int16 n Data.int _
      (Int16_rt en n (by simpa using hx.1) (by simpa using hx.2)) rfl rfl
      (fun e h => (value_int16_room e (Data.int n) hx0
        (by rw [Endian_put_length] at h; exact h)).1) (fun cur d => rfl))
  | int32 =>
    have hx0 := hx
    cases x <;> simp [Data.hasType, intInRange, uintInRange, bitsInRange, GoType.isPtr] at hx
    rename_i n
    exact wrap (scalar_fixed_roundtrip en GoType.int32 (Data.int n) _ Decoder.Int32 n Data.int _
      (Int32_rt en n (by simpa using hx.1) (by simpa using hx.2)) rfl rfl
      (fun e h => (value_int32_room e (Data.int n) hx0
        (by rw [Endian_put_length] at h; exact h)).1) (fun cur d => rfl))
  | int64 =>
    have hx0 := hx
    cases x <;> simp [Data.hasType, intInRange, uintInRange, bitsInRange, GoType.isPtr] at hx
    rename_i n
    exact wrap (scalar_fixed_roundtrip en GoType.int64 (Data.int n) _ Decoder.Int64 n Data.int _
      (Int64_rt en n (by simpa using hx.1) (by simpa using hx.2)) rfl rfl
      (fun e h => (value_int64_room e (Data.int n) hx0
        (by rw [Endian_put_length] at h; exact h)).1) (fun cur d => rfl))
  | uint8 =>
    have hx0 := hx
    cases x <;> simp [Data.hasType, intInRange, uintInRange, bitsInRange, GoType.isPtr] at hx
    rename_i n
    exact wrap (scalar_fixed_roundtrip en GoType.uint8 (Data.uint n) _ Decoder.Uint8 n Data.uint _
      (Uint8_rt en n) rfl rfl
      (fun e h => (value_uint8_room e (Data.uint n) hx0 h).1) (fun cur d => rfl))
  | uint16 =>
    have hx0 := hx
    cases x <;> simp [Data.hasType, intInRange, uintInRange, bitsInRange, GoType.isPtr] at hx
    rename_i n
    exact wrap (scalar_fixed_roundtrip en GoType.uint16 (Data.uint n) _ Decoder.Uint16 n
      Data.uint _ (Uint16_rt en n (by simpa using hx)) rfl rfl
      (fun e h => (value_uint16_room e (Data.uint n) hx0
        (by rw [Endian_put_length] at h; exact h)).1) (fun cur d => rfl))
  | uint32 =>
    have hx0 := hx
    cases x <;> simp [Data.hasType, intInRange, uintInRange, bitsInRange, GoType.isPtr] at hx
    rename_i n
    exact wrap (scalar_fixed_roundtrip en GoType.uint32 (Data.uint n) _ Decoder.Uint32 n
      Data.uint _ (Uint32_rt en n (by simpa using hx)) rfl rfl
      (fun e h => (value_uint32_room e (Data.uint n) hx0
        (by rw [Endian_put_length] at h; exact h)).1) (fun cur d => rfl))
  | uint64 =>
    have hx0 := hx
    cases x <;> simp [Data.hasType, intInRange, uintInRange, bitsInRange, GoType.isPtr] at hx
    rename_i n
    exact wrap (scalar_fixed_roundtrip en GoType.uint64 (Data.uint n) _ Decoder.Uint64 n
      Data.uint _ (Uint64_rt en n (by simpa using hx)) rfl rfl
      (fun e h => (value_uint64_room e (Data.uint n) hx0
        (by rw [Endian_put_length] at h; exact h)).1) (fun cur d => rfl))
  | float32 =>
    have hx0 := hx
    cases x <;> simp [Data.hasType, intInRange, uintInRange, bitsInRange, GoType.isPtr] at hx
    rename_i b
    have hb : quietNaN32 b = b := by simpa [quiet32, Data.bits] using hq
    exact wrap (scalar_fixed_roundtrip en GoType.float32 (Data.float b) _ Decoder.Float32 b
      (fun w => Data.float (quietNaN32 w)) _ (Uint32_rt en b (by simpa using hx)) rfl
      (by simp only [hb])
      (fun e h => (value_float32_room e (Data.float b) hx0 hq
        (by rw [Endian_put_length] at h; exact h)).1) (fun cur d => rfl))
  | float64 =>
    have hx0 := hx
    cases x <;> simp [Data.hasType, intInRange, uintInRange, bitsInRange, GoType.isPtr] at hx
    rename_i b
    exact wrap (scalar_fixed_roundtrip en GoType.float64 (Data.float b) _ Decoder.Float64 b
      Data.float _ (Uint64_rt en b (by simpa using hx)) rfl rfl
      (fun e h => (value_float64_room e (Data.float b) hx0
        (by rw [Endian_put_length] at h; exact h)).1) (fun cur d => rfl))
  | complex64 =>
    have hx0 := hx
    cases x <;> simp [Data.hasType, intInRange, uintInRange, bitsInRange, GoType.isPtr] at hx
    rename_i re im
    have hb : quietNaN32 re = re ∧ quietNaN32 im = im := by
      simpa [quiet32, Data.re, Data.im] using hq
    exact wrap (scalar_fixed_roundtrip en GoType.complex64 (Data.complex re im) _
      Decoder.Complex64 (re, im) (fun c => Data.complex (quietNaN32 c.1) (quietNaN32 c.2)) _
      (Complex64_rt en re im (by simpa using hx.1) (by simpa using hx.2)) rfl
      (by simp only [hb.1, hb.2])
      (fun e h => (value_complex64_room e (Data.complex re im) hx0 hq
        (by rw [List.length_append, Endian_put_length, Endian_put_length] at h; exact h)).1)
      (fun cur d => rfl))
  | complex128 =>
    have hx0 := hx
    cases x <;> simp [Data.hasType, intInRange, uintInRange, bitsInRange, GoType.isPtr] at hx
    rename_i re im
    exact wrap (scalar_fixed_roundtrip en GoType.complex128 (Data.complex re im) _
      Decoder.Complex128 (re, im) (fun c => Data.complex c.1 c.2) _
      (Complex128_rt en re im (by simpa using hx.1) (by simpa using hx.2)) rfl rfl
      (fun e h => (value_complex128_room e (Data.complex re im) hx0
        (by rw [List.length_append, Endian_put_length, Endian_put_length] at h; exact h)).1)
      (fun cur d => rfl))
  | string =>
    cases x <;> simp [Data.hasType, intInRange, uintInRange, bitsInRange, GoType.isPtr] at hx
    rename_i s
    exact wrap (scalar_fixed_roundtrip en GoType.string (Data.string s) _ Decoder.String s
      Data.string _ (String_rt en s hlen) rfl rfl
      (fun e _ => rfl) (fun cur d => rfl))
  | _ => exact Bool.noConfusion hT

/-! ## Lemmas: the entries of a decoded map -/

theorem EntryList.lookup_set_self : ∀ (m : EntryList) (k v : Data),
    (m.set k v).lookup k = some v
  | EntryList.nil, k, v => by simp [EntryList.set, EntryList.lookup]
  | EntryList.cons k0 v0 rest, k, v => by
    by_cases h : k0 = k
    · simp [EntryList.set, EntryList.lookup, h]
    · have ih := EntryList.lookup_set_self rest k v
      simp [EntryList.set, EntryList.lookup, h, ih]

theorem EntryList.lookup_set_ne : ∀ (m : EntryList) (k v k1 : Data), k ≠ k1 →
    (m.set k v).lookup k1 = m.lookup k1
  | EntryList.nil, k, v, k1, hne => by simp [EntryList.set, EntryList.lookup, hne]
  | EntryList.cons k0 v0 rest, k, v, k1, hne => by
    by_cases h : k0 = k
    · subst h
      simp [EntryList.set, EntryList.lookup, hne]
    · have ih := EntryList.lookup_set_ne rest k v k1 hne
      by_cases h1 : k0 = k1
      · subst h1
        simp [EntryList.set, EntryList.lookup, h]
      · simp [EntryList.set, EntryList.lookup, h, h1, ih]

theorem lookup_setAll (ps : List (Data × Data)) : ∀ (m : EntryList) (k : Data),
    (m.setAll ps).lookup k =
      (match lastValue ps k with
        | some v => some v
        | none => m.lookup k) := by
  induction ps with
  | nil => intro m k; rfl
  | cons p ps ih =>
    intro m k
    have hs : m.setAll (p :: ps) = (m.set p.1 p.2).setAll ps := rfl
    rw [hs, ih]
    cases hl : lastValue ps k with
    | some v => simp [lastValue, hl]
    | none =>
      by_cases hk : p.1 = k
      · subst hk
        simp [lastValue, hl, EntryList.lookup_set_self]
      · simp [lastValue, hl, hk, EntryList.lookup_set_ne m p.1 p.2 k hk]

theorem entryLoop_readEntries
    (deck decv : Data → Decoder → Res (Option Err × Data × Decoder)) (zk zv : Data) :
    ∀ (n : Nat) (m : EntryList) (d : Decoder),
      Decoder.entryLoop deck decv zk zv n m d =
        (match Decoder.readEntries deck decv zk zv n d with
          | Res.panic err => Res.panic err
          | Res.ok (ps, d1) => Res.ok (m.setAll ps, d1)) := by
  intro n
  induction n with
  | zero => intro m d; rfl
  | succ n ih =>
    intro m d
    simp only [Decoder.entryLoop, Decoder.readEntries]
    cases hk : deck zk d with
    | panic perr => rfl
    | ok r =>
      obtain ⟨e1, k, d1⟩ := r
      simp only
      cases hv : decv zv d1 with
      | panic perr => rfl
      | ok r2 =>
        obtain ⟨e2, v, d2⟩ := r2
        simp only
        rw [ih]
        cases Decoder.readEntries deck decv zk zv n d2 with
        | panic perr => rfl
        | ok r3 =>
          obtain ⟨ps, d3⟩ := r3
          rfl

/-! ## Lemmas: writes without room -/

theorem Uvarint_allOrNothing (e : Encoder) (x : Nat) :
    AllOrNothing ((Encoder.Uvarint e x).1.2, (Encoder.Uvarint e x).2) e (SizeofUvarint x) := by
  refine ⟨fun h => Uvarint_advances e x h, fun h => ?_⟩
  simp [Encoder.Uvarint, reserve_none e _ (Nat.not_le.mp h)]

theorem Uint8_allOrNothing (e : Encoder) (x : Nat) : AllOrNothing (Encoder.Uint8 e x) e 1 := by
  refine ⟨fun h => Uint8_advances e x h, fun h => ?_⟩
  simp [Encoder.Uint8, reserve_none e _ (Nat.not_le.mp h)]

theorem Uint16_allOrNothing (e : Encoder) (x : Nat) :
    AllOrNothing (Encoder.Uint16 e x false) e 2 := by
  refine ⟨fun h => Uint16_advances e x h, fun h => ?_⟩
  simp [Encoder.Uint16, reserve_none e _ (Nat.not_le.mp h)]

theorem Uint32_allOrNothing (e : Encoder) (x : Nat) :
    AllOrNothing (Encoder.Uint32 e x false) e 4 := by
  refine ⟨fun h => Uint32_advances e x h, fun h => ?_⟩
  simp [Encoder.Uint32, reserve_none e _ (Nat.not_le.mp h)]

theorem Uint64_allOrNothing (e : Encoder) (x : Nat) :
    AllOrNothing (Encoder.Uint64 e x false) e 8 := by
  refine ⟨fun h => Uint64_advances e x h, fun h => ?_⟩
  simp [Encoder.Uint64, reserve_none e _ (Nat.not_le.mp h)]

theorem Bool_allOrNothing (e : Encoder) (b : bool) (h0 : e.boolBit = 0) :
    AllOrNothing (Encoder.Bool e b) e 1 := by
  refine ⟨fun h => ?_, fun h => ?_⟩
  · rw [Encoder_Bool_fresh e b h0 h]
    refine ⟨rfl, ?_, ?_⟩
    · simp [coder.splice]
    · have := splice_length e [if b then 1 else 0] (by simpa using h)
      simpa using this
  · simp [Encoder.Bool, h0, reserve_none e _ (Nat.not_le.mp h)]

theorem String_partial (e : Encoder) (s : List Nat) :
    (e.pos + (SizeofUvarint s.length + s.length) ≤ e.buff.length →
      Advances (Encoder.String e s) e (SizeofUvarint s.length + s.length)) ∧
    (¬ e.pos + SizeofUvarint s.length ≤ e.buff.length →
      Encoder.String e s = (some Err.buffOverflow, e)) ∧
    (e.pos + SizeofUvarint s.length ≤ e.buff.length →
      ¬ e.pos + (SizeofUvarint s.length + s.length) ≤ e.buff.length →
      (Encoder.String e s).1 = some Err.buffOverflow ∧
      (Encoder.String e s).2.pos = e.pos + SizeofUvarint s.length ∧
      (Encoder.String e s).2 = (Encoder.Uvarint e s.length).2) := by
  refine ⟨fun h => String_advances e s h, fun h => ?_, fun h1 h2 => ?_⟩
  · simp [Encoder.String, Encoder.Uvarint, reserve_none e _ (Nat.not_le.mp h)]
  · obtain ⟨a1, a2, a3⟩ := Uvarint_advances e s.length h1
    rcases hr : Encoder.Uvarint e s.length with ⟨⟨n, err⟩, e1⟩
    rw [hr] at a1 a2 a3
    simp only at a1 a2 a3
    subst a1
    have hn := reserve_none e1 s.length (by omega)
    simp only [Encoder.String, hr, hn]
    exact ⟨trivial, a2, trivial⟩

theorem Complex64_partial (e : Encoder) (re im : Nat) :
    (e.pos + 8 ≤ e.buff.length → Advances (Encoder.Complex64 e re im) e 8) ∧
    (¬ e.pos + 4 ≤ e.buff.length → Encoder.Complex64 e re im = (some Err.buffOverflow, e)) ∧
    (e.pos + 4 ≤ e.buff.length → ¬ e.pos + 8 ≤ e.buff.length →
      (Encoder.Complex64 e re im).1 = some Err.buffOverflow ∧
      (Encoder.Complex64 e re im).2.pos = e.pos + 4 ∧
      (Encoder.Complex64 e re im).2 = (Encoder.Uint32 e re false).2) := by
  refine ⟨fun h => Complex64_advances e re im h, fun h => ?_, fun h1 h2 => ?_⟩
  · simp [Encoder.Complex64, (Uint32_allOrNothing e re).2 h]
  · obtain ⟨a1, a2, a3⟩ := Uint32_advances e re h1
    rcases hr : Encoder.Uint32 e re false with ⟨err, e1⟩
    rw [hr] at a1 a2 a3
    simp only at a1 a2 a3
    subst a1
    have hn := (Uint32_allOrNothing e1 im).2 (by omega)
    simp only [Encoder.Complex64, hr, hn]
    exact ⟨trivial, a2, trivial⟩

theorem Complex128_partial (e : Encoder) (re im : Nat) :
    (e.pos + 16 ≤ e.buff.length → Advances (Encoder.Complex128 e re im) e 16) ∧
    (¬ e.pos + 8 ≤ e.buff.length → Encoder.Complex128 e re im = (some Err.buffOverflow, e)) ∧
    (e.pos + 8 ≤ e.buff.length → ¬ e.pos + 16 ≤ e.buff.length →
      (Encoder.Complex128 e re im).1 = some Err.buffOverflow ∧
      (Encoder.Complex128 e re im).2.pos = e.pos + 8 ∧
      (Encoder.Complex128 e re im).2 = (Encoder.Uint64 e re false).2) := by
  refine ⟨fun h => Complex128_advances e re im h, fun h => ?_, fun h1 h2 => ?_⟩
  · simp [Encoder.Complex128, (Uint64_allOrNothing e re).2 h]
  · obtain ⟨a1, a2, a3⟩ := Uint64_advances e re h1
    rcases hr : Encoder.Uint64 e re false with ⟨err, e1⟩
    rw [hr] at a1 a2 a3
    simp only at a1 a2 a3
    subst a1
    have hn := (Uint64_allOrNothing e1 im).2 (by omega)
    simp only [Encoder.Complex128, hr, hn]
    exact ⟨trivial, a2, trivial⟩

/-! ## Claims -/

/-- C1 (evaluation at a failing input): the slice `[]*int32{&0x11223344}` is
encoded by `Encoder.Value` as `01 01 44 33 22 11` (a presence flag before the
referent), and `Decoder.Value` of those bytes into a pointer to a nil
`[]*int32` returns no error, reads no presence flag, and yields
`[]*int32{&0x22334401}` with one byte left unread: the round trip does not give
the value back. -/
theorem value_roundtrip_pointer_element :
    Encoder.Value (NewEncoderEndian 6 DefaultEndian) (GoType.slice (GoType.ptr GoType.int32))
        (Data.seq (DataList.cons (Data.ptr (Data.int 0x11223344)) DataList.nil)) =
      Res.ok (none,
        { NewEncoderEndian 6 DefaultEndian with
          pos := 6, buff := [0x01, 0x01, 0x44, 0x33, 0x22, 0x11], boolBit := 1, boolPos := 1 }) ∧
    Decoder.Value (Decoder.Init [0x01, 0x01, 0x44, 0x33, 0x22, 0x11] DefaultEndian) noCapabilities
        (GoType.ptr (GoType.slice (GoType.ptr GoType.int32)))
        (Data.ptr (zeroValue (GoType.slice (GoType.ptr GoType.int32)))) =
      Res.ok (none,
        some (Data.ptr (Data.seq (DataList.cons (Data.ptr (Data.int 0x22334401)) DataList.nil)),
          { Decoder.Init [0x01, 0x01, 0x44, 0x33, 0x22, 0x11] DefaultEndian with pos := 5 })) ∧
    Data.seq (DataList.cons (Data.ptr (Data.int 0x22334401)) DataList.nil) ≠
      Data.seq (DataList.cons (Data.ptr (Data.int 0x11223344)) DataList.nil) := by
  refine ⟨by decide, by decide, by decide⟩

/-- C2: for every 64-bit unsigned `x` and an encoder with room, `Encoder.Uvarint`
succeeds and returns the count `n` of bytes by which it advanced; on any decoder
positioned at a copy of the `n` written bytes, `Decoder.Uvarint` returns `(x, n)`
and its position has advanced by exactly `n`. -/
theorem uvarint_roundtrip (e : Encoder) (x : Nat) (hx : x < 2 ^ 64)
    (hroom : e.pos + SizeofUvarint x ≤ e.buff.length) :
    (Encoder.Uvarint e x).1.2 = none ∧
    (Encoder.Uvarint e x).2.pos = e.pos + (Encoder.Uvarint e x).1.1 ∧
    ∀ (d : Decoder) (pre rest : List Nat),
      d.buff = pre ++
        ((Encoder.Uvarint e x).2.buff.drop e.pos).take (Encoder.Uvarint e x).1.1 ++ rest →
      d.pos = pre.length →
      Decoder.Uvarint d =
        Res.ok ((x, (Encoder.Uvarint e x).1.1),
          { d with pos := d.pos + (Encoder.Uvarint e x).1.1 }) :=
  uvarint_roundtrip_core e x hx hroom

/-- Witness of C2 at `x = 300` in a 16-byte encoder. -/
theorem uvarint_roundtrip_witness :
    (Encoder.Uvarint (NewEncoderEndian 16 DefaultEndian) 300).1 = (2, none) ∧
    Decoder.Uvarint (Decoder.Init [0xac, 0x02] DefaultEndian) =
      Res.ok ((300, 2), { Decoder.Init [0xac, 0x02] DefaultEndian with pos := 2 }) :=
  ⟨by decide,
   (uvarint_roundtrip (NewEncoderEndian 16 DefaultEndian) 300 (by decide) (by decide)).2.2
     (Decoder.Init [0xac, 0x02] DefaultEndian) [] [] (by decide) (by decide)⟩

/-- C3: for every 64-bit signed `n` (the minimum included) and an encoder with
room, `Encoder.Varint` varint-encodes the zigzag image of `n` (`n<<1` for
`n ≥ 0`, `((-n)<<1)-1` otherwise, modulo `2^64`, with the listed values), and
`Decoder.Varint` on the written bytes returns `n` with the same byte count. -/
theorem varint_roundtrip (e : Encoder) (n : Int) (hlo : -2 ^ 63 ≤ n) (hhi : n < 2 ^ 63)
    (hroom : e.pos + SizeofUvarint (ToUvarint n) ≤ e.buff.length) :
    Encoder.Varint e n = Encoder.Uvarint e (ToUvarint n) ∧
    ((ToUvarint n : Int) = if 0 ≤ n then (2 * n) % 2 ^ 64 else (2 * (-n) - 1) % 2 ^ 64) ∧
    (ToUvarint 0 = 0 ∧ ToUvarint (-1) = 1 ∧ ToUvarint 1 = 2 ∧ ToUvarint (-2) = 3 ∧
      ToUvarint 2 = 4 ∧ ToUvarint (-64) = 127 ∧ ToUvarint 64 = 128) ∧
    (Encoder.Varint e n).1.2 = none ∧
    ∀ (d : Decoder) (pre rest : List Nat),
      d.buff = pre ++
        ((Encoder.Varint e n).2.buff.drop e.pos).take (Encoder.Varint e n).1.1 ++ rest →
      d.pos = pre.length →
      Decoder.Varint d =
        Res.ok ((n, (Encoder.Varint e n).1.1),
          { d with pos := d.pos + (Encoder.Varint e n).1.1 }) := by
  have hu := uvarint_roundtrip_core e (ToUvarint n) (ToUvarint_lt n) hroom
  refine ⟨rfl, ?_, ?_, hu.1, ?_⟩
  · unfold ToUvarint
    split <;> omega
  · decide
  · intro d pre rest hb hp
    have h := hu.2.2 d pre rest hb hp
    simp only [Decoder.Varint, Encoder.Varint, h, ToVarint_ToUvarint n hlo hhi]

/-- Witness of C3 at `n = -2^63` in a 16-byte encoder. -/
theorem varint_roundtrip_witness :
    ToUvarint (-2 ^ 63) = 2 ^ 64 - 1 ∧
    Decoder.Varint (Decoder.Init [255, 255, 255, 255, 255, 255, 255, 255, 255, 1] DefaultEndian) =
      Res.ok ((-2 ^ 63, 10),
        { Decoder.Init [255, 255, 255, 255, 255, 255, 255, 255, 255, 1] DefaultEndian
            with pos := 10 }) :=
  ⟨by decide,
   (varint_roundtrip (NewEncoderEndian 16 DefaultEndian) (-2 ^ 63) (by decide) (by decide)
      (by decide)).2.2.2.2
     (Decoder.Init [255, 255, 255, 255, 255, 255, 255, 255, 255, 1] DefaultEndian) [] []
     (by decide) (by decide)⟩

/-- C4: for every 64-bit unsigned `x` and an encoder with room, `Encoder.Uvarint`
writes the minimal base-128 encoding: `n = max(1, ceil(bitlength(x)/7)) ≤ 10`
bytes (1 below 128, 2 below 16384), byte `i` holding bits `7i..7i+6` of `x` with
the top bit set on every byte but the last; it returns `n`, advances the
position by `n` and leaves the rest of the buffer untouched. -/
theorem uvarint_minimal (e : Encoder) (x : Nat) (hx : x < 2 ^ 64)
    (hroom : e.pos + SizeofUvarint x ≤ e.buff.length) :
    (Encoder.Uvarint e x).1 = (max 1 ((Nat.size x + 6) / 7), none) ∧
    max 1 ((Nat.size x + 6) / 7) ≤ 10 ∧
    (x < 128 → (Encoder.Uvarint e x).1.1 = 1) ∧
    (128 ≤ x → x < 16384 → (Encoder.Uvarint e x).1.1 = 2) ∧
    (Encoder.Uvarint e x).2.pos = e.pos + max 1 ((Nat.size x + 6) / 7) ∧
    (∀ i, i < max 1 ((Nat.size x + 6) / 7) →
      (Encoder.Uvarint e x).2.buff.getD (e.pos + i) 0 =
        (x >>> (7 * i)) % 128 + (if i + 1 < max 1 ((Nat.size x + 6) / 7) then 128 else 0)) ∧
    (Encoder.Uvarint e x).2.buff.length = e.buff.length ∧
    (Encoder.Uvarint e x).2.buff.take e.pos = e.buff.take e.pos ∧
    (Encoder.Uvarint e x).2.buff.drop (e.pos + max 1 ((Nat.size x + 6) / 7)) =
      e.buff.drop (e.pos + max 1 ((Nat.size x + 6) / 7)) := by
  have hsz := SizeofUvarint_eq_size x hx
  have hpos := SizeofUvarint_pos x
  have hle := SizeofUvarint_le x
  have hbound := SizeofUvarint_bound x hx
  rw [Encoder_Uvarint_ok e x hroom, ← hsz]
  have hlen : (uvarintBytes (SizeofUvarint x - 1) x).length = SizeofUvarint x := by
    rw [uvarintBytes_length]; omega
  have htake : (e.buff.take e.pos).length = e.pos := by simp; omega
  refine ⟨rfl, hle, ?_, ?_, rfl, ?_, ?_, ?_, ?_⟩
  · intro h
    simp only [SizeofUvarint, sizeofUvarintAux, if_pos h]
  · intro h1 h2
    have h3 : x / 128 < 128 := by omega
    simp only [SizeofUvarint, sizeofUvarintAux, if_neg (Nat.not_lt.mpr h1), if_pos h3]
  · intro i hi
    have h1 := getD_splice (e.buff.take e.pos) (uvarintBytes (SizeofUvarint x - 1) x)
      (e.buff.drop (e.pos + SizeofUvarint x)) i (by omega)
    rw [htake] at h1
    simp only
    rw [h1, uvarintBytes_getD _ x i (by omega), Nat.shiftRight_eq_div_pow, pow_mul]
    norm_num
    by_cases hlast : i < SizeofUvarint x - 1
    · rw [if_pos hlast, if_pos (by omega)]
    · have hi2 : i = SizeofUvarint x - 1 := by omega
      rw [if_neg hlast, if_neg (by omega)]
      subst hi2
      rw [Nat.mod_eq_of_lt (by omega : x / 128 ^ (SizeofUvarint x - 1) < 256),
        Nat.mod_eq_of_lt hbound]
      simp
  · simp only [List.length_append, htake, hlen, List.length_drop]
    omega
  · simp only
    rw [List.append_assoc, List.take_append_of_le_length (by omega)]
    simp
  · simp only
    rw [List.drop_append_of_le_length (by simp [htake, hlen]), ]
    have hl2 : (e.buff.take e.pos ++ uvarintBytes (SizeofUvarint x - 1) x).length =
        e.pos + SizeofUvarint x := by simp [htake, hlen]
    rw [List.drop_of_length_le (by omega)]
    simp

/-- Witness of C4 at `x = 300` in a 16-byte encoder: two bytes `0xac, 0x02`. -/
theorem uvarint_minimal_witness :
    (Encoder.Uvarint (NewEncoderEndian 16 DefaultEndian) 300).1 = (2, none) ∧
    (Encoder.Uvarint (NewEncoderEndian 16 DefaultEndian) 300).2.buff.take 2 = [0xac, 0x02] ∧
    (Encoder.Uvarint (NewEncoderEndian 16 DefaultEndian) 300).1 =
      (max 1 ((Nat.size 300 + 6) / 7), none) :=
  ⟨by decide, by decide,
   (uvarint_minimal (NewEncoderEndian 16 DefaultEndian) 300 (by decide) (by decide)).1⟩

/-- C5: when the first nine bytes at the cursor all carry the continuation bit,
`Decoder.Uvarint` succeeds exactly when the tenth byte is 0 or 1, returning the
accumulated value and a count of 10 with the cursor ten bytes further; a tenth
byte of 2 or more (continuation bit included) is a fatal abort; whatever follows
the tenth byte plays no part. -/
theorem uvarint_tenth_byte (d : Decoder) (pre nine rest : List Nat) (t : Nat)
    (hb : d.buff = pre ++ nine ++ t :: rest) (hp : d.pos = pre.length)
    (h9 : nine.length = 9) (hc : ∀ b ∈ nine, 128 ≤ b) :
    (t ≤ 1 → Decoder.Uvarint d =
      Res.ok ((groupsValue nine + t * 2 ^ 63, 10), { d with pos := d.pos + 10 })) ∧
    (2 ≤ t → Decoder.Uvarint d = Res.panic Err.uvarintOverflow) := by
  have hcont := dec_uvarintLoop_cont nine 1 0 0 d pre (t :: rest)
    (by simpa using hb) hp hc (by omega) (by norm_num)
  have hgv := groupsValue_lt nine
  rw [h9] at hcont hgv
  simp only [Nat.mul_zero, pow_zero, Nat.mul_one, Nat.zero_add] at hcont
  have hu := decoder_uint8_at { d with pos := d.pos + 9 } (pre ++ nine) rest t
    (by simpa using hb) (by simp [hp, h9])
  have hacc : groupsValue nine < 2 ^ 63 := by norm_num at hgv ⊢; exact hgv
  have hstep : Decoder.Uvarint d =
      Decoder.uvarintLoop 1 9 (groupsValue nine) 63 { d with pos := d.pos + 9 } := by
    simp only [Decoder.Uvarint, MaxVarintLen64]
    exact hcont
  rw [hstep]
  simp only [Decoder.uvarintLoop, hu]
  constructor
  · intro ht
    have hand : t &&& 0x7f = t := by
      rw [Nat.and_pow_two_sub_one_eq_mod t 7]; exact Nat.mod_eq_of_lt (by omega)
    have hsh : (t <<< 63) % 2 ^ 64 = t <<< 63 := by
      apply Nat.mod_eq_of_lt
      rw [Nat.shiftLeft_eq]
      have : t * 2 ^ 63 ≤ 1 * 2 ^ 63 := Nat.mul_le_mul_right _ ht
      omega
    rw [hand, hsh, or_shift_add _ t 63 hacc]
    split_ifs with h1 h2
    · exfalso
      simp at h2
      omega
    · rfl
    · omega
  · intro ht
    split_ifs with h1 h2
    · rfl
    · exfalso
      simp at h2
      omega
    · rfl

/-- Witness of C5: ten bytes `0xff × 9, 0x01` decode to `2^64 - 1`, and
`0x80 × 9, 0x02` abort. -/
theorem uvarint_tenth_byte_witness :
    Decoder.Uvarint
        (Decoder.Init [255, 255, 255, 255, 255, 255, 255, 255, 255, 1] DefaultEndian) =
      Res.ok ((2 ^ 64 - 1, 10),
        { Decoder.Init [255, 255, 255, 255, 255, 255, 255, 255, 255, 1] DefaultEndian
            with pos := 10 }) ∧
    Decoder.Uvarint
        (Decoder.Init [128, 128, 128, 128, 128, 128, 128, 128, 128, 2] DefaultEndian) =
      Res.panic Err.uvarintOverflow :=
  ⟨(uvarint_tenth_byte
      (Decoder.Init [255, 255, 255, 255, 255, 255, 255, 255, 255, 1] DefaultEndian) []
      [255, 255, 255, 255, 255, 255, 255, 255, 255] [] 1 rfl rfl rfl (by decide)).1 (by decide),
   (uvarint_tenth_byte
      (Decoder.Init [128, 128, 128, 128, 128, 128, 128, 128, 128, 2] DefaultEndian) []
      [128, 128, 128, 128, 128, 128, 128, 128, 128] [] 2 rfl rfl rfl (by decide)).2 (by decide)⟩

/-- C6: in either byte order, `Encoder.UintN(x, false)` for N = 16, 32, 64
writes exactly N/8 bytes holding `x` in that order (little-endian: byte `i` is
`x / 256^i mod 256`, so 0x1234 is 0x34, 0x12; big-endian the reverse) and
`Decoder.UintN` reads `x` back; `IntN` round-trips through the two's-complement
image written in the same bytes; `Uint8`/`Int8` through a single byte. -/
theorem fixed_width_roundtrip (en : Endian) :
    (∀ x : Nat, WritesAndReadsBack (fun e => Encoder.Uint8 e x) Decoder.Uint8 en [x] x) ∧
    (∀ x : Int, -2 ^ 7 ≤ x → x < 2 ^ 7 →
      WritesAndReadsBack (fun e => Encoder.Int8 e x) Decoder.Int8 en [(x % 256).toNat] x) ∧
    (∀ x : Nat, x < 2 ^ 16 →
      WritesAndReadsBack (fun e => Encoder.Uint16 e x false) Decoder.Uint16 en (en.put 2 x) x) ∧
    (∀ x : Int, -2 ^ 15 ≤ x → x < 2 ^ 15 →
      WritesAndReadsBack (fun e => Encoder.Int16 e x false) Decoder.Int16 en
        (en.put 2 (toUnsigned 16 x)) x) ∧
    (∀ x : Nat, x < 2 ^ 32 →
      WritesAndReadsBack (fun e => Encoder.Uint32 e x false) Decoder.Uint32 en (en.put 4 x) x) ∧
    (∀ x : Int, -2 ^ 31 ≤ x → x < 2 ^ 31 →
      WritesAndReadsBack (fun e => Encoder.Int32 e x false) Decoder.Int32 en
        (en.put 4 (toUnsigned 32 x)) x) ∧
    (∀ x : Nat, x < 2 ^ 64 →
      WritesAndReadsBack (fun e => Encoder.Uint64 e x false) Decoder.Uint64 en (en.put 8 x) x) ∧
    (∀ x : Int, -2 ^ 63 ≤ x → x < 2 ^ 63 →
      WritesAndReadsBack (fun e => Encoder.Int64 e x false) Decoder.Int64 en
        (en.put 8 (toUnsigned 64 x)) x) ∧
    (∀ n x : Nat, (en.put n x).length = n) ∧
    (∀ n x i : Nat, i < n → (Endian.LittleEndian.put n x).getD i 0 = x / 256 ^ i % 256) ∧
    (∀ n x i : Nat, i < n →
      (Endian.BigEndian.put n x).getD i 0 = x / 256 ^ (n - 1 - i) % 256) ∧
    Endian.LittleEndian.put 2 0x1234 = [0x34, 0x12] :=
  ⟨Uint8_rt en, Int8_rt en, Uint16_rt en, Int16_rt en, Uint32_rt en, Int32_rt en,
   Uint64_rt en, Int64_rt en, Endian_put_length en,
   fun n x i hi => leBytes_getD n x i hi, bigEndian_getD, by decide⟩

/-- Witness of C6: `0x1234` as a little-endian `uint16` and `-2` as a big-endian
`int32`, written into a 16-byte encoder and read back. -/
theorem fixed_width_roundtrip_witness :
    (Encoder.Uint16 (NewEncoderEndian 16 Endian.LittleEndian) 0x1234 false).2.buff.take 2
      = [0x34, 0x12] ∧
    Decoder.Uint16 (Decoder.Init [0x34, 0x12] Endian.LittleEndian) =
      Res.ok (0x1234, { Decoder.Init [0x34, 0x12] Endian.LittleEndian with pos := 2 }) ∧
    Decoder.Int32 (Decoder.Init [0xff, 0xff, 0xff, 0xfe] Endian.BigEndian) =
      Res.ok (-2, { Decoder.Init [0xff, 0xff, 0xff, 0xfe] Endian.BigEndian with pos := 4 }) :=
  ⟨by decide,
   ((fixed_width_roundtrip Endian.LittleEndian).2.2.1 0x1234 (by decide)).2
     (Decoder.Init [0x34, 0x12] Endian.LittleEndian) [] [] rfl (by decide) (by decide),
   ((fixed_width_roundtrip Endian.BigEndian).2.2.2.2.2.1 (-2) (by decide) (by decide)).2
     (Decoder.Init [0xff, 0xff, 0xff, 0xfe] Endian.BigEndian) [] [] rfl (by decide) (by decide)⟩

/-- C7: for every string `s` (a byte sequence shorter than `2^63`), in an
encoder with room `Encoder.String` writes `uvarint(len s)` followed by the raw
bytes of `s` ("abc" as 0x03, 0x61, 0x62, 0x63), and `Decoder.String` on those
bytes returns `s` and consumes exactly them. -/
theorem string_roundtrip (en : Endian) (s : List Nat) (hs : s.length < 2 ^ 63) :
    WritesAndReadsBack (fun e => Encoder.String e s) Decoder.String en
      (uvarintBytes (SizeofUvarint s.length - 1) s.length ++ s) s ∧
    uvarintBytes (SizeofUvarint 3 - 1) 3 ++ [0x61, 0x62, 0x63] = [0x03, 0x61, 0x62, 0x63] :=
  ⟨String_rt en s hs, by decide⟩

/-- Witness of C7 on "abc" in a 4-byte encoder. -/
theorem string_roundtrip_witness :
    Encoder.String (NewEncoderEndian 4 DefaultEndian) [0x61, 0x62, 0x63] =
      (none, { NewEncoderEndian 4 DefaultEndian with pos := 4, buff := [0x03, 0x61, 0x62, 0x63] }) ∧
    Decoder.String (Decoder.Init [0x03, 0x61, 0x62, 0x63] DefaultEndian) =
      Res.ok ([0x61, 0x62, 0x63],
        { Decoder.Init [0x03, 0x61, 0x62, 0x63] DefaultEndian with pos := 4 }) :=
  ⟨(string_roundtrip DefaultEndian [0x61, 0x62, 0x63] (by decide)).1.1
      (NewEncoderEndian 4 DefaultEndian) rfl (by decide),
   (string_roundtrip DefaultEndian [0x61, 0x62, 0x63] (by decide)).1.2
      (Decoder.Init [0x03, 0x61, 0x62, 0x63] DefaultEndian) [] [] rfl (by decide) (by decide)⟩

/-- C10: from a reset accumulator and with room, `k` consecutive `Encoder.Bool`
writes succeed and occupy exactly `ceil(k/8)` bytes at the former cursor (after
`j` of them the cursor has advanced by `ceil(j/8)`, so a byte is reserved at
writes 0, 8, 16, ...); bit `i mod 8` of byte `i div 8` of the run is 1 exactly
when boolean `i` is true, every other bit of the run is 0, and the bytes outside
the run are untouched. -/
theorem bool_run_packed (e : Encoder) (bs : List bool) (hreset : e.boolBit = 0)
    (hroom : e.pos + (bs.length + 7) / 8 ≤ e.buff.length) :
    (Encoder.boolRun e bs).1 = none ∧
    (Encoder.boolRun e bs).2.pos = e.pos + (bs.length + 7) / 8 ∧
    (Encoder.boolRun e bs).2.buff = (e.splice (packBools bs)).buff ∧
    (packBools bs).length = (bs.length + 7) / 8 ∧
    (∀ i, i < bs.length →
      ((Encoder.boolRun e bs).2.buff.getD (e.pos + i / 8) 0).testBit (i % 8)
        = bs.getD i false) ∧
    (∀ i, bs.length ≤ i → i < 8 * ((bs.length + 7) / 8) →
      ((Encoder.boolRun e bs).2.buff.getD (e.pos + i / 8) 0).testBit (i % 8) = false) ∧
    (∀ j, j ≤ bs.length →
      (Encoder.boolRun e (bs.take j)).2.pos = e.pos + (j + 7) / 8) := by
  have hsim : ∀ cs : List bool, e.pos + (cs.length + 7) / 8 ≤ e.buff.length →
      Encoder.boolRun e cs = (none, runState e (packBools cs) (cs.length % 8)
        (if cs = [] then e.boolPos else e.pos + (packBools cs).length - 1)) := by
    intro cs hcs
    have h := boolRun_sim e cs [] [] e.boolPos
      ⟨rfl, by intro q r _; simp, by intro q; simp⟩ (by simp) (by simpa using hcs)
    simp only [List.length_nil, Nat.zero_mod, Nat.zero_add] at h
    rw [runState_start e hreset] at h
    exact h
  have hp := packBools_PackedBits bs
  have hw := PackedBits_window _ _ hp
  have hlen := hp.1
  rw [hsim bs hroom]
  refine ⟨rfl, by simp only [runState, hlen], rfl, hlen, ?_, ?_, ?_⟩
  · intro i hi
    simp only [runState]
    rw [splice_getD e (packBools bs) (i / 8) (by omega) (by omega)]
    exact hw.1 i hi
  · intro i hi hi2
    simp only [runState]
    rw [splice_getD e (packBools bs) (i / 8) (by omega) (by omega)]
    exact hw.2 i hi
  · intro j hj
    have hl : (bs.take j).length = j := by simp; omega
    rw [hsim (bs.take j) (by rw [hl]; omega)]
    simp only [runState, (packBools_PackedBits (bs.take j)).1, hl]

/-- Witness of C10: nine booleans in a zeroed 4-byte encoder take two bytes,
`0x61, 0x01`. -/
theorem bool_run_packed_witness :
    (Encoder.boolRun (NewEncoderEndian 4 DefaultEndian)
        [true, false, false, false, false, true, true, false, true]).2.buff
      = [0x61, 0x01, 0, 0] ∧
    (Encoder.boolRun (NewEncoderEndian 4 DefaultEndian)
        [true, false, false, false, false, true, true, false, true]).2.pos
      = (NewEncoderEndian 4 DefaultEndian).pos + (9 + 7) / 8 :=
  ⟨by decide,
   (bool_run_packed (NewEncoderEndian 4 DefaultEndian)
      [true, false, false, false, false, true, true, false, true] rfl (by decide)).2.1⟩

/-- C8: for every list of booleans `bs` and an encoder with room, the fast path
for `[]bool` and the reflective `Encoder.boolArray` (on a slice and on an array)
both write `uvarint(len bs)` followed by exactly `ceil(len bs / 8)` bytes, in
which bit `i mod 8` of byte `i div 8` is 1 exactly when `bs[i]` is true and every
other bit is 0; `{T,F,F,F,F,T,T,F,T}` encodes as 0x09, 0x61, 0x01. -/
theorem bool_array_encoding (e : Encoder) (bs : List bool) (n : Nat)
    (hlen : bs.length < 2 ^ 63)
    (hroom : e.pos + (SizeofUvarint bs.length + (bs.length + 7) / 8) ≤ e.buff.length) :
    Encoder.fastValue e (GoType.slice GoType.bool) (Data.seq (boolData bs)) =
      (true, none,
        e.splice (uvarintBytes (SizeofUvarint bs.length - 1) bs.length ++ packBools bs)) ∧
    Encoder.boolArray e (GoType.slice GoType.bool) (Data.seq (boolData bs)) =
      Res.ok (((SizeofUvarint bs.length + (bs.length + 7) / 8 : Nat) : Int),
        e.splice (uvarintBytes (SizeofUvarint bs.length - 1) bs.length ++ packBools bs)) ∧
    Encoder.boolArray e (GoType.array n GoType.bool) (Data.seq (boolData bs)) =
      Res.ok (((SizeofUvarint bs.length + (bs.length + 7) / 8 : Nat) : Int),
        e.splice (uvarintBytes (SizeofUvarint bs.length - 1) bs.length ++ packBools bs)) ∧
    (packBools bs).length = (bs.length + 7) / 8 ∧
    (∀ i, i < bs.length →
      ((packBools bs).getD (i / 8) 0).testBit (i % 8) = bs.getD i false) ∧
    (∀ i, bs.length ≤ i → ((packBools bs).getD (i / 8) 0).testBit (i % 8) = false) ∧
    uvarintBytes (SizeofUvarint 9 - 1) 9 ++
        packBools [true, false, false, false, false, true, true, false, true]
      = [0x09, 0x61, 0x01] := by
  have hrun := boolLoops_run e bs hroom
  have hp := packBools_PackedBits bs
  have hw := PackedBits_window _ _ hp
  have hsz := sizeofBoolArray_nat bs.length hlen
  have hu := Encoder_Uvarint_splice e bs.length (by omega)
  simp only [hu] at hrun
  refine ⟨?_, ?_, ?_, hp.1, hw.1, hw.2, by decide⟩
  · simp only [Encoder.fastValue, Data.elems, boolData_length, hu, hrun.1]
  · simp only [Encoder.boolArray, Data.elems, boolData_length, hu, hrun.2, hsz]
  · simp only [Encoder.boolArray, Data.elems, boolData_length, hu, hrun.2, hsz]

/-- Witness of C8: the nine booleans of the test in a zeroed 3-byte encoder. -/
theorem bool_array_encoding_witness :
    Encoder.fastValue (NewEncoderEndian 3 DefaultEndian) (GoType.slice GoType.bool)
        (Data.seq (boolData [true, false, false, false, false, true, true, false, true])) =
      (true, none,
        { NewEncoderEndian 3 DefaultEndian with pos := 3, buff := [0x09, 0x61, 0x01] }) ∧
    Encoder.boolArray (NewEncoderEndian 3 DefaultEndian) (GoType.array 9 GoType.bool)
        (Data.seq (boolData [true, false, false, false, false, true, true, false, true])) =
      Res.ok (3, { NewEncoderEndian 3 DefaultEndian with pos := 3, buff := [0x09, 0x61, 0x01] }) :=
  ⟨(bool_array_encoding (NewEncoderEndian 3 DefaultEndian)
      [true, false, false, false, false, true, true, false, true] 9 (by decide) (by decide)).1,
   (bool_array_encoding (NewEncoderEndian 3 DefaultEndian)
      [true, false, false, false, false, true, true, false, true] 9 (by decide)
      (by decide)).2.2.1⟩

/-- C9 (evaluation at a failing input): the bool-array encoder writes the single
byte `00` for the empty list. Decoding `00` through the reflective
`Decoder.boolArray` into a `[]bool` that holds `true` returns 1 and leaves `true`
in the slice, and so does `Decoder.Value` into a record whose field is such a
slice; the `*[]bool` fast path on the same bytes leaves the destination
empty. -/
theorem bool_array_decode_empty_keeps_slice :
    Encoder.boolArray (NewEncoderEndian 1 DefaultEndian) (GoType.slice GoType.bool)
        (Data.seq (boolData [])) =
      Res.ok (1, { NewEncoderEndian 1 DefaultEndian with pos := 1, buff := [0x00] }) ∧
    Decoder.boolArray (Decoder.Init [0x00] DefaultEndian) (GoType.slice GoType.bool)
        (Data.seq (boolData [true])) =
      Res.ok (1, Data.seq (boolData [true]),
        { Decoder.Init [0x00] DefaultEndian with pos := 1 }) ∧
    Decoder.Value (Decoder.Init [0x00] DefaultEndian) noCapabilities
        (GoType.ptr (GoType.struct
          (FieldList.cons "Flags" false false (GoType.slice GoType.bool) FieldList.nil)))
        (Data.ptr (Data.seq (DataList.ofList [Data.seq (boolData [true])]))) =
      Res.ok (none,
        some (Data.ptr (Data.seq (DataList.ofList [Data.seq (boolData [true])])),
        { Decoder.Init [0x00] DefaultEndian with pos := 1 })) ∧
    Decoder.Value (Decoder.Init [0x00] DefaultEndian) noCapabilities
        (GoType.ptr (GoType.slice GoType.bool)) (Data.ptr (Data.seq (boolData [true]))) =
      Res.ok (none, some (Data.ptr (Data.seq (boolData [])),
        { Decoder.Init [0x00] DefaultEndian with pos := 1 })) := by
  refine ⟨by decide, by decide, by decide, by decide⟩

/-- C11 (evaluation at a failing input): the booleans `false, true` written with
`Encoder.Bool` from a reset accumulator occupy the single byte `0x02`; the first
`Decoder.Bool` on that byte consumes it whole and returns `true`, and the second
finds no byte left and aborts. -/
theorem bool_run_decode_mismatch :
    Encoder.boolRun (NewEncoderEndian 1 DefaultEndian) [false, true] =
      (none, { NewEncoderEndian 1 DefaultEndian with
        pos := 1, buff := [0x02], boolBit := 2, boolPos := 0 }) ∧
    Decoder.Bool (Decoder.Init [0x02] DefaultEndian) =
      Res.ok (true, { Decoder.Init [0x02] DefaultEndian with pos := 1 }) ∧
    Decoder.Bool { Decoder.Init [0x02] DefaultEndian with pos := 1 } =
      Res.panic Err.buffOverflow := by
  refine ⟨by decide, by decide, by decide⟩

/-- C13 (evaluation at a failing input): the generic encoder on
`[]*int32{nil, nil}` in a zeroed 3-byte buffer writes `02 00`: the presence
flags of the two nil elements are bits 0 and 1 of one byte, not one zero byte
each, and the position is 2, not 3. `Decoder.Value` of `02 00` into a
`*[]*int32` reads no presence flag at all: it looks for an `int32` after the
length and returns the buffer error. -/
theorem nil_pointer_flags_share_byte :
    Encoder.Value (NewEncoderEndian 3 DefaultEndian) (GoType.slice (GoType.ptr GoType.int32))
        (Data.seq (DataList.ofList [Data.nilPtr, Data.nilPtr])) =
      Res.ok (none, { NewEncoderEndian 3 DefaultEndian with
        pos := 2, buff := [0x02, 0x00, 0x00], boolBit := 2, boolPos := 1 }) ∧
    Decoder.Value (Decoder.Init [0x02, 0x00] DefaultEndian) noCapabilities
        (GoType.ptr (GoType.slice (GoType.ptr GoType.int32)))
        (Data.ptr (Data.seq DataList.nil)) =
      Res.ok (some Err.buffOverflow, none) := by
  refine ⟨by decide, by decide⟩

/-- C14 (counterexample): for `p` of type `*float32` pointing to the signalling
NaN with the bit pattern `0x7fa00000`, `Encoder.Value(p)` takes the generic path,
whose `float32(v.Float())` sets the quiet bit, and writes `00 00 e0 7f`, while
`Encoder.Value(*p)` takes the fast path and writes `00 00 a0 7f`. -/
theorem value_pointer_float32_nan_differs :
    Encoder.Value (NewEncoderEndian 4 DefaultEndian) (GoType.ptr GoType.float32)
        (Data.ptr (Data.float 0x7fa00000)) =
      Res.ok (none, { NewEncoderEndian 4 DefaultEndian with
        pos := 4, buff := [0x00, 0x00, 0xe0, 0x7f] }) ∧
    Encoder.Value (NewEncoderEndian 4 DefaultEndian) GoType.float32 (Data.float 0x7fa00000) =
      Res.ok (none, { NewEncoderEndian 4 DefaultEndian with
        pos := 4, buff := [0x00, 0x00, 0xa0, 0x7f] }) := by
  refine ⟨by decide, by decide⟩

/-- C14 (amended): for a non-nil pointer `p` to a value `x` of a type `T` that is
not itself a pointer type, where no `float32` and no part of a `complex64` held
by `x` (or by its elements, for a slice) is a signalling NaN, `Encoder.Value(p)`
runs the generic encoder on the referent from the reset accumulator, with no
presence flag for `p`; whenever it returns, `Encoder.Value(*p)` returns with the
encoder in the same state (the same bytes are written and the cursor is the
same); and for a fast-path type `T` and a buffer with room for the `fastSize T x`
bytes of the encoding both calls return no error and the same state. -/
theorem value_pointer_same_bytes (e : Encoder) (T : GoType) (x : Data)
    (hT : T.isPtr = false) (hx : x.hasType T = true) (hq : noSignallingNaN T x = true) :
    Encoder.Value e (GoType.ptr T) (Data.ptr x) =
      Encoder.value (coder.resetBoolCoder e) T x false ∧
    (∀ (err : Option Err) (e1 : Encoder),
      Encoder.Value e (GoType.ptr T) (Data.ptr x) = Res.ok (err, e1) →
      ∃ err2, Encoder.Value e T x = Res.ok (err2, e1)) ∧
    (isFastType T = true →
      (coder.resetBoolCoder e).pos + fastSize T x ≤ (coder.resetBoolCoder e).buff.length →
      ∃ e1, Encoder.Value e (GoType.ptr T) (Data.ptr x) = Res.ok (none, e1) ∧
        Encoder.Value e T x = Res.ok (none, e1)) := by
  have hp : Encoder.Value e (GoType.ptr T) (Data.ptr x) =
      Encoder.value (coder.resetBoolCoder e) T x false := rfl
  have hflag := fastValue_flag (coder.resetBoolCoder e) T x
  refine ⟨hp, ?_, ?_⟩
  · intro err e1 h
    rw [hp] at h
    by_cases hf : isFastType T = true
    · have hs := fastValue_value_state (coder.resetBoolCoder e) T x hx hq hf err e1 h
      refine ⟨(Encoder.fastValue (coder.resetBoolCoder e) T x).2.1, ?_⟩
      unfold Encoder.Value Encoder.ValueX
      rcases hfv : Encoder.fastValue (coder.resetBoolCoder e) T x with ⟨b, err1, e3⟩
      rw [hfv, hf] at hflag
      rw [hfv] at hs
      simp only at hflag hs
      subst hflag
      simp only [hfv, hs]
    · refine ⟨err, ?_⟩
      unfold Encoder.Value Encoder.ValueX
      rcases hfv : Encoder.fastValue (coder.resetBoolCoder e) T x with ⟨b, err1, e3⟩
      rw [hfv] at hflag
      simp only [Bool.not_eq_true] at hf
      rw [hf] at hflag
      simp only at hflag
      subst hflag
      simp only [hfv]
      cases T <;> first | exact h | exact Bool.noConfusion hT
  · intro hf hroom
    obtain ⟨hv, herr⟩ := fastValue_generic_room (coder.resetBoolCoder e) T x hf hx hq hroom
    refine ⟨(Encoder.fastValue (coder.resetBoolCoder e) T x).2.2, by rw [hp, hv], ?_⟩
    unfold Encoder.Value Encoder.ValueX
    rcases hfv : Encoder.fastValue (coder.resetBoolCoder e) T x with ⟨b, err1, e3⟩
    rw [hfv, hf] at hflag
    rw [hfv] at herr
    simp only at hflag herr
    subst hflag
    simp only [hfv, herr]

/-- Witness of C14 (amended): a `*string` to "hello" encodes as `05` followed by
the five letters, as the string itself does. -/
theorem value_pointer_same_bytes_witness :
    GoType.string.isPtr = false ∧
    (Data.string [0x68, 0x65, 0x6c, 0x6c, 0x6f]).hasType GoType.string = true ∧
    noSignallingNaN GoType.string (Data.string [0x68, 0x65, 0x6c, 0x6c, 0x6f]) = true ∧
    Encoder.Value (NewEncoderEndian 6 DefaultEndian) (GoType.ptr GoType.string)
        (Data.ptr (Data.string [0x68, 0x65, 0x6c, 0x6c, 0x6f])) =
      Res.ok (none, { NewEncoderEndian 6 DefaultEndian with
        pos := 6, buff := [0x05, 0x68, 0x65, 0x6c, 0x6c, 0x6f] }) ∧
    ∃ err2, Encoder.Value (NewEncoderEndian 6 DefaultEndian) GoType.string
        (Data.string [0x68, 0x65, 0x6c, 0x6c, 0x6f]) =
      Res.ok (err2, { NewEncoderEndian 6 DefaultEndian with
        pos := 6, buff := [0x05, 0x68, 0x65, 0x6c, 0x6c, 0x6f] }) :=
  ⟨by decide, by decide, by decide, by decide,
   (value_pointer_same_bytes (NewEncoderEndian 6 DefaultEndian) GoType.string
      (Data.string [0x68, 0x65, 0x6c, 0x6c, 0x6f]) (by decide) (by decide)
      (by decide)).2.1 none _ (by decide)⟩

/-- C15 (evaluation at a failing input): the `Slice` value of the tests, three
non-nil `*littleStruct`, is encoded as `03 07` followed by the three records:
the byte after the length holds the three presence flags. The tests expect `03`
followed directly by the three records. -/
theorem slice_of_pointers_flags :
    Encoder.Value (NewEncoderEndian 21 DefaultEndian)
        (GoType.slice (GoType.ptr (GoType.struct
          (FieldList.cons "String" false false GoType.string
            (FieldList.cons "Int16" false false GoType.int16 FieldList.nil)))))
        (Data.seq (DataList.ofList [
          Data.ptr (Data.seq (DataList.ofList [Data.string [0x61, 0x62, 0x63], Data.int 0x1122])),
          Data.ptr (Data.seq (DataList.ofList [Data.string [0x62, 0x63, 0x64], Data.int 0x2233])),
          Data.ptr (Data.seq (DataList.ofList
            [Data.string [0x63, 0x64, 0x65, 0x66], Data.int 0x3344]))])) =
      Res.ok (none, { NewEncoderEndian 21 DefaultEndian with
        pos := 21,
        buff := [0x03, 0x07, 0x03, 0x61, 0x62, 0x63, 0x22, 0x11, 0x03, 0x62, 0x63, 0x64,
          0x33, 0x22, 0x04, 0x63, 0x64, 0x65, 0x66, 0x44, 0x33],
        boolBit := 3, boolPos := 1 }) ∧
    [0x03, 0x07, 0x03, 0x61, 0x62, 0x63, 0x22, 0x11, 0x03, 0x62, 0x63, 0x64,
        0x33, 0x22, 0x04, 0x63, 0x64, 0x65, 0x66, 0x44, 0x33] ≠
      [0x03, 0x03, 0x61, 0x62, 0x63, 0x22, 0x11, 0x03, 0x62, 0x63, 0x64,
        0x33, 0x22, 0x04, 0x63, 0x64, 0x65, 0x66, 0x44, 0x33] := by
  refine ⟨by decide, by decide⟩

/-- C16: decoding into a nil destination of pointer type points it at a new
zero value of the element type and decodes the encoded value into that
referent from the same input position, reading no presence byte. For every
scalar type `T` (integers, floats, complex numbers, booleans, strings) and every
value `x` of type `T` (no `float32` part a signalling NaN, which the generic
paths quieten), with `scalarBytes` the bytes the generic encoder writes for `x`
alone: on a decoder positioned at a copy of these bytes, decoding into a nil
`*T` returns no error, leaves the destination a non-nil pointer to `x`, and
advances by exactly the length of these bytes. For every element type the
decoder on a nil pointer is the decoder of the referent on the zero value. As
in the test data, `03 03 61 62 63 03 64 65 66 06 67 68 69 6a 6b 6c` decodes
into a nil `*[]*string` as a pointer to three non-nil pointers to "abc", "def"
and "ghijkl", and `44 33 22 11` into a record whose only field is a nil `*int32`
as that record with the field pointing to `0x11223344`. -/
theorem decode_nil_pointer_inline (T : GoType) (x : Data) (e : Encoder) (d : Decoder)
    (pre rest : List Nat)
    (hT : isFastScalar T = true) (hx : x.hasType T = true) (hq : quiet32 T x = true)
    (hlen : x.bytes.length < 2 ^ 63) (hrun : e.boolBit = 0)
    (hroom : e.pos + (scalarBytes e.endian T x).length ≤ e.buff.length)
    (hen : d.endian = e.endian)
    (hb : d.buff = pre ++ scalarBytes e.endian T x ++ rest) (hp : d.pos = pre.length) :
    (∃ e2, Encoder.value e T x false = Res.ok (none, e2) ∧
      e2.pos = e.pos + (scalarBytes e.endian T x).length ∧
      e2.buff = e.buff.take e.pos ++ scalarBytes e.endian T x ++
        e.buff.drop (e.pos + (scalarBytes e.endian T x).length)) ∧
    newPtr (GoType.ptr T) Data.nilPtr = (true, zeroValue T) ∧
    Decoder.value (GoType.ptr T) Data.nilPtr d =
      Res.ok (none, Data.ptr x,
        { d with pos := d.pos + (scalarBytes e.endian T x).length }) ∧
    (∀ (elemT : GoType) (d1 : Decoder),
      Decoder.value (GoType.ptr elemT) Data.nilPtr d1 =
        (match Decoder.value elemT (zeroValue elemT) d1 with
          | Res.panic err => Res.panic err
          | Res.ok (err, x1, d2) => Res.ok (err, Data.ptr x1, d2))) ∧
    Decoder.value (GoType.ptr (GoType.slice (GoType.ptr GoType.string))) Data.nilPtr
        (Decoder.Init [0x03, 0x03, 0x61, 0x62, 0x63, 0x03, 0x64, 0x65, 0x66,
          0x06, 0x67, 0x68, 0x69, 0x6a, 0x6b, 0x6c] DefaultEndian) =
      Res.ok (none,
        Data.ptr (Data.seq (DataList.ofList [
          Data.ptr (Data.string [0x61, 0x62, 0x63]),
          Data.ptr (Data.string [0x64, 0x65, 0x66]),
          Data.ptr (Data.string [0x67, 0x68, 0x69, 0x6a, 0x6b, 0x6c])])),
        { Decoder.Init [0x03, 0x03, 0x61, 0x62, 0x63, 0x03, 0x64, 0x65, 0x66,
          0x06, 0x67, 0x68, 0x69, 0x6a, 0x6b, 0x6c] DefaultEndian with pos := 16 }) ∧
    Decoder.value
        (GoType.struct (FieldList.cons "PInt32" false false (GoType.ptr GoType.int32)
          FieldList.nil))
        (Data.seq (DataList.ofList [Data.nilPtr]))
        (Decoder.Init [0x44, 0x33, 0x22, 0x11] DefaultEndian) =
      Res.ok (none, Data.seq (DataList.ofList [Data.ptr (Data.int 0x11223344)]),
        { Decoder.Init [0x44, 0x33, 0x22, 0x11] DefaultEndian with pos := 4 }) := by
  have hrt := scalar_roundtrip e.endian T x hT hx hq hlen
  have heq : ∀ (elemT : GoType) (d1 : Decoder),
      Decoder.value (GoType.ptr elemT) Data.nilPtr d1 =
        (match Decoder.value elemT (zeroValue elemT) d1 with
          | Res.panic err => Res.panic err
          | Res.ok (err, x1, d2) => Res.ok (err, Data.ptr x1, d2)) := fun _ _ => rfl
  refine ⟨hrt.1 e rfl hrun hroom, rfl, ?_, heq, by decide, by decide⟩
  rw [heq T d, hrt.2 d (zeroValue T) pre rest hen hb hp]

/-- Witness of C16: `int32` and `0x11223344`, written into a zeroed 4-byte
encoder as `44 33 22 11`; the decoder over these bytes with a nil `*int32`
destination leaves a pointer to `0x11223344` and the cursor at 4. -/
theorem decode_nil_pointer_inline_witness :
    isFastScalar GoType.int32 = true ∧
    (Data.int 0x11223344).hasType GoType.int32 = true ∧
    scalarBytes DefaultEndian GoType.int32 (Data.int 0x11223344) = [0x44, 0x33, 0x22, 0x11] ∧
    Encoder.value (NewEncoderEndian 4 DefaultEndian) GoType.int32 (Data.int 0x11223344) false =
      Res.ok (none, { NewEncoderEndian 4 DefaultEndian with
        pos := 4, buff := [0x44, 0x33, 0x22, 0x11] }) ∧
    Decoder.value (GoType.ptr GoType.int32) Data.nilPtr
        (Decoder.Init [0x44, 0x33, 0x22, 0x11] DefaultEndian) =
      Res.ok (none, Data.ptr (Data.int 0x11223344),
        { Decoder.Init [0x44, 0x33, 0x22, 0x11] DefaultEndian with
          pos := (Decoder.Init [0x44, 0x33, 0x22, 0x11] DefaultEndian).pos +
            (scalarBytes (NewEncoderEndian 4 DefaultEndian).endian GoType.int32
              (Data.int 0x11223344)).length }) :=
  ⟨by decide, by decide, by decide, by decide,
   (decode_nil_pointer_inline GoType.int32 (Data.int 0x11223344)
      (NewEncoderEndian 4 DefaultEndian) (Decoder.Init [0x44, 0x33, 0x22, 0x11] DefaultEndian)
      [] [] (by decide) (by decide) (by decide) (by decide) (by decide) (by decide)
      (by decide) (by decide) (by decide)).2.2.1⟩

/-- C17 (evaluation at a failing input): the record of `TestStruct` (`A`, `b`,
`_` and an ignore-tagged `C`, all
`uint32`) encodes as `44 33 22 11`, and decoding those bytes sets `A` and leaves
the other three fields as they were. A record of two boolean fields `A = false`,
`B = true` encodes as the single byte `02` (both flags packed in one byte), and
decoding `02` into such a record fails with a buffer overflow when it reaches
`B`: the encoded field `B` is never set. -/
theorem struct_fields_bool_pair :
    Encoder.Value (NewEncoderEndian 4 DefaultEndian)
        (GoType.struct (FieldList.cons "A" false false GoType.uint32
          (FieldList.cons "b" false false GoType.uint32
          (FieldList.cons "_" false false GoType.uint32
          (FieldList.cons "C" true false GoType.uint32 FieldList.nil)))))
        (Data.seq (DataList.ofList [Data.uint 0x11223344, Data.uint 0x22334455, Data.uint 0,
          Data.uint 0x33445566])) =
      Res.ok (none, { NewEncoderEndian 4 DefaultEndian with
        pos := 4, buff := [0x44, 0x33, 0x22, 0x11] }) ∧
    Decoder.Value (Decoder.Init [0x44, 0x33, 0x22, 0x11] DefaultEndian) noCapabilities
        (GoType.ptr (GoType.struct (FieldList.cons "A" false false GoType.uint32
          (FieldList.cons "b" false false GoType.uint32
          (FieldList.cons "_" false false GoType.uint32
          (FieldList.cons "C" true false GoType.uint32 FieldList.nil))))))
        (Data.ptr (Data.seq (DataList.ofList [Data.uint 0, Data.uint 7, Data.uint 8,
          Data.uint 9]))) =
      Res.ok (none, some (Data.ptr (Data.seq (DataList.ofList [Data.uint 0x11223344, Data.uint 7,
          Data.uint 8, Data.uint 9])),
        { Decoder.Init [0x44, 0x33, 0x22, 0x11] DefaultEndian with pos := 4 })) ∧
    Encoder.Value (NewEncoderEndian 2 DefaultEndian)
        (GoType.struct (FieldList.cons "A" false false GoType.bool
          (FieldList.cons "B" false false GoType.bool FieldList.nil)))
        (Data.seq (DataList.ofList [Data.bool false, Data.bool true])) =
      Res.ok (none, { NewEncoderEndian 2 DefaultEndian with
        pos := 1, buff := [0x02, 0x00], boolBit := 2, boolPos := 0 }) ∧
    Decoder.Value (Decoder.Init [0x02] DefaultEndian) noCapabilities
        (GoType.ptr (GoType.struct (FieldList.cons "A" false false GoType.bool
          (FieldList.cons "B" false false GoType.bool FieldList.nil))))
        (Data.ptr (Data.seq (DataList.ofList [Data.bool false, Data.bool false]))) =
      Res.ok (some Err.buffOverflow, none) := by
  refine ⟨by decide, by decide, by decide, by decide⟩

/-- C18 (evaluation at a failing input): the one-entry map
`map[string]*littleStruct{"a": &{"a", 0x1122}}` is encoded as
`01 01 61 01 01 61 22 11` (count, key, presence flag, record), and decoding those
bytes into a nil map returns no error and yields `{"a": &{"\x01", 0x2261}}` with
one byte unread. -/
theorem map_roundtrip_pointer_value :
    Encoder.Value (NewEncoderEndian 8 DefaultEndian)
        (GoType.map GoType.string (GoType.ptr (GoType.struct
          (FieldList.cons "String" false false GoType.string
            (FieldList.cons "Int16" false false GoType.int16 FieldList.nil)))))
        (Data.map (EntryList.cons (Data.string [0x61])
          (Data.ptr (Data.seq (DataList.ofList [Data.string [0x61], Data.int 0x1122])))
          EntryList.nil)) =
      Res.ok (none, { NewEncoderEndian 8 DefaultEndian with
        pos := 8, buff := [0x01, 0x01, 0x61, 0x01, 0x01, 0x61, 0x22, 0x11],
        boolBit := 1, boolPos := 3 }) ∧
    Decoder.Value (Decoder.Init [0x01, 0x01, 0x61, 0x01, 0x01, 0x61, 0x22, 0x11] DefaultEndian) noCapabilities
        (GoType.ptr (GoType.map GoType.string (GoType.ptr (GoType.struct
          (FieldList.cons "String" false false GoType.string
            (FieldList.cons "Int16" false false GoType.int16 FieldList.nil))))))
        (Data.ptr (Data.map EntryList.nil)) =
      Res.ok (none, some (Data.ptr (Data.map (EntryList.cons (Data.string [0x61])
          (Data.ptr (Data.seq (DataList.ofList [Data.string [0x01], Data.int 0x2261])))
          EntryList.nil)),
        { Decoder.Init [0x01, 0x01, 0x61, 0x01, 0x01, 0x61, 0x22, 0x11] DefaultEndian
            with pos := 7 })) := by
  refine ⟨by decide, by decide⟩

/-- C19 (evaluation at a failing input): decoding the encoding `00` of an empty
sequence through the reflective path into a `[][]int32` that holds one element
returns no error and leaves that element in place, while the fast path on a
`[]int32` that holds one element leaves it empty. -/
theorem decode_empty_keeps_slice :
    Decoder.Value (Decoder.Init [0x00] DefaultEndian) noCapabilities
        (GoType.ptr (GoType.slice (GoType.slice GoType.int32)))
        (Data.ptr (Data.seq (DataList.ofList [Data.seq (DataList.ofList [Data.int 7])]))) =
      Res.ok (none,
        some (Data.ptr (Data.seq (DataList.ofList [Data.seq (DataList.ofList [Data.int 7])])),
        { Decoder.Init [0x00] DefaultEndian with pos := 1 })) ∧
    Decoder.Value (Decoder.Init [0x00] DefaultEndian) noCapabilities
        (GoType.ptr (GoType.slice GoType.int32))
        (Data.ptr (Data.seq (DataList.ofList [Data.int 7]))) =
      Res.ok (none, some (Data.ptr (Data.seq DataList.nil),
        { Decoder.Init [0x00] DefaultEndian with pos := 1 })) := by
  refine ⟨by decide, by decide⟩

/-- C20 (counterexample): decoding `01 01 61 66 55` (one entry, "a" ↦ 0x5566)
into a `map[string]uint16` destination that holds "z" ↦ 9 returns no error and
leaves both entries in the map: the entry present before survives. -/
theorem decode_map_keeps_old_entry :
    Decoder.Value (Decoder.Init [0x01, 0x01, 0x61, 0x66, 0x55] DefaultEndian) noCapabilities
        (GoType.ptr (GoType.map GoType.string GoType.uint16))
        (Data.ptr (Data.map (EntryList.cons (Data.string [0x7a]) (Data.uint 9)
          EntryList.nil))) =
      Res.ok (none, some (Data.ptr (Data.map
        (EntryList.cons (Data.string [0x7a]) (Data.uint 9)
          (EntryList.cons (Data.string [0x61]) (Data.uint 0x5566) EntryList.nil))),
        { Decoder.Init [0x01, 0x01, 0x61, 0x66, 0x55] DefaultEndian with pos := 5 })) := by
  decide

/-- C20 (amended): decoding a map encoding into a map destination of supported
key and value types stores every decoded entry into the destination's own map
with `SetMapIndex` (only a nil destination gets a new map). With `ps` the pairs
decoded in order from the input, the map afterwards is the map before with
every pair of `ps` set in turn: a key of `ps` holds the value decoded last for
it, replacing the value of an equal key, every other key holds what it held
before, and every key present before decoding is still present afterwards. -/
theorem decode_map_reuses_destination (kt vt : GoType) (kvs : EntryList) (d : Decoder)
    (hk : validUserType kt = true) (hv : validUserType vt = true) :
    Decoder.value (GoType.map kt vt) (Data.map kvs) d =
      (match Decoder.Uvarint d with
        | Res.panic err => Res.panic err
        | Res.ok ((s, _), d1) =>
          match Decoder.readEntries (fun x dd => Decoder.value kt x dd)
              (fun x dd => Decoder.value vt x dd) (zeroValue kt) (zeroValue vt)
              (toSigned 64 s).toNat d1 with
          | Res.panic err => Res.panic err
          | Res.ok (ps, d2) => Res.ok (none, Data.map (kvs.setAll ps), d2)) ∧
    (∀ (ps : List (Data × Data)) (k : Data),
      (kvs.setAll ps).lookup k =
        (match lastValue ps k with
          | some v => some v
          | none => kvs.lookup k)) ∧
    (∀ (ps : List (Data × Data)) (k v : Data),
      ((kvs.setAll ps).set k v).lookup k = some v ∧
      ∀ k1, k ≠ k1 → ((kvs.setAll ps).set k v).lookup k1 = (kvs.setAll ps).lookup k1) ∧
    (∀ (ps : List (Data × Data)) (k0 : Data),
      (kvs.lookup k0).isSome = true → ((kvs.setAll ps).lookup k0).isSome = true) := by
  have h0 : Decoder.value (GoType.map kt vt) (Data.map kvs) d =
      if !validUserType kt || !validUserType vt then
        Res.ok (some Err.unsupportedType, Data.map kvs, d)
      else
        (match Decoder.Uvarint d with
        | Res.panic err => Res.panic err
        | Res.ok ((s, _), d1) =>
          match Decoder.entryLoop (fun x dd => Decoder.value kt x dd)
              (fun x dd => Decoder.value vt x dd) (zeroValue kt) (zeroValue vt)
              (toSigned 64 s).toNat kvs d1 with
          | Res.panic err => Res.panic err
          | Res.ok (m1, d2) => Res.ok (none, Data.map m1, d2)) := rfl
  refine ⟨?_, fun ps k => lookup_setAll ps kvs k,
    fun ps k v => ⟨EntryList.lookup_set_self _ k v,
      fun k1 hne => EntryList.lookup_set_ne _ k v k1 hne⟩, ?_⟩
  · rw [h0, hk, hv]
    simp only [Bool.not_true, Bool.or_self, Bool.false_eq_true, if_false]
    cases hu : Decoder.Uvarint d with
    | panic perr => rfl
    | ok r =>
      obtain ⟨⟨s, n⟩, d1⟩ := r
      simp only
      rw [entryLoop_readEntries]
      cases Decoder.readEntries (fun x dd => Decoder.value kt x dd)
          (fun x dd => Decoder.value vt x dd) (zeroValue kt) (zeroValue vt)
          (toSigned 64 s).toNat d1 with
      | panic perr => rfl
      | ok r2 =>
        obtain ⟨ps, d2⟩ := r2
        rfl
  · intro ps k0 h
    rw [lookup_setAll ps kvs k0]
    cases lastValue ps k0 with
    | some v => rfl
    | none => exact h

/-- Witness of C20 (amended): a `map[string]uint16` destination holds "z" ↦ 9 and
"a" ↦ 1; decoding `02 01 61 66 55 01 62 07 00` (the entries "a" ↦ 0x5566 and
"b" ↦ 7) leaves "z" ↦ 9 in place, replaces the value of "a" and adds "b". -/
theorem decode_map_reuses_destination_witness :
    validUserType GoType.string = true ∧ validUserType GoType.uint16 = true ∧
    Decoder.value (GoType.map GoType.string GoType.uint16)
        (Data.map (EntryList.cons (Data.string [0x7a]) (Data.uint 9)
          (EntryList.cons (Data.string [0x61]) (Data.uint 1) EntryList.nil)))
        (Decoder.Init [0x02, 0x01, 0x61, 0x66, 0x55, 0x01, 0x62, 0x07, 0x00] DefaultEndian) =
      Res.ok (none,
        Data.map (EntryList.cons (Data.string [0x7a]) (Data.uint 9)
          (EntryList.cons (Data.string [0x61]) (Data.uint 0x5566)
            (EntryList.cons (Data.string [0x62]) (Data.uint 7) EntryList.nil))),
        { Decoder.Init [0x02, 0x01, 0x61, 0x66, 0x55, 0x01, 0x62, 0x07, 0x00] DefaultEndian
            with pos := 9 }) :=
  ⟨by decide, by decide,
   ((decode_map_reuses_destination GoType.string GoType.uint16
      (EntryList.cons (Data.string [0x7a]) (Data.uint 9)
        (EntryList.cons (Data.string [0x61]) (Data.uint 1) EntryList.nil))
      (Decoder.Init [0x02, 0x01, 0x61, 0x66, 0x55, 0x01, 0x62, 0x07, 0x00] DefaultEndian)
      (by decide) (by decide)).1).trans (by decide)⟩

/-- C21 (evaluation at a failing input): five encoded `int16` decoded into a
`[3]int16` give the first three elements and leave the cursor at the end of the
encoding (11). Five encoded booleans `05 1f` decoded into a `[3]bool` abort with
an index out of range at the fourth element instead of discarding it; five
encoded `*int32` (read inline) decoded into a `[3]*int32` give three elements
and leave the cursor at 13 of 21, since `skipByType` consumes nothing for a
pointer type. -/
theorem array_skip_bool_and_pointer :
    Decoder.value (GoType.array 3 GoType.int16)
        (Data.seq (DataList.ofList [Data.int 0, Data.int 0, Data.int 0]))
        (Decoder.Init [0x05, 1, 0, 2, 0, 3, 0, 4, 0, 5, 0] DefaultEndian) =
      Res.ok (none, Data.seq (DataList.ofList [Data.int 1, Data.int 2, Data.int 3]),
        { Decoder.Init [0x05, 1, 0, 2, 0, 3, 0, 4, 0, 5, 0] DefaultEndian with pos := 11 }) ∧
    Decoder.value (GoType.array 3 GoType.bool)
        (Data.seq (DataList.ofList [Data.bool false, Data.bool false, Data.bool false]))
        (Decoder.Init [0x05, 0x1f] DefaultEndian) =
      Res.panic Err.indexOutOfRange ∧
    Decoder.value (GoType.array 3 (GoType.ptr GoType.int32))
        (Data.seq (DataList.ofList [Data.nilPtr, Data.nilPtr, Data.nilPtr]))
        (Decoder.Init [0x05, 1, 0, 0, 0, 2, 0, 0, 0, 3, 0, 0, 0, 4, 0, 0, 0, 5, 0, 0, 0]
          DefaultEndian) =
      Res.ok (none,
        Data.seq (DataList.ofList [Data.ptr (Data.int 1), Data.ptr (Data.int 2),
          Data.ptr (Data.int 3)]),
        { Decoder.Init [0x05, 1, 0, 0, 0, 2, 0, 0, 0, 3, 0, 0, 0, 4, 0, 0, 0, 5, 0, 0, 0]
            DefaultEndian with pos := 13 }) ∧
    Decoder.skipByType (GoType.ptr GoType.int32)
        (Decoder.Init [4, 0, 0, 0, 5, 0, 0, 0] DefaultEndian) =
      Res.ok (-1, Decoder.Init [4, 0, 0, 0, 5, 0, 0, 0] DefaultEndian) := by
  refine ⟨by decide, by decide, by decide, by decide⟩

/-- C22 (evaluation at a failing input): `Encoder.ValueX` of the `uint32`
`0x11223344` on an encoder with no room returns a nil error and writes nothing
(the fast path drops the error of `Uint32`); of `[]int16{1, 2}` and of
`[2]int16{1, 2}` on a 3-byte encoder it returns a nil error after writing `02`
and the first element only. -/
theorem valuex_nil_error_without_room :
    Encoder.ValueX (NewEncoderEndian 0 DefaultEndian) GoType.uint32 (Data.uint 0x11223344) =
      Res.ok (none, NewEncoderEndian 0 DefaultEndian) ∧
    Encoder.ValueX (NewEncoderEndian 3 DefaultEndian) (GoType.slice GoType.int16)
        (Data.seq (DataList.ofList [Data.int 1, Data.int 2])) =
      Res.ok (none, { NewEncoderEndian 3 DefaultEndian with pos := 3, buff := [0x02, 0x01, 0x00] }) ∧
    Encoder.ValueX (NewEncoderEndian 3 DefaultEndian) (GoType.array 2 GoType.int16)
        (Data.seq (DataList.ofList [Data.int 1, Data.int 2])) =
      Res.ok (none, { NewEncoderEndian 3 DefaultEndian with pos := 3, buff := [0x02, 0x01, 0x00] }) := by
  refine ⟨by decide, by decide, by decide⟩

/-- C23: for a value of an unsupported kind (`uintptr`, channel, function,
interface, unsafe pointer) and for a slice, an array or a map whose element, key
or value type is not a valid user type, `Encoder.ValueX` returns the
unsupported-type error without panicking, and the encoder is left as
`resetBoolCoder` left it: buffer and position are those before the call. -/
theorem valuex_unsupported_type (e : Encoder) (t : GoType) (x : Data)
    (h : t = GoType.uintptr ∨ t = GoType.chan ∨ t = GoType.func ∨ t = GoType.interface ∨
      t = GoType.unsafePointer ∨
      (∃ el, t = GoType.slice el ∧ validUserType el = false) ∨
      (∃ n el, t = GoType.array n el ∧ validUserType el = false) ∨
      (∃ kt vt, t = GoType.map kt vt ∧
        (validUserType kt = false ∨ validUserType vt = false))) :
    Encoder.ValueX e t x = Res.ok (some Err.unsupportedType, coder.resetBoolCoder e) ∧
    (coder.resetBoolCoder e).buff = e.buff ∧ (coder.resetBoolCoder e).pos = e.pos := by
  refine ⟨?_, rfl, rfl⟩
  rcases h with h | h | h | h | h | ⟨el, h, hv⟩ | ⟨n, el, h, hv⟩ | ⟨kt, vt, h, hv⟩
  · subst h; cases x <;> rfl
  · subst h; cases x <;> rfl
  · subst h; cases x <;> rfl
  · subst h; cases x <;> rfl
  · subst h; cases x <;> rfl
  · subst h
    unfold Encoder.ValueX
    simp only [fastValue_invalid_elem _ el x hv]
    exact value_slice_invalid _ el x false hv
  · subst h
    have hf : Encoder.fastValue (coder.resetBoolCoder e) (GoType.array n el) x =
        (false, none, coder.resetBoolCoder e) := rfl
    unfold Encoder.ValueX
    simp only [hf]
    exact value_array_invalid _ n el x false hv
  · subst h
    have hf : Encoder.fastValue (coder.resetBoolCoder e) (GoType.map kt vt) x =
        (false, none, coder.resetBoolCoder e) := rfl
    unfold Encoder.ValueX
    simp only [hf]
    exact value_map_invalid _ kt vt x false hv

/-- Witness of C23: a channel, and a slice of channels, in a zeroed 4-byte
encoder. -/
theorem valuex_unsupported_type_witness :
    Encoder.ValueX (NewEncoderEndian 4 DefaultEndian) GoType.chan Data.other =
      Res.ok (some Err.unsupportedType, coder.resetBoolCoder (NewEncoderEndian 4 DefaultEndian)) ∧
    Encoder.ValueX (NewEncoderEndian 4 DefaultEndian) (GoType.slice GoType.chan)
        (Data.seq (DataList.ofList [Data.other])) =
      Res.ok (some Err.unsupportedType, coder.resetBoolCoder (NewEncoderEndian 4 DefaultEndian)) :=
  ⟨(valuex_unsupported_type (NewEncoderEndian 4 DefaultEndian) GoType.chan Data.other
      (Or.inr (Or.inl rfl))).1,
   (valuex_unsupported_type (NewEncoderEndian 4 DefaultEndian) (GoType.slice GoType.chan)
      (Data.seq (DataList.ofList [Data.other]))
      (Or.inr (Or.inr (Or.inr (Or.inr (Or.inr (Or.inl ⟨GoType.chan, rfl, by decide⟩))))))).1⟩

/-- C24: for every `x` whose type is not a pointer type and implements no
serializer capability, `Decoder.Value` returns the non-pointer error; `x` and
the decoder, its position included, are as before the call. -/
theorem decode_non_pointer (d : Decoder) (t : GoType) (x : Data) (h : t.isPtr = false) :
    Decoder.Value d noCapabilities t x = Res.ok (some Err.nonPointer, some (x, d)) := by
  have hf : Decoder.fastValue d t x = Res.ok (false, x, d) := by
    cases t <;> first | rfl | exact Bool.noConfusion h
  unfold Decoder.Value
  simp [noCapabilities, hf, h]

/-- Witness of C24: a `uint32` passed by value to a decoder over `44 33 22 11`. -/
theorem decode_non_pointer_witness :
    GoType.uint32.isPtr = false ∧
    Decoder.Value (Decoder.Init [0x44, 0x33, 0x22, 0x11] DefaultEndian) noCapabilities
        GoType.uint32 (Data.uint 0) =
      Res.ok (some Err.nonPointer,
        some (Data.uint 0, Decoder.Init [0x44, 0x33, 0x22, 0x11] DefaultEndian)) :=
  ⟨by decide,
   decode_non_pointer (Decoder.Init [0x44, 0x33, 0x22, 0x11] DefaultEndian) GoType.uint32
     (Data.uint 0) (by decide)⟩

/-- C25 (evaluation at a failing input): `Decoder.Value` of `05 1f` into a
pointer to a `[3]bool` does not return: the index out of range raised at the
fourth element carries a string, the assertion `info.(error)` of the deferred
function fails on it, and that panic escapes. Buffer exhaustion and a varint
overflow are returned as errors. -/
theorem decode_index_panic_escapes :
    Decoder.Value (Decoder.Init [0x05, 0x1f] DefaultEndian) noCapabilities
        (GoType.ptr (GoType.array 3 GoType.bool))
        (Data.ptr (Data.seq (DataList.ofList [Data.bool false, Data.bool false,
          Data.bool false]))) =
      Res.panic Err.typeAssertion ∧
    Decoder.Value (Decoder.Init [] DefaultEndian) noCapabilities
        (GoType.ptr GoType.uint32) (Data.ptr (Data.uint 0)) =
      Res.ok (some Err.buffOverflow, none) ∧
    Decoder.Value
        (Decoder.Init [0xff, 0xff, 0xff, 0xff, 0xff, 0xff, 0xff, 0xff, 0xff, 0x02]
          DefaultEndian) noCapabilities
        (GoType.ptr GoType.uint) (Data.ptr (Data.uint 0)) =
      Res.ok (some Err.uvarintOverflow, none) := by
  refine ⟨by decide, by decide, by decide⟩

/-- C26 (counterexample): `Encoder.String` of "abc" on a zeroed
2-byte encoder fails after writing the length prefix: it returns the buffer
error with the position advanced to 1 and `03` in the buffer. `Encoder.Complex64`
on a 6-byte encoder and `Encoder.Complex128` on a 12-byte encoder fail after
writing the real part, with the position advanced by 4 and by 8. -/
theorem string_complex_partial_write :
    Encoder.String (NewEncoderEndian 2 DefaultEndian) [0x61, 0x62, 0x63] =
      (some Err.buffOverflow,
        { NewEncoderEndian 2 DefaultEndian with pos := 1, buff := [0x03, 0x00] }) ∧
    Encoder.Complex64 (NewEncoderEndian 6 DefaultEndian) 0x3f800000 0x40000000 =
      (some Err.buffOverflow,
        { NewEncoderEndian 6 DefaultEndian with pos := 4, buff := [0, 0, 0x80, 0x3f, 0, 0] }) ∧
    Encoder.Complex128 (NewEncoderEndian 12 DefaultEndian) 1 2 =
      (some Err.buffOverflow,
        { NewEncoderEndian 12 DefaultEndian with
          pos := 8, buff := [1, 0, 0, 0, 0, 0, 0, 0, 0, 0, 0, 0] }) := by
  refine ⟨by decide, by decide, by decide⟩

/-- C26 (amended): a write that reserves once is all or nothing. `Uint8`, `Int8`,
the unpacked `Uint16/32/64` and `Int16/32/64`, `Float32` and `Float64` need
their width, the packed integer writes, `Uvarint` and `Varint` need the length
of the varint, a `Bool` that opens a run needs one byte: with that room the
write returns no error and advances the position by exactly that number, without
it the write returns the buffer error and leaves the encoder as it was; a `Bool`
inside a run produces no byte and cannot fail. `String` reserves twice: it fails
unchanged when the length prefix does not fit, and when only the prefix fits it
fails with the position advanced by the prefix. `Complex64` and `Complex128`
write two parts: they fail unchanged when the real part does not fit, and when
only the real part fits they fail with the position advanced by 4 or 8. -/
theorem write_all_or_nothing (e : Encoder) (x : Nat) (n : Int) (b : bool) (s : List Nat)
    (re im : Nat) :
    ((e.boolBit ≠ 0 → (Encoder.Bool e b).1 = none ∧ (Encoder.Bool e b).2.pos = e.pos) ∧
      (e.boolBit = 0 → AllOrNothing (Encoder.Bool e b) e 1)) ∧
    (AllOrNothing (Encoder.Uint8 e x) e 1 ∧ AllOrNothing (Encoder.Int8 e n) e 1 ∧
      AllOrNothing (Encoder.Uint16 e x false) e 2 ∧
      AllOrNothing (Encoder.Int16 e n false) e 2 ∧
      AllOrNothing (Encoder.Uint32 e x false) e 4 ∧
      AllOrNothing (Encoder.Int32 e n false) e 4 ∧
      AllOrNothing (Encoder.Uint64 e x false) e 8 ∧
      AllOrNothing (Encoder.Int64 e n false) e 8 ∧
      AllOrNothing (Encoder.Float32 e x) e 4 ∧ AllOrNothing (Encoder.Float64 e x) e 8) ∧
    (AllOrNothing (Encoder.Uint16 e x true) e (SizeofUvarint x) ∧
      AllOrNothing (Encoder.Uint32 e x true) e (SizeofUvarint x) ∧
      AllOrNothing (Encoder.Uint64 e x true) e (SizeofUvarint x) ∧
      AllOrNothing (Encoder.Int16 e n true) e (SizeofUvarint (ToUvarint n)) ∧
      AllOrNothing (Encoder.Int32 e n true) e (SizeofUvarint (ToUvarint n)) ∧
      AllOrNothing (Encoder.Int64 e n true) e (SizeofUvarint (ToUvarint n)) ∧
      AllOrNothing ((Encoder.Uvarint e x).1.2, (Encoder.Uvarint e x).2) e (SizeofUvarint x) ∧
      AllOrNothing ((Encoder.Varint e n).1.2, (Encoder.Varint e n).2) e
        (SizeofUvarint (ToUvarint n))) ∧
    ((e.pos + (SizeofUvarint s.length + s.length) ≤ e.buff.length →
        Advances (Encoder.String e s) e (SizeofUvarint s.length + s.length)) ∧
      (¬ e.pos + SizeofUvarint s.length ≤ e.buff.length →
        Encoder.String e s = (some Err.buffOverflow, e)) ∧
      (e.pos + SizeofUvarint s.length ≤ e.buff.length →
        ¬ e.pos + (SizeofUvarint s.length + s.length) ≤ e.buff.length →
        (Encoder.String e s).1 = some Err.buffOverflow ∧
        (Encoder.String e s).2.pos = e.pos + SizeofUvarint s.length ∧
        (Encoder.String e s).2 = (Encoder.Uvarint e s.length).2)) ∧
    ((e.pos + 8 ≤ e.buff.length → Advances (Encoder.Complex64 e re im) e 8) ∧
      (¬ e.pos + 4 ≤ e.buff.length →
        Encoder.Complex64 e re im = (some Err.buffOverflow, e)) ∧
      (e.pos + 4 ≤ e.buff.length → ¬ e.pos + 8 ≤ e.buff.length →
        (Encoder.Complex64 e re im).1 = some Err.buffOverflow ∧
        (Encoder.Complex64 e re im).2.pos = e.pos + 4 ∧
        (Encoder.Complex64 e re im).2 = (Encoder.Uint32 e re false).2)) ∧
    ((e.pos + 16 ≤ e.buff.length → Advances (Encoder.Complex128 e re im) e 16) ∧
      (¬ e.pos + 8 ≤ e.buff.length →
        Encoder.Complex128 e re im = (some Err.buffOverflow, e)) ∧
      (e.pos + 8 ≤ e.buff.length → ¬ e.pos + 16 ≤ e.buff.length →
        (Encoder.Complex128 e re im).1 = some Err.buffOverflow ∧
        (Encoder.Complex128 e re im).2.pos = e.pos + 8 ∧
        (Encoder.Complex128 e re im).2 = (Encoder.Uint64 e re false).2)) := by
  refine ⟨⟨fun h => ?_, Bool_allOrNothing e b⟩, ?_, ?_, String_partial e s,
    Complex64_partial e re im, Complex128_partial e re im⟩
  · rw [Encoder_Bool_open e b h]
    exact ⟨rfl, rfl⟩
  · exact ⟨Uint8_allOrNothing e x, Uint8_allOrNothing e _, Uint16_allOrNothing e x,
      Uint16_allOrNothing e _, Uint32_allOrNothing e x, Uint32_allOrNothing e _,
      Uint64_allOrNothing e x, Uint64_allOrNothing e _, Uint32_allOrNothing e x,
      Uint64_allOrNothing e x⟩
  · exact ⟨Uvarint_allOrNothing e x, Uvarint_allOrNothing e x, Uvarint_allOrNothing e x,
      Uvarint_allOrNothing e _, Uvarint_allOrNothing e _, Uvarint_allOrNothing e _,
      Uvarint_allOrNothing e x, Uvarint_allOrNothing e _⟩

/-- Witness of C26 (amended): `Uint32` on a zeroed 3-byte encoder fails and
leaves the encoder as it was; `String` of "abc" on a zeroed 2-byte encoder has
room for the prefix only and fails with the position at 1. -/
theorem write_all_or_nothing_witness :
    ¬ (NewEncoderEndian 3 DefaultEndian).pos + 4 ≤ (NewEncoderEndian 3 DefaultEndian).buff.length ∧
    Encoder.Uint32 (NewEncoderEndian 3 DefaultEndian) 7 false =
      (some Err.buffOverflow, NewEncoderEndian 3 DefaultEndian) :=
  ⟨by decide,
   ((write_all_or_nothing (NewEncoderEndian 3 DefaultEndian) 7 0 false [] 0 0).2.1.2.2.2.2.1).2
     (by decide)⟩

/-- C27 (counterexample): on a zeroed 2-byte encoder, an `Encode` that reports no
error and returns a slice of 3 bytes makes `Encoder.Serializer` abort in
`mustReserve`: the position does not advance by 3. -/
theorem serializer_long_slice_aborts :
    Encoder.Serializer (NewEncoderEndian 2 DefaultEndian)
        (some (fun w => (w, [0x01, 0x02, 0x03], none))) =
      Res.panic Err.buffOverflow := by
  decide

/-- C27 (amended): `Encoder.Serializer` on a value without the encode capability
returns an error and leaves the encoder as it was. On a value with the
capability, `Encode` is called on the unwritten remainder `buff[pos:]`; if it
reports an error, that error is returned and the position is unchanged;
otherwise, when the returned slice is no longer than the remainder, the
position advances by exactly its length and no error is returned, and when it
is longer the call aborts. -/
theorem serializer_advances_by_result (e : Encoder) (encode : EncodeMethod)
    (hpos : e.pos ≤ e.buff.length) :
    Encoder.Serializer e none = Res.ok (some Err.unsupportedType, e) ∧
    (∀ err, (encode (e.buff.drop e.pos)).2.2 = some err →
      ∃ e1, Encoder.Serializer e (some encode) = Res.ok (some err, e1) ∧ e1.pos = e.pos) ∧
    ((encode (e.buff.drop e.pos)).2.2 = none →
      (encode (e.buff.drop e.pos)).2.1.length ≤ e.buff.length - e.pos →
      ∃ e1, Encoder.Serializer e (some encode) = Res.ok (none, e1) ∧
        e1.pos = e.pos + (encode (e.buff.drop e.pos)).2.1.length ∧
        e1.buff = writeAt e.buff e.pos (encode (e.buff.drop e.pos)).1) ∧
    ((encode (e.buff.drop e.pos)).2.2 = none →
      e.buff.length - e.pos < (encode (e.buff.drop e.pos)).2.1.length →
      Encoder.Serializer e (some encode) = Res.panic Err.buffOverflow) := by
  refine ⟨rfl, ?_, ?_, ?_⟩
  · intro err h
    refine ⟨{ e with buff := writeAt e.buff e.pos (encode (e.buff.drop e.pos)).1 }, ?_, rfl⟩
    simp only [Encoder.Serializer, h]
  · intro h hfit
    simp only [Encoder.Serializer, h, coder.mustReserve, coder.reserve, writeAt_length]
    rw [if_pos (by omega)]
    exact ⟨_, rfl, rfl, rfl⟩
  · intro h hfit
    simp only [Encoder.Serializer, h, coder.mustReserve, coder.reserve, writeAt_length]
    rw [if_neg (by omega)]

/-- Witness of C27 (amended): an `Encode` that writes `aa bb` into the window
and returns those two bytes, on a zeroed 4-byte encoder. -/
theorem serializer_advances_by_result_witness :
    (NewEncoderEndian 4 DefaultEndian).pos ≤ (NewEncoderEndian 4 DefaultEndian).buff.length ∧
    ∃ e1, Encoder.Serializer (NewEncoderEndian 4 DefaultEndian)
        (some (fun _ => ([0xaa, 0xbb], [0xaa, 0xbb], none))) = Res.ok (none, e1) ∧
      e1.pos = (NewEncoderEndian 4 DefaultEndian).pos + 2 ∧
      e1.buff = writeAt (NewEncoderEndian 4 DefaultEndian).buff 0 [0xaa, 0xbb] :=
  ⟨by decide,
   (serializer_advances_by_result (NewEncoderEndian 4 DefaultEndian)
      (fun _ => ([0xaa, 0xbb], [0xaa, 0xbb], none)) (by decide)).2.2.1 rfl (by decide)⟩

/-- C28: `Decoder.Value` on a destination whose type implements some but not all
of the three serializer capabilities (`Unpacker` without `Sizer`, `Unpacker` and
`Sizer` without `Packer`, or `Sizer` or `Packer` without `Unpacker`) returns the
contract error raised by the interface verification; the destination and the
decoder, its position included, are as before the call, and `Unpack` is not
called. -/
theorem decode_partial_contract (d : Decoder) (c : Capabilities) (t : GoType) (x : Data)
    (h : (c.unpack.isSome = true ∧ c.size = none) ∨
      (c.unpack.isSome = true ∧ c.size.isSome = true ∧ c.packer = false) ∨
      (c.unpack = none ∧ (c.size.isSome = true ∨ c.packer = true))) :
    Decoder.Value d c t x = Res.ok (some Err.serializerContract, some (x, d)) := by
  obtain ⟨u, s, p⟩ := c
  unfold Decoder.Value
  rcases h with ⟨h1, h2⟩ | ⟨h1, h2, h3⟩ | ⟨h1, h2⟩
  · simp only at h1 h2
    subst h2
    cases u with
    | none => simp at h1
    | some f => simp [Err.isError]
  · simp only at h1 h2 h3
    subst h3
    cases u with
    | none => simp at h1
    | some f =>
      cases s with
      | none => simp at h2
      | some n => simp [Err.isError]
  · simp only at h1 h2
    subst h1
    rcases h2 with h2 | h2
    · cases s with
      | none => simp at h2
      | some n => simp [Err.isError]
    · subst h2
      simp [Err.isError]

/-- Witness of C28: a destination with `Unpack` and `Size` but no `Packer`, and
one with `Size` only, over the buffer `01 02`. -/
theorem decode_partial_contract_witness :
    Decoder.Value (Decoder.Init [0x01, 0x02] DefaultEndian)
        { unpack := some (fun _ => (Data.uint 7, none)), size := some 2, packer := false }
        (GoType.ptr GoType.uint16) (Data.ptr (Data.uint 0)) =
      Res.ok (some Err.serializerContract,
        some (Data.ptr (Data.uint 0), Decoder.Init [0x01, 0x02] DefaultEndian)) ∧
    Decoder.Value (Decoder.Init [0x01, 0x02] DefaultEndian)
        { unpack := none, size := some 2, packer := false }
        (GoType.ptr GoType.uint16) (Data.ptr (Data.uint 0)) =
      Res.ok (some Err.serializerContract,
        some (Data.ptr (Data.uint 0), Decoder.Init [0x01, 0x02] DefaultEndian)) :=
  ⟨decode_partial_contract _ _ _ _ (Or.inr (Or.inl ⟨rfl, rfl, rfl⟩)),
   decode_partial_contract _ _ _ _ (Or.inr (Or.inr ⟨rfl, Or.inl rfl⟩))⟩

/-- C29 (counterexample): over the 2-byte buffer `01 02`, a destination with the
full contract whose `Unpack` succeeds and whose `Size()` is 3 makes
`Decoder.Value` return the buffer error; the cursor does not advance by 3. -/
theorem decode_contract_size_beyond_buffer :
    Decoder.Value (Decoder.Init [0x01, 0x02] DefaultEndian)
        { unpack := some (fun _ => (Data.ptr (Data.uint 7), none)), size := some 3,
          packer := true }
        (GoType.ptr GoType.uint16) (Data.ptr (Data.uint 0)) =
      Res.ok (some Err.buffOverflow,
        some (Data.ptr (Data.uint 7), Decoder.Init [0x01, 0x02] DefaultEndian)) := by
  decide

/-- C29 (amended): for a destination with the full serializer contract,
`Decoder.Value` calls `Unpack` on the unread remainder `buff[pos:]` and runs no
generic traversal (the outcome does not depend on the type or on
`Decoder.value`). If `Unpack` reports an error, that error is returned and the
cursor does not move. If it succeeds, the cursor advances by the reported size
`s` when `0 < s` and `s` bytes remain, stays when `s ≤ 0`, and the buffer error
is returned with the cursor unmoved when fewer than `s` bytes remain. Hence,
for `s ≥ 0` and after an `Encoder.Serializer` call that wrote the bytes between
`e.pos` and `e1.pos`, decoding the written buffer from `e.pos` returns no error
with the cursor at `e1.pos` exactly when `s` equals the number of bytes
written. -/
theorem decode_full_contract (d : Decoder) (u : List Nat → Data × Option Err) (s : Int)
    (t : GoType) (x : Data) (hu : (u (d.buff.drop d.pos)).2 = none) :
    (∀ (u1 : List Nat → Data × Option Err) (err : Err),
      (u1 (d.buff.drop d.pos)).2 = some err →
      Decoder.Value d { unpack := some u1, size := some s, packer := true } t x =
        Res.ok (some err, some ((u1 (d.buff.drop d.pos)).1, d))) ∧
    (0 < s → d.pos + s.toNat ≤ d.buff.length →
      Decoder.Value d { unpack := some u, size := some s, packer := true } t x =
        Res.ok (none, some ((u (d.buff.drop d.pos)).1, { d with pos := d.pos + s.toNat }))) ∧
    (s ≤ 0 →
      Decoder.Value d { unpack := some u, size := some s, packer := true } t x =
        Res.ok (none, some ((u (d.buff.drop d.pos)).1, d))) ∧
    (0 < s → d.buff.length < d.pos + s.toNat →
      Decoder.Value d { unpack := some u, size := some s, packer := true } t x =
        Res.ok (some Err.buffOverflow, some ((u (d.buff.drop d.pos)).1, d))) ∧
    (∀ (e e1 : Encoder) (encode : EncodeMethod),
      Encoder.Serializer e (some encode) = Res.ok (none, e1) →
      d = { Decoder.Init (coder.Buffer e1) e1.endian with pos := e.pos } → 0 ≤ s →
      (Decoder.Value d { unpack := some u, size := some s, packer := true } t x =
          Res.ok (none, some ((u (d.buff.drop d.pos)).1, { d with pos := e1.pos })) ↔
        s = ((e1.pos - e.pos : Nat) : Int))) := by
  have hval := Value_full_contract d u s t x
  rcases hux : u (d.buff.drop d.pos) with ⟨x1, uerr⟩
  rw [hux] at hu hval
  simp only at hu
  subst hu
  simp only at hval
  have hpos : 0 < s → d.pos + s.toNat ≤ d.buff.length →
      Decoder.reserve d s =
        Res.ok ((d.buff.drop d.pos).take s.toNat, { d with pos := d.pos + s.toNat }) := by
    intro h0 hfit
    have := decoder_reserve_pos d s.toNat (by omega) hfit
    rwa [Int.toNat_of_nonneg (by omega)] at this
  have hneg : s ≤ 0 → Decoder.reserve d s = Res.ok ([], d) := by
    intro h0
    simp [Decoder.reserve, h0]
  have hover : 0 < s → d.buff.length < d.pos + s.toNat →
      Decoder.reserve d s = Res.panic Err.buffOverflow := by
    intro hs hfit
    have h0 : ¬ s ≤ 0 := by omega
    simp only [Decoder.reserve, h0, if_false]
    rw [if_neg (by omega)]
  refine ⟨?_, ?_, ?_, ?_, ?_⟩
  · intro u1 err h1
    rw [Value_full_contract d u1 s t x]
    rcases hu1 : u1 (d.buff.drop d.pos) with ⟨y1, e1⟩
    rw [hu1] at h1
    simp only at h1
    subst h1
    rfl
  · intro h0 hfit
    rw [hval, hpos h0 hfit]
  · intro h0
    rw [hval, hneg h0]
  · intro h0 hfit
    rw [hval, hover h0 hfit]
  · intro e e1 encode henc hd h0
    obtain ⟨hp1, hle, _⟩ := Serializer_ok_none e e1 encode henc
    have hlen : d.buff.length = e1.pos := by
      rw [hd]
      simp [Decoder.Init, coder.Buffer, hle]
    have hdp : d.pos = e.pos := by rw [hd]
    rw [hval]
    by_cases hs0 : s ≤ 0
    · have hs : s = 0 := by omega
      rw [hneg hs0]
      constructor
      · intro h
        simp only [Res.ok.injEq, Prod.mk.injEq, Option.some.injEq, true_and] at h
        have hpp : d.pos = e1.pos := by
          have := congrArg coder.pos h
          simpa using this
        rw [hs]
        omega
      · intro h
        have hpp : e1.pos = d.pos := by omega
        rw [hpp]
    · by_cases hfit : d.pos + s.toNat ≤ d.buff.length
      · rw [hpos (by omega) hfit]
        constructor
        · intro h
          simp only [Res.ok.injEq, Prod.mk.injEq, Option.some.injEq, true_and] at h
          have hpp : d.pos + s.toNat = e1.pos := by
            have := congrArg coder.pos h
            simpa using this
          omega
        · intro h
          have hpp : d.pos + s.toNat = e1.pos := by omega
          rw [hpp]
      · rw [hover (by omega) (by omega)]
        constructor
        · intro h
          simp at h
        · intro h
          omega

/-- Witness of C29 (amended): over `aa bb 00 00`, `Unpack` succeeds and `Size()`
is 2; the cursor advances to 2. -/
theorem decode_full_contract_witness :
    ((fun (_ : List Nat) => (Data.ptr (Data.uint 0xbbaa), (none : Option Err)))
        ((Decoder.Init [0xaa, 0xbb, 0x00, 0x00] DefaultEndian).buff.drop
          (Decoder.Init [0xaa, 0xbb, 0x00, 0x00] DefaultEndian).pos)).2 = none ∧
    Decoder.Value (Decoder.Init [0xaa, 0xbb, 0x00, 0x00] DefaultEndian)
        { unpack := some (fun _ => (Data.ptr (Data.uint 0xbbaa), none)), size := some 2,
          packer := true }
        (GoType.ptr GoType.uint16) (Data.ptr (Data.uint 0)) =
      Res.ok (none, some (Data.ptr (Data.uint 0xbbaa),
        { Decoder.Init [0xaa, 0xbb, 0x00, 0x00] DefaultEndian with pos := 2 })) :=
  ⟨rfl,
   (decode_full_contract (Decoder.Init [0xaa, 0xbb, 0x00, 0x00] DefaultEndian)
      (fun _ => (Data.ptr (Data.uint 0xbbaa), none)) 2 (GoType.ptr GoType.uint16)
      (Data.ptr (Data.uint 0)) rfl).2.1 (by decide) (by decide)⟩

/-- C30: for every encoder and every size `n`, after `ResizeBuffer(n)` the buffer
is at least `n` bytes long and the position is 0; the call returns true exactly
when the buffer was shorter than `n`, and then the buffer is a new zeroed buffer
of `n` bytes; otherwise the buffer is the one the encoder had. -/
theorem resize_buffer (e : Encoder) (n : Int) :
    n ≤ ((Encoder.ResizeBuffer e n).2.buff.length : Int) ∧
    (Encoder.ResizeBuffer e n).2.pos = 0 ∧
    ((Encoder.ResizeBuffer e n).1 = true ↔ (e.buff.length : Int) < n) ∧
    ((e.buff.length : Int) < n →
      (Encoder.ResizeBuffer e n).2.buff = List.replicate n.toNat 0 ∧
      ((Encoder.ResizeBuffer e n).2.buff.length : Int) = n) ∧
    (¬ (e.buff.length : Int) < n → (Encoder.ResizeBuffer e n).2.buff = e.buff) := by
  by_cases h : (e.buff.length : Int) < n
  · have hn : 0 ≤ n := by
      have := Int.natCast_nonneg e.buff.length
      omega
    simp [Encoder.ResizeBuffer, coder.Reset, h, Int.toNat_of_nonneg hn]
  · simp only [Encoder.ResizeBuffer, coder.Reset, h, decide_False, Bool.false_eq_true,
      if_false, not_false_eq_true, true_and, false_iff, IsEmpty.forall_iff, implies_true,
      and_true]
    omega

/-- Witness of C30: a 2-byte encoder at position 1 resized to 4 gets a new
4-byte buffer; resized to 1 it keeps its buffer; in both cases the position is
0. -/
theorem resize_buffer_witness :
    (Encoder.ResizeBuffer { NewEncoderEndian 2 DefaultEndian with pos := 1, buff := [7, 0] }
      4).2.buff = List.replicate 4 0 ∧
    (Encoder.ResizeBuffer { NewEncoderEndian 2 DefaultEndian with pos := 1, buff := [7, 0] }
      1).2.buff = [7, 0] ∧
    (Encoder.ResizeBuffer { NewEncoderEndian 2 DefaultEndian with pos := 1, buff := [7, 0] }
      4).2.pos = 0 :=
  ⟨((resize_buffer { NewEncoderEndian 2 DefaultEndian with pos := 1, buff := [7, 0] } 4).2.2.2.1
      (by decide)).1,
   (resize_buffer { NewEncoderEndian 2 DefaultEndian with pos := 1, buff := [7, 0] } 1).2.2.2.2
      (by decide),
   (resize_buffer { NewEncoderEndian 2 DefaultEndian with pos := 1, buff := [7, 0] } 4).2.1⟩

/-- C31 (evaluation at a failing input): on a decoder in memory over `01 02 03`,
`Skip(0)` and `Skip(-2)` return `-1` without moving, `Skip(2)` returns 2 with the
position at 2, and `Skip(4)` aborts. On a streaming decoder with a 4-byte buffer
and a reader that delivers `01 02 03`, `Skip(-1)` aborts (the slice expression
`buff[:size]` is out of bounds) and `Skip(0)` returns 0, not `-1`; `Skip(2)`
returns 2 and consumes two bytes of the stream. -/
theorem skip_streaming_nonpositive :
    ReaderDecoder.Skip { coder := Decoder.Init [1, 2, 3] DefaultEndian, reader := none } 0 =
      Res.ok (-1, { coder := Decoder.Init [1, 2, 3] DefaultEndian, reader := none }) ∧
    ReaderDecoder.Skip { coder := Decoder.Init [1, 2, 3] DefaultEndian, reader := none } (-2) =
      Res.ok (-1, { coder := Decoder.Init [1, 2, 3] DefaultEndian, reader := none }) ∧
    ReaderDecoder.Skip { coder := Decoder.Init [1, 2, 3] DefaultEndian, reader := none } 2 =
      Res.ok (2,
        { coder := { Decoder.Init [1, 2, 3] DefaultEndian with pos := 2 }, reader := none }) ∧
    ReaderDecoder.Skip { coder := Decoder.Init [1, 2, 3] DefaultEndian, reader := none } 4 =
      Res.panic Err.buffOverflow ∧
    ReaderDecoder.Skip
        { coder := Decoder.Init [0, 0, 0, 0] DefaultEndian, reader := some [[1, 2, 3]] } (-1) =
      Res.panic Err.sliceBounds ∧
    ReaderDecoder.Skip
        { coder := Decoder.Init [0, 0, 0, 0] DefaultEndian, reader := some [[1, 2, 3]] } 0 =
      Res.ok (0,
        { coder := Decoder.Init [0, 0, 0, 0] DefaultEndian, reader := some [[1, 2, 3]] }) ∧
    ReaderDecoder.Skip
        { coder := Decoder.Init [0, 0, 0, 0] DefaultEndian, reader := some [[1, 2, 3]] } 2 =
      Res.ok (2,
        { coder := Decoder.Init [1, 2, 0, 0] DefaultEndian, reader := some [[3]] }) := by
  refine ⟨by decide, by decide, by decide, by decide, by decide, by decide, by decide⟩

/-- C32 (evaluation at a failing input): a streaming `reserve(4)` on a reader that
delivers `01 02 03 04` in one read returns those four bytes; on a reader that
delivers the same bytes as `01 02` and then `03 04` it aborts with an unexpected
end of stream after the first read, although four bytes are available. -/
theorem reserve_streaming_short_read :
    ReaderDecoder.reserve
        { coder := Decoder.Init [] DefaultEndian, reader := some [[1, 2, 3, 4]] } 4 =
      Res.ok (some [1, 2, 3, 4],
        { coder := Decoder.Init [1, 2, 3, 4] DefaultEndian, reader := some [] }) ∧
    Reader.remaining [[1, 2], [3, 4]] = [1, 2, 3, 4] ∧
    ReaderDecoder.reserve
        { coder := Decoder.Init [] DefaultEndian, reader := some [[1, 2], [3, 4]] } 4 =
      Res.panic Err.unexpectedEOF := by
  refine ⟨by decide, by decide, by decide⟩

/-- C33 (evaluation at a failing input): the generic encoder on a non-nil
`**int32` that leads to `0x11223344` writes the presence flag `01` and nothing
else: the chain is not followed and the value is not in the output. Through
`Encoder.Value`, a `***int32` gives `01`, and the one-element slice
`[]**int32` gives `01 01`. -/
theorem pointer_chain_value_dropped :
    Encoder.value (NewEncoderEndian 5 DefaultEndian) (GoType.ptr (GoType.ptr GoType.int32))
        (Data.ptr (Data.ptr (Data.int 0x11223344))) false =
      Res.ok (none, { NewEncoderEndian 5 DefaultEndian with
        pos := 1, buff := [0x01, 0, 0, 0, 0], boolBit := 1, boolPos := 0 }) ∧
    Encoder.Value (NewEncoderEndian 5 DefaultEndian)
        (GoType.ptr (GoType.ptr (GoType.ptr GoType.int32)))
        (Data.ptr (Data.ptr (Data.ptr (Data.int 0x11223344)))) =
      Res.ok (none, { NewEncoderEndian 5 DefaultEndian with
        pos := 1, buff := [0x01, 0, 0, 0, 0], boolBit := 1, boolPos := 0 }) ∧
    Encoder.Value (NewEncoderEndian 6 DefaultEndian)
        (GoType.slice (GoType.ptr (GoType.ptr GoType.int32)))
        (Data.seq (DataList.ofList [Data.ptr (Data.ptr (Data.int 0x11223344))])) =
      Res.ok (none, { NewEncoderEndian 6 DefaultEndian with
        pos := 2, buff := [0x01, 0x01, 0, 0, 0, 0], boolBit := 1, boolPos := 1 }) := by
  refine ⟨by decide, by decide, by decide⟩

/-- C34 (evaluation at a failing input): on `02 01 00 02 00`, the encoding of
`[]int16{1, 2}`, `skipByType` advances the cursor by 5, as decoding does, but
returns 4: the length prefix is not counted. For a slice of strings it returns
the 6 bytes it advances by. On the bytes of an `int32` read through a `*int32`,
decoding consumes 4 bytes while `skipByType` returns `-1` and consumes
nothing. -/
theorem skip_by_type_result :
    Decoder.skipByType (GoType.slice GoType.int16)
        (Decoder.Init [2, 1, 0, 2, 0] DefaultEndian) =
      Res.ok (4, { Decoder.Init [2, 1, 0, 2, 0] DefaultEndian with pos := 5 }) ∧
    Decoder.value (GoType.slice GoType.int16) (Data.seq DataList.nil)
        (Decoder.Init [2, 1, 0, 2, 0] DefaultEndian) =
      Res.ok (none, Data.seq (DataList.ofList [Data.int 1, Data.int 2]),
        { Decoder.Init [2, 1, 0, 2, 0] DefaultEndian with pos := 5 }) ∧
    Decoder.skipByType (GoType.slice GoType.string)
        (Decoder.Init [2, 1, 0x61, 2, 0x62, 0x63] DefaultEndian) =
      Res.ok (6, { Decoder.Init [2, 1, 0x61, 2, 0x62, 0x63] DefaultEndian with pos := 6 }) ∧
    Decoder.value (GoType.ptr GoType.int32) Data.nilPtr
        (Decoder.Init [1, 0, 0, 0] DefaultEndian) =
      Res.ok (none, Data.ptr (Data.int 1),
        { Decoder.Init [1, 0, 0, 0] DefaultEndian with pos := 4 }) ∧
    Decoder.skipByType (GoType.ptr GoType.int32) (Decoder.Init [1, 0, 0, 0] DefaultEndian) =
      Res.ok (-1, Decoder.Init [1, 0, 0, 0] DefaultEndian) := by
  refine ⟨by decide, by decide, by decide, by decide, by decide⟩

/-- C35 (counterexample): on the `float32` signalling NaN with the bit pattern
`0x7fa00000` in a zeroed 4-byte encoder, `Encoder.fastValue` writes the pattern
as it is, `00 00 a0 7f`, while the generic `Encoder.value`, which writes
`float32(v.Float())`, writes the quiet NaN `00 00 e0 7f`. -/
theorem fast_path_float32_nan_differs :
    Encoder.fastValue (NewEncoderEndian 4 DefaultEndian) GoType.float32
        (Data.float 0x7fa00000) =
      (true, none, { NewEncoderEndian 4 DefaultEndian with
        pos := 4, buff := [0x00, 0x00, 0xa0, 0x7f] }) ∧
    Encoder.value (NewEncoderEndian 4 DefaultEndian) GoType.float32
        (Data.float 0x7fa00000) false =
      Res.ok (none, { NewEncoderEndian 4 DefaultEndian with
        pos := 4, buff := [0x00, 0x00, 0xe0, 0x7f] }) := by
  refine ⟨by decide, by decide⟩

/-- C35 (amended): `Encoder.fastValue` handles exactly the 32 types of
`isFastType` (the 16 scalar types and the slices of them). For every such type
`T`, every value `x` of type `T` in which no `float32` and no part of a
`complex64` is a signalling NaN, and every encoder with room for the
`fastSize T x` bytes of the encoding, `Encoder.fastValue` and the generic
`Encoder.value` with `packed = false` both return no error and leave the encoder
in the same state: the same bytes in the buffer and the same position. -/
theorem fast_path_equals_generic (e : Encoder) (T : GoType) (x : Data)
    (hf : isFastType T = true) (hx : x.hasType T = true)
    (hq : noSignallingNaN T x = true)
    (hroom : e.pos + fastSize T x ≤ e.buff.length) :
    (∀ (e1 : Encoder) (T1 : GoType) (x1 : Data),
      (Encoder.fastValue e1 T1 x1).1 = isFastType T1) ∧
    ∃ e2, Encoder.fastValue e T x = (true, none, e2) ∧
      Encoder.value e T x false = Res.ok (none, e2) := by
  obtain ⟨hv, herr⟩ := fastValue_generic_room e T x hf hx hq hroom
  have hflag := fastValue_flag e T x
  refine ⟨fastValue_flag, (Encoder.fastValue e T x).2.2, ?_, hv⟩
  rcases hfv : Encoder.fastValue e T x with ⟨b, err, e2⟩
  rw [hfv, hf] at hflag
  rw [hfv] at herr
  simp only at hflag herr
  rw [hflag, herr]

/-- Witness of C35 (amended): `[]int32{1, 2}` in a zeroed 9-byte encoder; both
paths write `02 01 00 00 00 02 00 00 00`. -/
theorem fast_path_equals_generic_witness :
    isFastType (GoType.slice GoType.int32) = true ∧
    (Data.seq (DataList.ofList [Data.int 1, Data.int 2])).hasType
      (GoType.slice GoType.int32) = true ∧
    noSignallingNaN (GoType.slice GoType.int32)
      (Data.seq (DataList.ofList [Data.int 1, Data.int 2])) = true ∧
    (NewEncoderEndian 9 DefaultEndian).pos +
        fastSize (GoType.slice GoType.int32)
          (Data.seq (DataList.ofList [Data.int 1, Data.int 2])) ≤
      (NewEncoderEndian 9 DefaultEndian).buff.length ∧
    Encoder.value (NewEncoderEndian 9 DefaultEndian) (GoType.slice GoType.int32)
        (Data.seq (DataList.ofList [Data.int 1, Data.int 2])) false =
      Res.ok (none, { NewEncoderEndian 9 DefaultEndian with
        pos := 9, buff := [2, 1, 0, 0, 0, 2, 0, 0, 0] }) ∧
    ∃ e2, Encoder.fastValue (NewEncoderEndian 9 DefaultEndian) (GoType.slice GoType.int32)
          (Data.seq (DataList.ofList [Data.int 1, Data.int 2])) = (true, none, e2) ∧
      Encoder.value (NewEncoderEndian 9 DefaultEndian) (GoType.slice GoType.int32)
          (Data.seq (DataList.ofList [Data.int 1, Data.int 2])) false = Res.ok (none, e2) :=
  ⟨by decide, by decide, by decide, by decide, by decide,
   (fast_path_equals_generic (NewEncoderEndian 9 DefaultEndian) (GoType.slice GoType.int32)
     (Data.seq (DataList.ofList [Data.int 1, Data.int 2])) (by decide) (by decide)
     (by decide) (by decide)).2⟩

/-- C36 (evaluation at a failing input): after `Bool(true)` on a new 1-byte
encoder a run is open (`boolBit = 1`, `boolPos = 0`, `pos = 1`). `Init(4)` on that
encoder sets the position to 0 and leaves the run open, so `boolPos < pos` no
longer holds; the next `Bool(true)` sets bit 1 of the byte at offset 0 of the new
buffer, which is not reserved (the position stays 0), and a following
`Uint8(7)` overwrites that byte. -/
theorem init_keeps_bool_run :
    Encoder.Bool (NewEncoderEndian 1 DefaultEndian) true =
      (none, { NewEncoderEndian 1 DefaultEndian with
        pos := 1, buff := [0x01], boolBit := 1, boolPos := 0 }) ∧
    Encoder.Init (Encoder.Bool (NewEncoderEndian 1 DefaultEndian) true).2 4 DefaultEndian =
      { NewEncoderEndian 4 DefaultEndian with pos := 0, boolBit := 1, boolPos := 0 } ∧
    Encoder.Bool
        (Encoder.Init (Encoder.Bool (NewEncoderEndian 1 DefaultEndian) true).2 4 DefaultEndian)
        true =
      (none, { NewEncoderEndian 4 DefaultEndian with
        pos := 0, buff := [0x02, 0, 0, 0], boolBit := 2, boolPos := 0 }) ∧
    Encoder.Uint8 (Encoder.Bool
        (Encoder.Init (Encoder.Bool (NewEncoderEndian 1 DefaultEndian) true).2 4 DefaultEndian)
        true).2 7 =
      (none, { NewEncoderEndian 4 DefaultEndian with
        pos := 1, buff := [0x07, 0, 0, 0], boolBit := 2, boolPos := 0 }) := by
  refine ⟨by decide, by decide, by decide, by decide⟩

end Binary
